import Mathlib

/-!
# zglog: the size-triggered rotating log writer (`logFile.go`)

A shallow embedding of `FLogger` (Write / Close / Rotate and the internal
rotate / openNew / openExistingOrNew / backupName paths) over an explicit
model of the log directory.

Modelling conventions
* The log directory `l.dir()` is a finite map from entry names to entries;
  a path `filepath.Join(l.dir(), x)` is the entry `x` of that map, so only
  `filepath.Base` and `filepath.Ext` of a path are computed.
* Containers written by `Rotate` live in the `backup` sub-directory.
  `World.zips` maps a container name to the entries handed to its zip
  writer so far; the container is a readable archive only once the deferred
  `zipWriter.Close()` has written its central directory, which
  `World.finalised` records. `Rotate` discards the result of both deferred
  closes.
* Every call that reaches the operating system consumes one decision of the
  fault schedule `World.faults` (`none`: the call behaves normally,
  `some k`: it reports an error after `k` units of progress) and is
  appended to `World.trace`; an empty schedule means no injected error.
  The decisions are independent of one another: in the code a write error
  on a container stays in the zip writer's buffer, so that the later
  `zipWriter.Close()` fails as well; the model admits these runs among
  others.
* `currentTime().Format(backupTimeFormat)` is read from the world
  (`todayLocal` / `todayUTC`).
* File sizes and write lengths are far below `2^63`, so `l.size + writeLen`
  is computed without wrap-around; `max()` keeps its `int64` wrap-around.
* Permission bits are not tracked.
-/

namespace Zglog

/-! ## Constants of `logFile.go` -/

/-- Suffix of log files (`logSuffix`). -/
def logSuffix : String := ".log"

/-- Suffix of containers (`compressSuffix`). -/
def compressSuffix : String := ".zip"

/-- Entry name of the container directory `./backup` inside the log directory. -/
def compressDir : String := "backup"

/-- Default maximum size in units of `megabyte` (`defaultMaxSize`). -/
def defaultMaxSize : Int := 100

/-- Conversion of an integer to `int64` (two's complement wrap-around). -/
def wrap64 (x : Int) : Int := (x + 2 ^ 63) % 2 ^ 64 - 2 ^ 63

/-! ## `path/filepath` on Unix -/

/-- The path separator test `os.IsPathSeparator`. -/
def isPathSeparator (c : Char) : Bool := c == '/'

/-- The function `filepath.Base` on the characters of a path. -/
def baseChars (p : List Char) : List Char :=
  if p = [] then ['.']
  else
    let e := ((p.reverse.dropWhile isPathSeparator).takeWhile (fun c => !isPathSeparator c)).reverse
    if e = [] then ['/'] else e

/-- The function `filepath.Base`. -/
def Base (p : String) : String := ⟨baseChars p.data⟩

/-- The function `filepath.Ext` on the characters of a path. -/
def extChars (p : List Char) : List Char :=
  let t := p.reverse.takeWhile (fun c => !isPathSeparator c)
  if t.contains '.' then '.' :: (t.takeWhile (fun c => c != '.')).reverse
  else []

/-- The function `filepath.Ext`. -/
def Ext (p : String) : String := ⟨extChars p.data⟩

/-- The function `strings.HasSuffix`. -/
def hasSuffix (s suf : String) : Bool := suf.data.isSuffixOf s.data

/-! ## The world: directory, containers, clock, counters, fault schedule -/

/-- An entry of the log directory. -/
inductive Entry where
  | file (data : List UInt8)
  | dir (size : Nat)
deriving DecidableEq, Repr

/-- The `IsDir` bit of an entry. -/
def Entry.isDir : Entry → Bool
  | .file _ => false
  | .dir _ => true

/-- The size `Stat` reports for an entry. -/
def Entry.size : Entry → Nat
  | .file d => d.length
  | .dir n => n

/-- Operations performed, in program order. `rotate` marks an entry into
`FLogger.rotate`; all others are calls that reach the operating system. -/
inductive Ev where
  | rotate
  | mkdirAll
  | stat (name : String)
  | rename (old new : String)
  | create (name : String)
  | openAppend (name : String)
  | write (name : String)
  | close (name : String)
  | readDir
  | statZip (zip : String)
  | mkdirBackup
  | createZip (zip : String)
  | openSrc (name : String)
  | zipEntry (zip name : String)
  | copy (zip name : String)
  | remove (name : String)
  | zipClose (zip : String)
  | closeZip (zip : String)
deriving DecidableEq, Repr

/-- Process environment read by `filename()` and `max()`. -/
structure Env where
  megabyte : Int
  args0 : String
  tempDir : String
deriving DecidableEq, Repr

/-- Everything outside the `FLogger` value: the log directory, the
containers, the package-level counters, the clock and the fault schedule. -/
structure World where
  files : List (String × Entry)
  zips : List (String × List (String × List UInt8))
  finalised : List String
  counter : Nat
  compressCounter : Nat
  todayLocal : String
  todayUTC : String
  faults : List (Option Nat)
  trace : List Ev
deriving DecidableEq, Repr

/-- Binding of `name` to `e`, replacing any earlier binding. -/
def put {β : Type} (name : String) (e : β) (m : List (String × β)) : List (String × β) :=
  (name, e) :: m.filter (fun x => x.1 != name)

/-- Removal of the binding of `name`. -/
def del {β : Type} (name : String) (m : List (String × β)) : List (String × β) :=
  m.filter (fun x => x.1 != name)

/-- Record a marker in the trace. -/
def World.mark (w : World) (e : Ev) : World := { w with trace := w.trace ++ [e] }

/-- The next decision of the fault schedule; an exhausted schedule injects
no error. -/
def World.nextFault (w : World) : Option Nat :=
  match w.faults with
  | f :: _ => f
  | [] => none

/-- One call into the operating system: the next decision of the fault
schedule is consumed and the call is appended to the trace. -/
def World.sys (w : World) (e : Ev) : Option Nat × World :=
  (w.nextFault, { w with faults := w.faults.tail, trace := w.trace ++ [e] })

/-- The date `currentTime()` formats to, in local time or UTC. -/
def World.today (w : World) (loc : Bool) : String :=
  if loc then w.todayLocal else w.todayUTC

/-! ## Operating-system calls -/

/-- Result of `os.Stat`. -/
inductive StatResult where
  | info (size : Int)
  | notExist
  | failed
deriving DecidableEq, Repr

/-- The call `os.MkdirAll(l.dir(), 0755)`. -/
def osMkdirAll (w : World) : Bool × World :=
  let r := w.sys Ev.mkdirAll
  (r.1.isNone, r.2)

/-- The call `os.Stat` on an entry of the log directory. -/
def osStat (w : World) (name : String) : StatResult × World :=
  let r := w.sys (Ev.stat name)
  match r.1 with
  | some _ => (StatResult.failed, r.2)
  | none =>
    match r.2.files.lookup name with
    | some e => (StatResult.info e.size, r.2)
    | none => (StatResult.notExist, r.2)

/-- The call `os.Rename` between two entries of the log directory. -/
def osRename (w : World) (old new : String) : Bool × World :=
  let r := w.sys (Ev.rename old new)
  match r.1 with
  | some _ => (false, r.2)
  | none =>
    match r.2.files.lookup old with
    | none => (false, r.2)
    | some e =>
      if old = new then (true, r.2)
      else
        match r.2.files.lookup new with
        | some t =>
          if e.isDir = t.isDir then (true, { r.2 with files := put new e (del old r.2.files) })
          else (false, r.2)
        | none => (true, { r.2 with files := put new e (del old r.2.files) })

/-- The call `os.OpenFile(name, O_CREATE|O_WRONLY|O_TRUNC, mode)`; the
handle is the name of the entry it was opened on. -/
def osOpenFileTrunc (w : World) (name : String) : Option String × World :=
  let r := w.sys (Ev.create name)
  match r.1 with
  | some _ => (none, r.2)
  | none =>
    match r.2.files.lookup name with
    | some (Entry.dir _) => (none, r.2)
    | _ => (some name, { r.2 with files := put name (Entry.file []) r.2.files })

/-- The call `os.OpenFile(name, O_APPEND|O_WRONLY, 0644)`. -/
def osOpenFileAppend (w : World) (name : String) : Option String × World :=
  let r := w.sys (Ev.openAppend name)
  match r.1 with
  | some _ => (none, r.2)
  | none =>
    match r.2.files.lookup name with
    | some (Entry.file _) => (some name, r.2)
    | _ => (none, r.2)

/-- The call `(*os.File).Write`: number of bytes written, whether the call
succeeded, and the new world. A failing call writes a proper initial
segment of the data. -/
def fileWrite (w : World) (h : String) (p : List UInt8) : Nat × Bool × World :=
  let r := w.sys (Ev.write h)
  match r.2.files.lookup h with
  | some (Entry.file d) =>
    match r.1 with
    | some k =>
      let q := p.take (min k (p.length - 1))
      (q.length, false, { r.2 with files := put h (Entry.file (d ++ q)) r.2.files })
    | none => (p.length, true, { r.2 with files := put h (Entry.file (d ++ p)) r.2.files })
  | _ => (0, false, r.2)

/-- The call `(*os.File).Close`. -/
def fileClose (w : World) (h : String) : Bool × World :=
  let r := w.sys (Ev.close h)
  (r.1.isNone, r.2)

/-- One item of a directory listing (`os.DirEntry`). -/
structure DirEntry where
  name : String
  isDir : Bool
deriving DecidableEq, Repr

/-- Byte-wise comparison of two names, as used by the sort in `os.ReadDir`. -/
def nameLe : List Char → List Char → Bool
  | [], _ => true
  | _ :: _, [] => false
  | a :: s, b :: t => if a.toNat < b.toNat then true else if b.toNat < a.toNat then false else nameLe s t

/-- Insertion of an item into a listing sorted by name. -/
def insertByName (x : DirEntry) : List DirEntry → List DirEntry
  | [] => [x]
  | y :: ys => if nameLe x.name.data y.name.data then x :: y :: ys else y :: insertByName x ys

/-- Sort of a listing by name. -/
def sortByName : List DirEntry → List DirEntry
  | [] => []
  | x :: xs => insertByName x (sortByName xs)

/-- The call `os.ReadDir(l.dir())`: all entries, sorted by file name. -/
def osReadDir (w : World) : Option (List DirEntry) × World :=
  let r := w.sys Ev.readDir
  match r.1 with
  | some _ => (none, r.2)
  | none => (some (sortByName (r.2.files.map (fun x => DirEntry.mk x.1 x.2.isDir))), r.2)

/-- The call `os.Stat` on a container path: whether it reported no error. -/
def osStatZip (w : World) (zip : String) : Bool × World :=
  let r := w.sys (Ev.statZip zip)
  match r.1 with
  | some _ => (false, r.2)
  | none => ((r.2.zips.lookup zip).isSome, r.2)

/-- The call `os.MkdirAll` on the container directory. -/
def osMkdirAllBackup (w : World) : Bool × World :=
  let r := w.sys Ev.mkdirBackup
  match r.1 with
  | some _ => (false, r.2)
  | none =>
    match r.2.files.lookup compressDir with
    | some (Entry.dir _) => (true, r.2)
    | some (Entry.file _) => (false, r.2)
    | none => (true, { r.2 with files := put compressDir (Entry.dir 0) r.2.files })

/-- The call `os.Create` on a container path, followed by `zip.NewWriter`:
an empty container without central directory replaces whatever was there. -/
def osCreate (w : World) (zip : String) : Bool × World :=
  let r := w.sys (Ev.createZip zip)
  match r.1 with
  | some _ => (false, r.2)
  | none =>
    match r.2.files.lookup compressDir with
    | some (Entry.dir _) =>
      (true, { r.2 with zips := put zip [] r.2.zips,
                        finalised := r.2.finalised.filter (fun z => z != zip) })
    | _ => (false, r.2)

/-- The call `os.Open(src)` on an entry of the log directory: the data a
reader of the handle sees. -/
def osOpen (w : World) (name : String) : Option (List UInt8) × World :=
  let r := w.sys (Ev.openSrc name)
  match r.1 with
  | some _ => (none, r.2)
  | none =>
    match r.2.files.lookup name with
    | some (Entry.file d) => (some d, r.2)
    | _ => (none, r.2)

/-- The call `zipWriter.Create(name)`: a new, empty entry at the end of
what the zip writer of the container was given. -/
def zipCreate (w : World) (zip name : String) : Bool × World :=
  let r := w.sys (Ev.zipEntry zip name)
  match r.1 with
  | some _ => (false, r.2)
  | none =>
    match r.2.zips.lookup zip with
    | none => (false, r.2)
    | some es => (true, { r.2 with zips := put zip (es ++ [(name, [])]) r.2.zips })

/-- The call `io.Copy(fileInZip, f)`: the data read from `f` becomes the
data of the entry just created; a failing copy leaves an initial segment. -/
def ioCopy (w : World) (zip name : String) (data : List UInt8) : Bool × World :=
  let r := w.sys (Ev.copy zip name)
  match r.2.zips.lookup zip with
  | none => (false, r.2)
  | some es =>
    match r.1 with
    | some k => (false, { r.2 with zips := put zip (es.dropLast ++ [(name, data.take k)]) r.2.zips })
    | none => (true, { r.2 with zips := put zip (es.dropLast ++ [(name, data)]) r.2.zips })

/-- The call `os.Remove(src)` on an entry of the log directory. -/
def osRemove (w : World) (name : String) : Bool × World :=
  let r := w.sys (Ev.remove name)
  match r.1 with
  | some _ => (false, r.2)
  | none =>
    match r.2.files.lookup name with
    | none => (false, r.2)
    | some _ => (true, { r.2 with files := del name r.2.files })

/-! ## `FLogger` -/

/-- The errors the writer returns. -/
inductive Error where
  | oversized
  | mkdir
  | rename
  | openNew
  | statInfo
  | close
  | invalid
  | write
  | readDir
  | createZip
  | openLog
  | zipCreate
  | copy
  | remove
deriving DecidableEq, Repr

/-- The writer: configuration, `size`, and the handle `file` (the entry of
the log directory it was opened on, or `none` for a `nil` handle). -/
structure FLogger where
  Prefix : String
  MaxSize : Int
  LocalTime : Bool
  size : Int
  file : Option String
deriving DecidableEq, Repr

/-- The path of the active log file (`filename`). -/
def FLogger.filename (env : Env) (l : FLogger) : String :=
  if l.Prefix ≠ "" then l.Prefix ++ logSuffix
  else env.tempDir ++ "/" ++ (Base env.args0 ++ "-lumberjack.log")

/-- The maximum size in bytes of a log file before rolling (`max`). -/
def FLogger.max (env : Env) (l : FLogger) : Int :=
  if l.MaxSize = 0 then wrap64 (defaultMaxSize * env.megabyte)
  else wrap64 (l.MaxSize * env.megabyte)

/-- The internal `close`: closes the file if it is open. -/
def FLogger.close (l : FLogger) (w : World) : Option Error × FLogger × World :=
  match l.file with
  | none => (none, l, w)
  | some h =>
    let c := fileClose w h
    (if c.1 then none else some Error.close, { l with file := none }, c.2)

/-- The function `backupName`: the entry name of the backup inside the
directory of `path`, and the world with the counter advanced. -/
def backupName (path pfx : String) (loc : Bool) (w : World) : String × World :=
  let filename := Base path
  let ext := Ext filename
  let timestamp := w.today loc
  let w1 := { w with counter := w.counter + 1 }
  (Base pfx ++ "-" ++ timestamp ++ "_" ++ toString w1.counter ++ ext, w1)

/-- Lines 230-239 of `openNew`: create or truncate the active file and
take it as the current file. -/
def FLogger.openNewFile (env : Env) (l : FLogger) (w : World) : Option Error × FLogger × World :=
  let f := osOpenFileTrunc w (Base (l.filename env))
  match f.1 with
  | none => (some Error.openNew, l, f.2)
  | some h => (none, { l with file := some h, size := 0 }, f.2)

/-- The method `openNew`. -/
def FLogger.openNew (env : Env) (l : FLogger) (w : World) : Option Error × FLogger × World :=
  let m := osMkdirAll w
  if m.1 = false then (some Error.mkdir, l, m.2)
  else
    let name := l.filename env
    let st := osStat m.2 (Base name)
    match st.1 with
    | StatResult.info _ =>
      let b := backupName name l.Prefix l.LocalTime st.2
      let rn := osRename b.2 (Base name) b.1
      if rn.1 = false then (some Error.rename, l, rn.2)
      else l.openNewFile env rn.2
    | _ => l.openNewFile env st.2

/-- The internal `rotate`: close the current file, then `openNew`. -/
def FLogger.rotate (env : Env) (l : FLogger) (w : World) : Option Error × FLogger × World :=
  let c := l.close (w.mark Ev.rotate)
  match c.1 with
  | some e => (some e, c.2.1, c.2.2)
  | none => c.2.1.openNew env c.2.2

/-- The method `openExistingOrNew`. -/
def FLogger.openExistingOrNew (env : Env) (l : FLogger) (w : World) (writeLen : Int) :
    Option Error × FLogger × World :=
  let filename := l.filename env
  let st := osStat w (Base filename)
  match st.1 with
  | StatResult.notExist => l.openNew env st.2
  | StatResult.failed => (some Error.statInfo, l, st.2)
  | StatResult.info sz =>
    if sz + writeLen ≥ l.max env then l.rotate env st.2
    else
      let f := osOpenFileAppend st.2 (Base filename)
      match f.1 with
      | none => l.openNew env f.2
      | some h => (none, { l with file := some h, size := sz }, f.2)

/-- The method `Write`: bytes written, error, writer and world afterwards. -/
def FLogger.Write (env : Env) (l : FLogger) (w : World) (p : List UInt8) :
    Nat × Option Error × FLogger × World :=
  let writeLen : Int := p.length
  if writeLen > l.max env then (0, some Error.oversized, l, w)
  else
    let o := if l.file = none then l.openExistingOrNew env w writeLen else (none, l, w)
    match o.1 with
    | some e => (0, some e, o.2.1, o.2.2)
    | none =>
      let r := if o.2.1.size + writeLen > o.2.1.max env then o.2.1.rotate env o.2.2
               else (none, o.2.1, o.2.2)
      match r.1 with
      | some e => (0, some e, r.2.1, r.2.2)
      | none =>
        match r.2.1.file with
        | none => (0, some Error.invalid, r.2.1, r.2.2)
        | some h =>
          let x := fileWrite r.2.2 h p
          (x.1, if x.2.1 then none else some Error.write,
            { r.2.1 with size := r.2.1.size + x.1 }, x.2.2)

/-- The method `Close`. -/
def FLogger.Close (l : FLogger) (w : World) : Option Error × FLogger × World :=
  l.close w

/-- The name of the container inside the container directory
(`compressFileName`), and the world with the counter advanced. -/
def FLogger.compressFileName (l : FLogger) (w : World) : String × World :=
  let timestamp := w.today l.LocalTime
  let w1 := { w with compressCounter := w.compressCounter + 1 }
  (timestamp ++ "_" ++ toString w1.compressCounter ++ compressSuffix, w1)

/-- The selection loop of `Rotate` (lines 145-153). -/
def selectCompress (env : Env) (l : FLogger) (files : List DirEntry) : List DirEntry :=
  files.filter (fun f => !f.isDir && (hasSuffix f.name logSuffix && f.name != Base (l.filename env)))

/-- The compression loop of `Rotate` (lines 170-189) over the selected
files, writing into container `zip`. -/
def compressLoop (zip : String) : World → List DirEntry → Option Error × World
  | w, [] => (none, w)
  | w, fi :: rest =>
    let f := osOpen w fi.name
    match f.1 with
    | none => (some Error.openLog, f.2)
    | some data =>
      let c := zipCreate f.2 zip fi.name
      if c.1 = false then (some Error.zipCreate, c.2)
      else
        let cp := ioCopy c.2 zip fi.name data
        if cp.1 = false then (some Error.copy, cp.2)
        else
          let rm := osRemove cp.2 fi.name
          if rm.1 = false then (some Error.remove, rm.2)
          else compressLoop zip rm.2 rest

/-- The deferred `zipWriter.Close()` (line 168): when it succeeds the
central directory is written and the container becomes a readable archive
of the entries given to the writer; when it fails the container stays
without central directory. -/
def zipWriterClose (w : World) (zip : String) : Bool × World :=
  let r := w.sys (Ev.zipClose zip)
  match r.1 with
  | some _ => (false, r.2)
  | none => (true, { r.2 with finalised := zip :: r.2.finalised })

/-- The deferred `archive.Close()` (line 164). -/
def archiveClose (w : World) (zip : String) : Bool × World :=
  let r := w.sys (Ev.closeZip zip)
  (r.1.isNone, r.2)

/-- The two deferred calls of `Rotate`, run in reverse order of their
`defer` statements on every return after the container was created; the
result of neither is looked at. -/
def deferredClose (zip : String) (w : World) : World :=
  (archiveClose (zipWriterClose w zip).2 zip).2

/-- Lines 141-168 of `Rotate`: list the directory, select the files, and
create the container. Returns the error, the selected files, the name of
the container and the world. -/
def FLogger.openContainer (env : Env) (l : FLogger) (w : World) :
    Option Error × List DirEntry × String × World :=
  let d := osReadDir w
  match d.1 with
  | none => (some Error.readDir, [], "", d.2)
  | some files =>
    let compressFile := selectCompress env l files
    let cn := l.compressFileName d.2
    let st := osStatZip cn.2 cn.1
    let w3 := if st.1 = false then (osMkdirAllBackup st.2).2 else st.2
    let a := osCreate w3 cn.1
    if a.1 = false then (some Error.createZip, compressFile, cn.1, a.2)
    else (none, compressFile, cn.1, a.2)

/-- Lines 141-190 of `Rotate`: the archive step that follows `rotate`. An
error before the container exists returns at once; afterwards the loop runs
and, whatever it returns, the deferred closes run. -/
def FLogger.archive (env : Env) (l : FLogger) (w : World) : Option Error × World :=
  let o := l.openContainer env w
  match o.1 with
  | some e => (some e, o.2.2.2)
  | none =>
    let r := compressLoop o.2.2.1 o.2.2.2 o.2.1
    (r.1, deferredClose o.2.2.1 r.2)

/-- The method `Rotate`: `rotate`, then the archive step. -/
def FLogger.Rotate (env : Env) (l : FLogger) (w : World) : Option Error × FLogger × World :=
  let r := l.rotate env w
  match r.1 with
  | some e => (some e, r.2.1, r.2.2)
  | none =>
    let a := r.2.1.archive env r.2.2
    (a.1, r.2.1, a.2)

/-- A freshly constructed writer: no handle, size zero. -/
def FLogger.fresh (pfx : String) (maxSize : Int) (localTime : Bool) : FLogger :=
  { Prefix := pfx, MaxSize := maxSize, LocalTime := localTime, size := 0, file := none }

/-! ## Auxiliary definitions used in the statements -/

/-- Value of a decimal digit character. -/
def digitVal (c : Char) : Nat := c.toNat - 48

/-- Value of a string of decimal digits, most significant first. -/
def decodeDec (cs : List Char) : Nat := cs.foldl (fun a c => 10 * a + digitVal c) 0

/-- The last element of a path that does not end in a separator. -/
def lastElem (q : List Char) : List Char :=
  (q.reverse.takeWhile (fun c => !isPathSeparator c)).reverse

/-- The entry name of the active file, `filepath.Base(l.filename())`. -/
def FLogger.active (env : Env) (l : FLogger) : String := Base (l.filename env)

/-- The operations a call performed: the part of the trace of `w2` that was
appended after `w1`. -/
def newEvents (w1 w2 : World) : List Ev := w2.trace.drop w1.trace.length

/-- The names bound in a directory. -/
def names {β : Type} (m : List (String × β)) : List String := m.map (fun x => x.1)

/-- The size of the entry `name` on disk, zero when it is absent. -/
def diskSize (w : World) (name : String) : Int :=
  match w.files.lookup name with
  | some e => e.size
  | none => 0

/-- The trace of `w2` extends the trace of `w1` by `evs`, and the rotation
counter did not decrease. -/
def Extends (w1 w2 : World) (evs : List Ev) : Prop :=
  w2.trace = w1.trace ++ evs ∧ w1.counter ≤ w2.counter

/-- A sequence of `Write` calls on one writer, in the order in which the
lock serialises them. -/
def writeAll (env : Env) : FLogger × World → List (List UInt8) → FLogger × World
  | s, [] => s
  | s, p :: ps =>
    writeAll env ((FLogger.Write env s.1 s.2 p).2.2.1, (FLogger.Write env s.1 s.2 p).2.2.2) ps

/-- The names and sizes of the entries of the log directory. -/
def listing (w : World) : List (String × Nat) := w.files.map (fun x => (x.1, x.2.size))

/-- An environment in which `megabyte` is mocked to 1024 bytes. -/
def testEnv : Env := { megabyte := 1024, args0 := "/usr/bin/app", tempDir := "/tmp" }

/-- A world with an empty log directory, no containers and no injected fault. -/
def emptyWorld : World :=
  { files := [], zips := [], finalised := [], counter := 0, compressCounter := 0,
    todayLocal := "2024-05-01", todayUTC := "2024-05-01", faults := [], trace := [] }

/-- A fresh writer with prefix `logs/app` and `MaxSize` 1, so that `max` is
1024 bytes in `testEnv`. -/
def testLogger : FLogger := FLogger.fresh "logs/app" 1 true

/-- A block of `n` zero bytes. -/
def block (n : Nat) : List UInt8 := List.replicate n 0

/-- The step of `Write` once a handle is held (lines 100-109). -/
def FLogger.writeHeld (env : Env) (l : FLogger) (w : World) (p : List UInt8) :
    Nat × Option Error × FLogger × World :=
  let r := if l.size + (p.length : Int) > l.max env then l.rotate env w else (none, l, w)
  match r.1 with
  | some e => (0, some e, r.2.1, r.2.2)
  | none =>
    match r.2.1.file with
    | none => (0, some Error.invalid, r.2.1, r.2.2)
    | some h =>
      let x := fileWrite r.2.2 h p
      (x.1, if x.2.1 then none else some Error.write,
        { r.2.1 with size := r.2.1.size + x.1 }, x.2.2)


/-- The size invariant of the writer: whenever a handle is held, it is a
handle on the active file, the active file is a regular file on disk, and
`size` is its length. -/
def Inv (env : Env) (s : FLogger × World) : Prop :=
  ∀ h, s.1.file = some h →
    h = s.1.active env ∧
    ∃ d, List.lookup (s.1.active env) s.2.files = some (Entry.file d) ∧ s.1.size = (d.length : Int)

/-- A world whose log directory holds only the active file `app.log` of
`testLogger`, with `n` bytes, left there by an earlier run. -/
def worldWith (n : Nat) : World :=
  { emptyWorld with files := [("app.log", Entry.file (block n))] }

/-- The data of the regular file `name`, empty when there is none. -/
def fileData (w : World) (name : String) : List UInt8 :=
  match w.files.lookup name with
  | some (Entry.file d) => d
  | _ => []

/-- Removal of several bindings. -/
def delAll {β : Type} (ns : List String) (m : List (String × β)) : List (String × β) :=
  ns.foldl (fun m n => del n m) m

/-- The container entry a fully archived file gives: its name and its data. -/
def entryOf (w : World) (fi : DirEntry) : String × List UInt8 := (fi.name, fileData w fi.name)

/-- What the container holds for the file at which the compression loop
failed with error `e`: nothing when the open or the entry creation failed,
an initial segment of the data when the copy failed, all of the data when
the delete failed. -/
def tailSpec (w : World) (fi : DirEntry) (e : Error) (tail : List (String × List UInt8)) : Prop :=
  (e = Error.openLog ∧ tail = []) ∨
  (e = Error.zipCreate ∧ tail = []) ∨
  (e = Error.copy ∧ ∃ k, tail = [(fi.name, (fileData w fi.name).take k)]) ∨
  (e = Error.remove ∧ tail = [(fi.name, fileData w fi.name)])

/-- The test of `Rotate` for a directory entry to be archived: not a
directory, name ending in `.log`, not the active file. -/
def eligible (env : Env) (l : FLogger) (x : String × Entry) : Bool :=
  !x.2.isDir && (hasSuffix x.1 logSuffix && x.1 != Base (l.filename env))

/-- The files `Rotate` selects in world `w`, in listing order. -/
def selected (env : Env) (l : FLogger) (w : World) : List DirEntry :=
  selectCompress env l (sortByName (w.files.map (fun x => DirEntry.mk x.1 x.2.isDir)))

/-- The directory before the compression loop: as before the archive step,
except that the container directory may have been created. -/
def FilesPre (w w1 : World) : Prop :=
  w1.files = w.files ∨
  (List.lookup compressDir w.files = none ∧ w1.files = put compressDir (Entry.dir 0) w.files)

/-- The calls a client, or the clock, can make on a writer. -/
inductive Action where
  | write (p : List UInt8)
  | rotate
  | close
  | clock (todayLocal todayUTC : String)

/-- One call on the writer, or one change of the date. -/
def step (env : Env) (s : FLogger × World) : Action → FLogger × World
  | Action.write p => ((s.1.Write env s.2 p).2.2.1, (s.1.Write env s.2 p).2.2.2)
  | Action.rotate => ((s.1.Rotate env s.2).2.1, (s.1.Rotate env s.2).2.2)
  | Action.close => ((s.1.Close s.2).2.1, (s.1.Close s.2).2.2)
  | Action.clock a b => (s.1, { s.2 with todayLocal := a, todayUTC := b })

/-- A sequence of calls, in the order in which the lock serialises them. -/
def run (env : Env) (s : FLogger × World) (acts : List Action) : FLogger × World :=
  acts.foldl (step env) s

/-- A world with a 300-byte active file of `testLogger` in which the twelfth
call into the operating system fails: in `Rotate` that is the delete of the
first archived file. -/
def removeFaultWorld : World :=
  { worldWith 300 with faults := List.replicate 11 none ++ [some 0] }

/-- The directory in which each file named in `groups` holds the
concatenation of the writes of its group, in order. -/
def groupFiles (groups : List (String × List (List UInt8))) : List (String × Entry) :=
  groups.map (fun g => (g.1, Entry.file g.2.flatten))

/-- The state of a fault-free run of writes from an empty directory:
`groups` lists, newest file first, the active file and the backups with
the writes each of them received. -/
def Good (env : Env) (s : FLogger × World) (groups : List (String × List (List UInt8))) : Prop :=
  s.2.faults = [] ∧ s.2.files = groupFiles groups ∧ (groups.map (fun g => g.1)).Nodup ∧
  (s.1.file = none → groups = []) ∧
  (∀ h, s.1.file = some h → h = s.1.active env ∧
    ∃ ga gs, groups = (s.1.active env, ga) :: gs ∧ s.1.size = (ga.flatten.length : Int)) ∧
  (∀ g ∈ groups, g.1 = s.1.active env ∨
    ∃ d c, c ≤ s.2.counter ∧ g.1 = Base s.1.Prefix ++ "-" ++ d ++ "_" ++ toString c ++ ".log")

/-- One `Write` call of a run: the date at which it is made and its data. -/
structure Call where
  todayLocal : String
  todayUTC : String
  data : List UInt8

/-- A `Write` call made at the date the call carries. -/
def writeCall (env : Env) (s : FLogger × World) (c : Call) :
    Nat × Option Error × FLogger × World :=
  s.1.Write env { s.2 with todayLocal := c.todayLocal, todayUTC := c.todayUTC } c.data

/-- A sequence of `Write` calls on one writer, in the order in which the
lock serialises them: the final state and, per call, what it returned. -/
def runCalls (env : Env) : FLogger × World → List Call →
    (FLogger × World) × List (Call × Nat × Option Error)
  | s, [] => (s, [])
  | s, c :: cs =>
    ((runCalls env ((writeCall env s c).2.2.1, (writeCall env s c).2.2.2) cs).1,
      (c, (writeCall env s c).1, (writeCall env s c).2.1) ::
        (runCalls env ((writeCall env s c).2.2.1, (writeCall env s c).2.2.2) cs).2)

/-- The calls that returned no error. -/
def okCalls (rs : List (Call × Nat × Option Error)) : List (Call × Nat × Option Error) :=
  rs.filter (fun r => r.2.2.isNone)

/-- The total number of bytes in the entries of a directory. -/
def totalBytes (files : List (String × Entry)) : Nat := (files.map (fun x => x.2.size)).sum

/-- What a reader of the container `zip` finds: the entries given to its
zip writer if the central directory was written, nothing otherwise. -/
def container (w : World) (zip : String) : Option (List (String × List UInt8)) :=
  if zip ∈ w.finalised then w.zips.lookup zip else none

/-- The environment makes no further call fail. -/
def NoFault (w : World) : Prop := ∀ f ∈ w.faults, f = none

/-- The step from `w` to `w'` finalises no container and, if the
environment makes no call fail from `w` on, it makes none fail from `w'`
on. -/
def Keeps (w w' : World) : Prop :=
  w'.finalised = w.finalised ∧ (NoFault w → NoFault w')

/-- A world whose log directory holds the active file `app.log` of
`testLogger` (300 bytes) and two other log files, `a.log` (10 bytes) and
`b.log` (20 bytes), with fault schedule `fs`. -/
def threeLogs (fs : List (Option Nat)) : World :=
  { emptyWorld with
    files := [("app.log", Entry.file (block 300)), ("a.log", Entry.file (block 10)),
      ("b.log", Entry.file (block 20))],
    faults := fs }

/-- The world `threeLogs` in which the fifteenth call into the operating
system fails after 100 bytes: in `Rotate` that is the copy of the second
selected file; the deferred `zipWriter.Close()` succeeds. -/
def copyFaultWorld : World := threeLogs (List.replicate 14 none ++ [some 100])

/-- The world `threeLogs` in which the copy of the second selected file
fails after 100 bytes and the deferred `zipWriter.Close()`, the next call,
fails as well: a write error on the container. -/
def stickyFaultWorld : World := threeLogs (List.replicate 14 none ++ [some 100, some 0])

/-- An empty directory in which the fifth call into the operating system,
the first write to the log file, fails after 3 bytes. -/
def shortWriteWorld : World := { emptyWorld with faults := [none, none, none, none, some 3] }

/-- An empty directory in which the twelfth call into the operating system
fails: in a run of six 200-byte writes with `max = 1024` that is the
`os.Stat` of `openNew` in the rotation the sixth write triggers. -/
def statFaultWorld : World := { emptyWorld with faults := List.replicate 11 none ++ [some 0] }

/-- Six 200-byte writes made on the same day. -/
def sixWrites : List Call := List.replicate 6 (Call.mk "2024-05-01" "2024-05-01" (block 200))

/-! ## Names: decimal counters, `Base`, `Ext` -/

theorem digitChar_val (k : Nat) (hk : k < 10) :
    digitVal (Nat.digitChar k) = k ∧ (Nat.digitChar k).isDigit = true := by
  interval_cases k <;> decide

theorem toDigitsCore_spec (fuel : Nat) : ∀ (n : Nat) (ds : List Char), n < fuel →
    ∃ pre, Nat.toDigitsCore 10 fuel n ds = pre ++ ds ∧ decodeDec pre = n ∧ pre ≠ [] ∧
      ∀ c ∈ pre, c.isDigit = true := by
  induction fuel with
  | zero => intro n ds h; omega
  | succ f ih =>
    intro n ds h
    have hd := digitChar_val (n % 10) (Nat.mod_lt _ (by decide))
    by_cases h0 : n / 10 = 0
    · refine ⟨[Nat.digitChar (n % 10)], ?_, ?_, by simp, ?_⟩
      · simp [Nat.toDigitsCore, h0]
      · simp [decodeDec, hd.1]; omega
      · intro c hc; simp at hc; rw [hc]; exact hd.2
    · obtain ⟨pre, h1, h2, _, h3⟩ := ih (n / 10) (Nat.digitChar (n % 10) :: ds) (by omega)
      refine ⟨pre ++ [Nat.digitChar (n % 10)], ?_, ?_, by simp, ?_⟩
      · simp [Nat.toDigitsCore, h0, h1]
      · unfold decodeDec at h2 ⊢
        rw [List.foldl_append, h2]
        simp [hd.1]; omega
      · intro c hc
        rcases List.mem_append.1 hc with hc | hc
        · exact h3 c hc
        · simp at hc; rw [hc]; exact hd.2

/-- The decimal rendering of a counter decodes to the counter, is not empty
and consists of digits. -/
theorem repr_spec (n : Nat) :
    decodeDec (toString n).data = n ∧ (toString n).data ≠ [] ∧
      ∀ c ∈ (toString n).data, c.isDigit = true := by
  obtain ⟨pre, h1, h2, h3, h4⟩ := toDigitsCore_spec (n + 1) n [] (by omega)
  have : (toString n).data = pre := by
    show (Nat.repr n).data = pre
    simp [Nat.repr, Nat.toDigits, h1, List.asString]
  rw [this]; exact ⟨h2, h3, h4⟩

theorem repr_no_underscore (n : Nat) : ∀ c ∈ (toString n).data, c ≠ '_' := by
  intro c hc h
  have := (repr_spec n).2.2 c hc
  rw [h] at this
  exact absurd this (by decide)

theorem append_underscore_inj (a b r s : List Char) (hr : ∀ c ∈ r, c ≠ '_')
    (hs : ∀ c ∈ s, c ≠ '_') (h : a ++ '_' :: r = b ++ '_' :: s) : r = s := by
  rcases List.append_eq_append_iff.1 h with ⟨t, _, h2⟩ | ⟨t, _, h2⟩
  · cases t with
    | nil => simpa using h2
    | cons x t =>
      simp at h2
      exact absurd rfl (hr '_' (by rw [h2.2]; simp))
  · cases t with
    | nil => simpa using h2.symm
    | cons x t =>
      simp at h2
      exact absurd rfl (hs '_' (by rw [h2.2]; simp))

/-- Two names of the backup format with the same stem and extension are
equal only if their counters are equal, whatever the dates. -/
theorem name_inj (b d1 d2 e : String) (m n : Nat)
    (h : b ++ "-" ++ d1 ++ "_" ++ toString m ++ e = b ++ "-" ++ d2 ++ "_" ++ toString n ++ e) :
    m = n := by
  have h' := congrArg String.data h
  simp only [String.data_append, List.append_assoc] at h'
  have h1 := List.append_cancel_left h'
  have h2 : ("-".data ++ d1.data) ++ '_' :: ((toString m).data) =
      ("-".data ++ d2.data) ++ '_' :: ((toString n).data) := by
    have := List.append_cancel_right (by simpa [List.append_assoc] using h1 :
      (("-".data ++ d1.data) ++ '_' :: ((toString m).data)) ++ e.data =
        (("-".data ++ d2.data) ++ '_' :: ((toString n).data)) ++ e.data)
    exact this
  have h3 := append_underscore_inj _ _ _ _ (repr_no_underscore m) (repr_no_underscore n) h2
  have := congrArg decodeDec h3
  rwa [(repr_spec m).1, (repr_spec n).1] at this

theorem baseChars_append_log (q : List Char) :
    baseChars (q ++ ['.', 'l', 'o', 'g']) = lastElem q ++ ['.', 'l', 'o', 'g'] := by
  simp [baseChars, lastElem, List.dropWhile, List.takeWhile, isPathSeparator]

theorem extChars_append_log (x : List Char) :
    extChars (x ++ ['.', 'l', 'o', 'g']) = ['.', 'l', 'o', 'g'] := by
  simp [extChars, List.takeWhile, isPathSeparator]

theorem baseChars_ne_nil (p : List Char) : baseChars p ≠ [] := by
  unfold baseChars
  split
  · simp
  · simp only
    split
    · simp
    · rename_i h; exact h

theorem lastElem_eq_nil_or_base (p : List Char) : lastElem p = [] ∨ lastElem p = baseChars p := by
  unfold lastElem baseChars
  rcases hr : p.reverse with _ | ⟨c, t⟩
  · left; simp
  · by_cases hc : isPathSeparator c = true
    · left; simp [List.takeWhile, hc]
    · right
      have hp : p ≠ [] := by intro h; simp [h] at hr
      simp [hp, hr, List.dropWhile, List.takeWhile, hc]

/-- The path of the active file always ends in `.log`. -/
theorem filename_form (env : Env) (l : FLogger) :
    ∃ q : List Char, (l.filename env).data = q ++ ['.', 'l', 'o', 'g'] ∧
      ((l.Prefix ≠ "" ∧ q = l.Prefix.data) ∨
       (l.Prefix = "" ∧ ∃ r, q = r ++ "-lumberjack".data)) := by
  unfold FLogger.filename
  by_cases h : l.Prefix = ""
  · refine ⟨env.tempDir.data ++ "/".data ++ (Base env.args0).data ++ "-lumberjack".data, ?_, ?_⟩
    · simp [h, String.data_append]
    · right; exact ⟨h, _, rfl⟩
  · refine ⟨l.Prefix.data, ?_, Or.inl ⟨h, rfl⟩⟩
    simp [h, String.data_append, logSuffix]

/-- The active entry name is the last path element followed by `.log`. -/
theorem active_data (env : Env) (l : FLogger) :
    ∃ q : List Char, (l.active env).data = lastElem q ++ ['.', 'l', 'o', 'g'] ∧
      ((l.Prefix ≠ "" ∧ q = l.Prefix.data) ∨
       (l.Prefix = "" ∧ ∃ r, q = r ++ "-lumberjack".data)) := by
  obtain ⟨q, hq, hc⟩ := filename_form env l
  refine ⟨q, ?_, hc⟩
  show baseChars (l.filename env).data = _
  rw [hq, baseChars_append_log]

/-- The extension copied into backup names is `.log`. -/
theorem ext_active (env : Env) (l : FLogger) : Ext (Base (l.filename env)) = ".log" := by
  obtain ⟨q, hq, _⟩ := active_data env l
  have : (Ext (Base (l.filename env))).data = ".log".data := by
    show extChars (l.active env).data = _
    rw [hq, extChars_append_log]
  exact String.ext this

/-- The name `backupName` returns, spelled out. -/
theorem backupName_fst (env : Env) (l : FLogger) (w : World) :
    (backupName (l.filename env) l.Prefix l.LocalTime w).1 =
      Base l.Prefix ++ "-" ++ w.today l.LocalTime ++ "_" ++ toString (w.counter + 1) ++ ".log" := by
  simp [backupName, ext_active]

theorem backupName_snd (path pfx : String) (loc : Bool) (w : World) :
    (backupName path pfx loc w).2 = { w with counter := w.counter + 1 } := rfl

theorem lastElem_append_lumberjack (r : List Char) :
    ∃ y, (lastElem (r ++ "-lumberjack".data)).reverse = 'k' :: y := by
  refine ⟨'c' :: 'a' :: 'j' :: 'r' :: 'e' :: 'b' :: 'm' :: 'u' :: 'l' :: '-' ::
    r.reverse.takeWhile (fun c => !isPathSeparator c), ?_⟩
  simp [lastElem, List.takeWhile, isPathSeparator]

/-- A backup name never coincides with the name of the active file. -/
theorem backup_ne_active (env : Env) (l : FLogger) (d : String) (c : Nat) :
    Base l.Prefix ++ "-" ++ d ++ "_" ++ toString c ++ ".log" ≠ l.active env := by
  intro h
  obtain ⟨q, hq, hc⟩ := active_data env l
  have h' := congrArg String.data h
  rw [hq] at h'
  simp only [String.data_append, List.append_assoc] at h'
  have h2 : (Base l.Prefix).data ++ (['-'] ++ (d.data ++ (['_'] ++ (toString c).data))) =
      lastElem q :=
    List.append_cancel_right (show _ ++ ['.', 'l', 'o', 'g'] = _ ++ ['.', 'l', 'o', 'g'] by
      simpa [List.append_assoc] using h')
  rcases hc with ⟨_, hq'⟩ | ⟨hp, r, hr⟩
  · subst hq'
    rcases lastElem_eq_nil_or_base l.Prefix.data with h3 | h3
    · rw [h3] at h2
      have := congrArg List.length h2
      simp at this
    · rw [h3] at h2
      have := congrArg List.length h2
      simp [Base] at this
  · subst hr
    obtain ⟨y, hy⟩ := lastElem_append_lumberjack r
    rw [← h2] at hy
    obtain ⟨h1, h2', h3⟩ := repr_spec c
    simp only [List.reverse_append] at hy
    rcases hrev : (toString c).data.reverse with _ | ⟨x, t⟩
    · simp at hrev; exact h2' hrev
    · rw [hrev] at hy
      simp at hy
      have hx : x ∈ (toString c).data := by
        have : x ∈ (toString c).data.reverse := by rw [hrev]; simp
        simpa using this
      have := h3 x hx
      rw [hy.1] at this
      exact absurd this (by decide)

/-! ## Finite maps as association lists -/

section Maps
variable {β : Type}

theorem lookup_filter_ne (a b : String) (m : List (String × β)) (h : a ≠ b) :
    List.lookup a (m.filter (fun x => x.1 != b)) = List.lookup a m := by
  induction m with
  | nil => rfl
  | cons x m ih =>
    obtain ⟨k, v⟩ := x
    by_cases hk : k = b
    · subst hk
      have : (a == k) = false := by simpa using h
      simp [List.filter, List.lookup, this, ih]
    · have hk' : (k != b) = true := by simpa using hk
      simp only [List.filter, hk', List.lookup]
      rw [ih]

theorem lookup_filter_self (a : String) (m : List (String × β)) :
    List.lookup a (m.filter (fun x => x.1 != a)) = none := by
  induction m with
  | nil => rfl
  | cons x m ih =>
    obtain ⟨k, v⟩ := x
    by_cases hk : k = a
    · subst hk; simp [List.filter, ih]
    · have hk' : (k != a) = true := by simpa using hk
      have : (a == k) = false := by simpa using fun h : a = k => hk h.symm
      simp [List.filter, hk', List.lookup, this, ih]

@[simp] theorem lookup_put_self (a : String) (e : β) (m : List (String × β)) :
    List.lookup a (put a e m) = some e := by
  simp [put, List.lookup]

theorem lookup_put_ne (a b : String) (e : β) (m : List (String × β)) (h : a ≠ b) :
    List.lookup a (put b e m) = List.lookup a m := by
  have : (a == b) = false := by simpa using h
  simp [put, List.lookup, this, lookup_filter_ne a b m h]

@[simp] theorem lookup_del_self (a : String) (m : List (String × β)) :
    List.lookup a (del a m) = none := lookup_filter_self a m

theorem lookup_del_ne (a b : String) (m : List (String × β)) (h : a ≠ b) :
    List.lookup a (del b m) = List.lookup a m := lookup_filter_ne a b m h

theorem lookup_eq_none_iff (a : String) (m : List (String × β)) :
    List.lookup a m = none ↔ a ∉ names m := by
  induction m with
  | nil => simp [names]
  | cons x m ih =>
    obtain ⟨k, v⟩ := x
    by_cases hk : a = k
    · subst hk; simp [List.lookup, names]
    · have : (a == k) = false := by simpa using hk
      simp only [List.lookup, this]
      rw [ih]
      simp [names, hk]

theorem lookup_isSome_iff (a : String) (m : List (String × β)) :
    (List.lookup a m).isSome ↔ a ∈ names m := by
  have := lookup_eq_none_iff a m
  cases h : List.lookup a m <;> simp_all

theorem filter_ne_of_not_mem (a : String) (m : List (String × β)) (h : a ∉ names m) :
    m.filter (fun x => x.1 != a) = m := by
  apply List.filter_eq_self.2
  intro x hx
  have : x.1 ≠ a := by
    intro e; apply h; rw [← e]; exact List.mem_map_of_mem _ hx
  simpa using this

theorem mem_names_put (n a : String) (e : β) (m : List (String × β)) :
    n ∈ names (put a e m) ↔ n = a ∨ n ∈ names m := by
  simp only [names, put, List.map_cons, List.mem_cons, List.mem_map, List.mem_filter]
  constructor
  · rintro (h | ⟨x, ⟨hx, _⟩, rfl⟩)
    · exact Or.inl h
    · exact Or.inr ⟨x, hx, rfl⟩
  · rintro (h | ⟨x, hx, rfl⟩)
    · exact Or.inl h
    · by_cases hxa : x.1 = a
      · exact Or.inl hxa
      · exact Or.inr ⟨x, ⟨hx, by simpa using hxa⟩, rfl⟩

theorem mem_names_del (n a : String) (m : List (String × β)) :
    n ∈ names (del a m) ↔ n ≠ a ∧ n ∈ names m := by
  simp only [names, del, List.mem_map, List.mem_filter]
  constructor
  · rintro ⟨x, ⟨hx, hne⟩, rfl⟩
    exact ⟨by simpa using hne, x, hx, rfl⟩
  · rintro ⟨hne, x, hx, rfl⟩
    exact ⟨x, ⟨hx, by simpa using hne⟩, rfl⟩

end Maps

/-! ## Effect of one operating-system call on the world -/

@[simp] theorem sys_fst (w : World) (e : Ev) : (w.sys e).1 = w.nextFault := rfl
@[simp] theorem sys_files (w : World) (e : Ev) : (w.sys e).2.files = w.files := rfl
@[simp] theorem sys_zips (w : World) (e : Ev) : (w.sys e).2.zips = w.zips := rfl
@[simp] theorem sys_finalised (w : World) (e : Ev) : (w.sys e).2.finalised = w.finalised := rfl
@[simp] theorem sys_counter (w : World) (e : Ev) : (w.sys e).2.counter = w.counter := rfl
@[simp] theorem sys_compressCounter (w : World) (e : Ev) :
    (w.sys e).2.compressCounter = w.compressCounter := rfl
@[simp] theorem sys_todayLocal (w : World) (e : Ev) : (w.sys e).2.todayLocal = w.todayLocal := rfl
@[simp] theorem sys_todayUTC (w : World) (e : Ev) : (w.sys e).2.todayUTC = w.todayUTC := rfl
@[simp] theorem sys_faults (w : World) (e : Ev) : (w.sys e).2.faults = w.faults.tail := rfl
@[simp] theorem sys_trace (w : World) (e : Ev) : (w.sys e).2.trace = w.trace ++ [e] := rfl

section MapsNodup
variable {β : Type}

theorem nodup_del (a : String) (m : List (String × β)) (h : (names m).Nodup) :
    (names (del a m)).Nodup :=
  List.Nodup.sublist (List.Sublist.map _ (List.filter_sublist _)) h

theorem nodup_put (a : String) (e : β) (m : List (String × β)) (h : (names m).Nodup) :
    (names (put a e m)).Nodup := by
  have h1 : names (put a e m) = a :: names (del a m) := rfl
  rw [h1]
  refine List.nodup_cons.2 ⟨?_, nodup_del a m h⟩
  intro hmem
  exact ((mem_names_del a a m).1 hmem).1 rfl

end MapsNodup

theorem lookup_of_mem_nodup {β : Type} (n : String) (e : β) : ∀ (m : List (String × β)),
    (names m).Nodup → (n, e) ∈ m → List.lookup n m = some e := by
  intro m
  induction m with
  | nil => intro _ h; simp at h
  | cons x m ih =>
    intro hnd hmem
    obtain ⟨k, v⟩ := x
    have hnd' : k ∉ names m ∧ (names m).Nodup := List.nodup_cons.1 hnd
    rcases List.mem_cons.1 hmem with h | h
    · have hk : n = k := congrArg Prod.fst h
      have hv : e = v := congrArg Prod.snd h
      subst hk; subst hv
      simp [List.lookup]
    · have hne : n ≠ k := by
        intro heq
        apply hnd'.1
        rw [← heq]
        exact List.mem_map.2 ⟨(n, e), h, rfl⟩
      have : (n == k) = false := by simpa using hne
      simp only [List.lookup, this]
      exact ih hnd'.2 h

section MapsShape
variable {β : Type}

theorem put_fresh (b : String) (e : β) (m : List (String × β)) (h : b ∉ names m) :
    put b e m = (b, e) :: m := by
  unfold put
  rw [filter_ne_of_not_mem b m h]

theorem put_cons_self (a : String) (x y : β) (m : List (String × β)) (h : a ∉ names m) :
    put a x ((a, y) :: m) = (a, x) :: m := by
  unfold put
  simp [List.filter, filter_ne_of_not_mem a m h]

theorem del_cons_self (a : String) (y : β) (m : List (String × β)) (h : a ∉ names m) :
    del a ((a, y) :: m) = m := by
  unfold del
  simp [List.filter, filter_ne_of_not_mem a m h]

end MapsShape

/-! ## Specifications of the internal paths -/

theorem Extends.trans {w1 w2 w3 : World} {e1 e2 : List Ev} (h1 : Extends w1 w2 e1)
    (h2 : Extends w2 w3 e2) : Extends w1 w3 (e1 ++ e2) := by
  unfold Extends at *
  refine ⟨?_, le_trans h1.2 h2.2⟩
  rw [h2.1, h1.1, List.append_assoc]

theorem Extends.newEvents {w1 w2 : World} {evs : List Ev} (h : Extends w1 w2 evs) :
    newEvents w1 w2 = evs := by
  unfold Extends at h
  simp [Zglog.newEvents, h.1]

theorem Extends.sys (w : World) (e : Ev) : Extends w (w.sys e).2 [e] := ⟨rfl, le_refl _⟩

theorem Extends.mark (w : World) (e : Ev) : Extends w (w.mark e) [e] := ⟨rfl, le_refl _⟩

theorem close_spec (l : FLogger) (w : World) :
    (l.close w).2.1 = { l with file := none } ∧
    (l.close w).2.2.files = w.files ∧
    Extends w (l.close w).2.2 (match l.file with | none => [] | some h => [Ev.close h]) := by
  unfold FLogger.close
  cases hf : l.file with
  | none =>
    refine ⟨?_, rfl, ?_⟩
    · cases l; simp_all
    · simp [Extends]
  | some h => exact ⟨rfl, rfl, rfl, le_refl _⟩

theorem osStat_snd (w : World) (n : String) : (osStat w n).2 = (w.sys (Ev.stat n)).2 := by
  unfold osStat
  cases hf : w.nextFault <;> cases hl : List.lookup n w.files <;> simp [hf, hl]

theorem osStat_fst (w : World) (n : String) :
    (osStat w n).1 =
      match w.nextFault with
      | some _ => StatResult.failed
      | none =>
        match List.lookup n w.files with
        | some e => StatResult.info e.size
        | none => StatResult.notExist := by
  unfold osStat
  cases hf : w.nextFault <;> cases hl : List.lookup n w.files <;> simp [hf, hl]

theorem osStat_info (w : World) (n : String) (sz : Int) (h : (osStat w n).1 = StatResult.info sz) :
    w.nextFault = none ∧ ∃ e, List.lookup n w.files = some e ∧ sz = e.size := by
  rw [osStat_fst] at h
  cases hf : w.nextFault <;> cases hl : List.lookup n w.files <;> simp [hf, hl] at h ⊢
  exact h.symm

theorem osStat_notExist (w : World) (n : String) (h : (osStat w n).1 = StatResult.notExist) :
    w.nextFault = none ∧ List.lookup n w.files = none := by
  rw [osStat_fst] at h
  cases hf : w.nextFault <;> cases hl : List.lookup n w.files <;> simp [hf, hl] at h ⊢

theorem osStat_failed (w : World) (n : String) (h : (osStat w n).1 = StatResult.failed) :
    w.faults ≠ [] := by
  rw [osStat_fst] at h
  intro hn
  cases hl : List.lookup n w.files <;> simp [World.nextFault, hn, hl] at h

theorem osRename_ok (w : World) (a b : String) (h : (osRename w a b).1 = true) :
    ∃ e, List.lookup a w.files = some e ∧ w.nextFault = none ∧
      (osRename w a b).2 =
        if a = b then (w.sys (Ev.rename a b)).2
        else { (w.sys (Ev.rename a b)).2 with files := put b e (del a w.files) } := by
  unfold osRename at h ⊢
  cases hf : w.nextFault with
  | some k => simp [hf] at h
  | none =>
    cases hl : List.lookup a w.files with
    | none => simp [hf, hl] at h
    | some e =>
      refine ⟨e, rfl, rfl, ?_⟩
      by_cases hab : a = b
      · subst hab; simp [hf, hl]
      · cases hb : List.lookup b w.files with
        | none => simp [hf, hl, hab, hb]
        | some t =>
          by_cases hk : e.isDir = t.isDir
          · simp [hf, hl, hab, hb, hk]
          · simp [hf, hl, hab, hb, hk] at h

theorem osRename_err (w : World) (a b : String) (h : (osRename w a b).1 = false) :
    (osRename w a b).2 = (w.sys (Ev.rename a b)).2 := by
  unfold osRename at h ⊢
  cases hf : w.nextFault with
  | some k => simp [hf]
  | none =>
    cases hl : List.lookup a w.files with
    | none => simp [hf, hl]
    | some e =>
      by_cases hab : a = b
      · subst hab; simp [hf, hl] at h
      · cases hb : List.lookup b w.files with
        | none => simp [hf, hl, hab, hb] at h
        | some t =>
          by_cases hk : e.isDir = t.isDir
          · simp [hf, hl, hab, hb, hk] at h
          · simp [hf, hl, hab, hb, hk]

theorem openNewFile_ok (env : Env) (l : FLogger) (w : World)
    (hok : (l.openNewFile env w).1 = none) :
    (l.openNewFile env w).2.1 = { l with file := some (l.active env), size := 0 } ∧
    (l.openNewFile env w).2.2 =
      { (w.sys (Ev.create (l.active env))).2 with
        files := put (l.active env) (Entry.file []) w.files } := by
  unfold FLogger.openNewFile osOpenFileTrunc at hok ⊢
  unfold FLogger.active
  cases hf : w.nextFault with
  | some k => simp [hf] at hok
  | none =>
    cases hl : List.lookup (Base (l.filename env)) w.files with
    | none => simp [hf, hl]
    | some e =>
      cases e with
      | file d => simp [hf, hl]
      | dir n => simp [hf, hl] at hok

theorem openNewFile_err (env : Env) (l : FLogger) (w : World)
    (herr : (l.openNewFile env w).1 ≠ none) :
    (l.openNewFile env w).2.1 = l ∧
    (l.openNewFile env w).2.2 = (w.sys (Ev.create (l.active env))).2 := by
  unfold FLogger.openNewFile osOpenFileTrunc at herr ⊢
  unfold FLogger.active
  cases hf : w.nextFault with
  | some k => simp [hf]
  | none =>
    cases hl : List.lookup (Base (l.filename env)) w.files with
    | none => simp [hf, hl] at herr
    | some e =>
      cases e with
      | file d => simp [hf, hl] at herr
      | dir n => simp [hf, hl]

/-- The name the next call of `backupName` generates for writer `l`. -/
theorem nextBackup_ne_active (env : Env) (l : FLogger) (w : World) :
    (backupName (l.filename env) l.Prefix l.LocalTime w).1 ≠ l.active env := by
  rw [backupName_fst]
  exact backup_ne_active env l _ _

theorem backupName_fst_sys (path pfx : String) (loc : Bool) (w : World) (e : Ev) :
    (backupName path pfx loc (w.sys e).2).1 = (backupName path pfx loc w).1 := rfl

/-- A successful `openNew`, spelled out: either nothing was renamed (the
stat did not find the active file), or the active file was renamed to the
generated backup name; in both cases an empty active file is created. -/
theorem openNew_ok (env : Env) (l : FLogger) (w : World) (hok : (l.openNew env w).1 = none) :
    (l.openNew env w).2.1 = { l with file := some (l.active env), size := 0 } ∧
    (((w.faults = [] → List.lookup (l.active env) w.files = none) ∧
      (l.openNew env w).2.2 = { w with
        files := put (l.active env) (Entry.file []) w.files
        faults := w.faults.tail.tail.tail
        trace := w.trace ++ [Ev.mkdirAll, Ev.stat (l.active env), Ev.create (l.active env)] }) ∨
     (∃ e, List.lookup (l.active env) w.files = some e ∧
      (l.openNew env w).2.2 = { w with
        files := put (l.active env) (Entry.file [])
          (put (backupName (l.filename env) l.Prefix l.LocalTime w).1 e (del (l.active env) w.files))
        counter := w.counter + 1
        faults := w.faults.tail.tail.tail.tail
        trace := w.trace ++ [Ev.mkdirAll, Ev.stat (l.active env),
          Ev.rename (l.active env) (backupName (l.filename env) l.Prefix l.LocalTime w).1,
          Ev.create (l.active env)] })) := by
  have hne := nextBackup_ne_active env l w
  unfold FLogger.openNew at hok ⊢
  cases hm : w.nextFault with
  | some k => simp [osMkdirAll, hm] at hok
  | none =>
    simp only [osMkdirAll, sys_fst, hm, Option.isNone_none, Bool.true_eq_false, if_false] at hok ⊢
    cases hs : (osStat (w.sys Ev.mkdirAll).2 (Base (l.filename env))).1 with
    | info sz =>
      simp only [hs, osStat_snd] at hok ⊢
      obtain ⟨_, e, he, _⟩ := osStat_info _ _ _ hs
      simp only [sys_files] at he
      by_cases hr : (osRename (backupName (l.filename env) l.Prefix l.LocalTime
          ((w.sys Ev.mkdirAll).2.sys (Ev.stat (Base (l.filename env)))).2).2
          (Base (l.filename env)) (backupName (l.filename env) l.Prefix l.LocalTime
          ((w.sys Ev.mkdirAll).2.sys (Ev.stat (Base (l.filename env)))).2).1).1 = false
      · simp [hr] at hok
      · have hr' := Bool.eq_true_of_not_eq_false hr
        simp only [hr', Bool.true_eq_false, if_false] at hok ⊢
        obtain ⟨h1, h2⟩ := openNewFile_ok env l _ hok
        refine ⟨h1, Or.inr ⟨e, he, ?_⟩⟩
        rw [h2]
        obtain ⟨e', he', _, hw⟩ := osRename_ok _ _ _ hr'
        simp only [backupName_snd, sys_files] at he'
        have hee : e' = e := by
          have : some e' = some e := by rw [← he', ← he]
          exact Option.some.inj this
        subst hee
        rw [hw]
        have hne' : ¬ (Base (l.filename env) = (backupName (l.filename env) l.Prefix l.LocalTime
          ((w.sys Ev.mkdirAll).2.sys (Ev.stat (Base (l.filename env)))).2).1) := by
          intro h; exact hne h.symm
        simp only [hne', if_false]
        simp [World.sys, World.today, backupName, FLogger.active, List.append_assoc]
    | notExist =>
      simp only [hs, osStat_snd] at hok ⊢
      obtain ⟨h1, h2⟩ := openNewFile_ok env l _ hok
      refine ⟨h1, Or.inl ⟨?_, ?_⟩⟩
      · intro _
        exact (osStat_notExist _ _ hs).2
      · rw [h2]; simp [World.sys, FLogger.active, List.append_assoc]
    | failed =>
      simp only [hs, osStat_snd] at hok ⊢
      obtain ⟨h1, h2⟩ := openNewFile_ok env l _ hok
      refine ⟨h1, Or.inl ⟨?_, ?_⟩⟩
      · intro hf
        exact absurd (by simp [hf]) (osStat_failed _ _ hs)
      · rw [h2]; simp [World.sys, FLogger.active, List.append_assoc]

theorem osRename_extends (w : World) (a b : String) :
    Extends w (osRename w a b).2 [Ev.rename a b] := by
  cases h : (osRename w a b).1 with
  | false => rw [osRename_err w a b h]; exact Extends.sys _ _
  | true =>
    obtain ⟨e, _, _, hw⟩ := osRename_ok w a b h
    rw [hw]
    split
    · exact Extends.sys _ _
    · exact ⟨rfl, le_refl _⟩

theorem openNewFile_extends (env : Env) (l : FLogger) (w : World) :
    Extends w (l.openNewFile env w).2.2 [Ev.create (l.active env)] := by
  by_cases h : (l.openNewFile env w).1 = none
  · rw [(openNewFile_ok env l w h).2]; exact ⟨rfl, le_refl _⟩
  · rw [(openNewFile_err env l w h).2]; exact Extends.sys _ _

/-- Whatever its outcome, `openNew` only appends to the trace, and it never
marks a rotation. -/
theorem openNew_extends (env : Env) (l : FLogger) (w : World) :
    ∃ evs, Extends w (l.openNew env w).2.2 evs ∧ Ev.rotate ∉ evs := by
  unfold FLogger.openNew
  cases hm : w.nextFault with
  | some k =>
    refine ⟨[Ev.mkdirAll], ?_, by simp⟩
    simp [osMkdirAll, hm, Extends]
  | none =>
    simp only [osMkdirAll, sys_fst, hm, Option.isNone_none, Bool.true_eq_false, if_false]
    have e1 : Extends w (w.sys Ev.mkdirAll).2 [Ev.mkdirAll] := ⟨rfl, by simp [backupName]⟩
    cases hs : (osStat (w.sys Ev.mkdirAll).2 (Base (l.filename env))).1 with
    | info sz =>
      simp only [hs, osStat_snd]
      have e2 : Extends (w.sys Ev.mkdirAll).2 (backupName (l.filename env) l.Prefix l.LocalTime
          ((w.sys Ev.mkdirAll).2.sys (Ev.stat (Base (l.filename env)))).2).2
          [Ev.stat (Base (l.filename env))] := ⟨rfl, by simp [backupName]⟩
      have e3 := osRename_extends (backupName (l.filename env) l.Prefix l.LocalTime
          ((w.sys Ev.mkdirAll).2.sys (Ev.stat (Base (l.filename env)))).2).2
          (Base (l.filename env)) (backupName (l.filename env) l.Prefix l.LocalTime
          ((w.sys Ev.mkdirAll).2.sys (Ev.stat (Base (l.filename env)))).2).1
      split
      · exact ⟨_, (e1.trans e2).trans e3, by simp⟩
      · exact ⟨_, ((e1.trans e2).trans e3).trans (openNewFile_extends env l _), by simp⟩
    | notExist =>
      simp only [hs, osStat_snd]
      have e2 : Extends (w.sys Ev.mkdirAll).2
          ((w.sys Ev.mkdirAll).2.sys (Ev.stat (Base (l.filename env)))).2
          [Ev.stat (Base (l.filename env))] := ⟨rfl, by simp [backupName]⟩
      exact ⟨_, (e1.trans e2).trans (openNewFile_extends env l _), by simp⟩
    | failed =>
      simp only [hs, osStat_snd]
      have e2 : Extends (w.sys Ev.mkdirAll).2
          ((w.sys Ev.mkdirAll).2.sys (Ev.stat (Base (l.filename env)))).2
          [Ev.stat (Base (l.filename env))] := ⟨rfl, by simp [backupName]⟩
      exact ⟨_, (e1.trans e2).trans (openNewFile_extends env l _), by simp⟩

/-- A failing `openNew` leaves the writer as it was. -/
theorem openNew_err (env : Env) (l : FLogger) (w : World) (herr : (l.openNew env w).1 ≠ none) :
    (l.openNew env w).2.1 = l := by
  unfold FLogger.openNew at herr ⊢
  cases hm : w.nextFault with
  | some k => simp [osMkdirAll, hm]
  | none =>
    simp only [osMkdirAll, sys_fst, hm, Option.isNone_none, Bool.true_eq_false, if_false] at herr ⊢
    cases hs : (osStat (w.sys Ev.mkdirAll).2 (Base (l.filename env))).1 with
    | info sz =>
      simp only [hs] at herr ⊢
      split
      · rfl
      · rename_i hr
        simp only [hr, if_false] at herr
        exact (openNewFile_err env l _ herr).1
    | notExist =>
      simp only [hs] at herr ⊢
      exact (openNewFile_err env l _ herr).1
    | failed =>
      simp only [hs] at herr ⊢
      exact (openNewFile_err env l _ herr).1

/-- The events of a successful `openNew` contain the creation of the active
file. -/
theorem openNew_ok_create (env : Env) (l : FLogger) (w : World)
    (hok : (l.openNew env w).1 = none) :
    Ev.create (l.active env) ∈ newEvents w (l.openNew env w).2.2 := by
  rcases (openNew_ok env l w hok).2 with ⟨_, h⟩ | ⟨e, _, h⟩ <;>
    simp [h, newEvents]

/-- After a successful `openNew` the active file is on disk and empty. -/
theorem openNew_ok_lookup (env : Env) (l : FLogger) (w : World)
    (hok : (l.openNew env w).1 = none) :
    List.lookup (l.active env) (l.openNew env w).2.2.files = some (Entry.file []) := by
  rcases (openNew_ok env l w hok).2 with ⟨_, h⟩ | ⟨e, _, h⟩ <;> simp [h]

theorem active_with_file (env : Env) (l : FLogger) (f : Option String) :
    FLogger.active env { l with file := f } = l.active env := rfl

/-- A rotation that reports no error closed the file without error and is
the `openNew` that follows. -/
theorem rotate_eq_of_ok (env : Env) (l : FLogger) (w : World) (hok : (l.rotate env w).1 = none) :
    (l.close (w.mark Ev.rotate)).1 = none ∧
    l.rotate env w =
      FLogger.openNew env { l with file := none } (l.close (w.mark Ev.rotate)).2.2 := by
  unfold FLogger.rotate at hok ⊢
  cases hc : (l.close (w.mark Ev.rotate)).1 with
  | some e => simp [hc] at hok
  | none =>
    simp only [hc]
    rw [(close_spec l _).1]
    trivial

/-- Whatever its outcome, `rotate` first marks the rotation and then only
appends to the trace. -/
theorem rotate_extends (env : Env) (l : FLogger) (w : World) :
    ∃ evs, Extends w (l.rotate env w).2.2 (Ev.rotate :: evs) := by
  have e0 : Extends w (w.mark Ev.rotate) [Ev.rotate] := Extends.mark _ _
  have e1 := (close_spec l (w.mark Ev.rotate)).2.2
  unfold FLogger.rotate
  cases hc : (l.close (w.mark Ev.rotate)).1 with
  | some e =>
    simp only [hc]
    exact ⟨_, e0.trans e1⟩
  | none =>
    simp only [hc]
    obtain ⟨evs, e2, _⟩ := openNew_extends env (l.close (w.mark Ev.rotate)).2.1
      (l.close (w.mark Ev.rotate)).2.2
    have := (e0.trans e1).trans e2
    exact ⟨_, by simpa [List.append_assoc] using this⟩

/-- After a failing `rotate` no handle is held. -/
theorem rotate_err (env : Env) (l : FLogger) (w : World) (herr : (l.rotate env w).1 ≠ none) :
    (l.rotate env w).2.1 = { l with file := none } := by
  unfold FLogger.rotate at herr ⊢
  cases hc : (l.close (w.mark Ev.rotate)).1 with
  | some e => simp only [hc]; exact (close_spec l _).1
  | none =>
    simp only [hc] at herr ⊢
    rw [openNew_err env _ _ herr]
    exact (close_spec l _).1

/-- After a successful `rotate` the writer holds a handle on the active
file, which is on disk and empty, and `size` is zero. -/
theorem rotate_ok (env : Env) (l : FLogger) (w : World) (hok : (l.rotate env w).1 = none) :
    (l.rotate env w).2.1 = { l with file := some (l.active env), size := 0 } ∧
    List.lookup (l.active env) (l.rotate env w).2.2.files = some (Entry.file []) ∧
    Ev.create (l.active env) ∈ newEvents w (l.rotate env w).2.2 := by
  obtain ⟨hc, heq⟩ := rotate_eq_of_ok env l w hok
  rw [heq] at hok ⊢
  refine ⟨(openNew_ok env _ _ hok).1, openNew_ok_lookup env _ _ hok, ?_⟩
  have h1 := openNew_ok_create env _ _ hok
  have e0 : Extends w (w.mark Ev.rotate) [Ev.rotate] := Extends.mark _ _
  have e1 := e0.trans (close_spec l (w.mark Ev.rotate)).2.2
  obtain ⟨evs, e2, _⟩ := openNew_extends env { l with file := none }
    (l.close (w.mark Ev.rotate)).2.2
  rw [e2.newEvents] at h1
  rw [(e1.trans e2).newEvents]
  simp only [List.mem_append]
  exact Or.inr h1

theorem osOpenFileAppend_snd (w : World) (n : String) :
    (osOpenFileAppend w n).2 = (w.sys (Ev.openAppend n)).2 := by
  unfold osOpenFileAppend
  cases hf : w.nextFault with
  | some k => simp [hf]
  | none =>
    cases hl : List.lookup n w.files with
    | none => simp [hf, hl]
    | some e => cases e <;> simp [hf, hl]

theorem osOpenFileAppend_some (w : World) (n h : String)
    (hh : (osOpenFileAppend w n).1 = some h) :
    h = n ∧ w.nextFault = none ∧ ∃ d, List.lookup n w.files = some (Entry.file d) := by
  unfold osOpenFileAppend at hh
  cases hf : w.nextFault with
  | some k => simp [hf] at hh
  | none =>
    cases hl : List.lookup n w.files with
    | none => simp [hf, hl] at hh
    | some e =>
      cases e with
      | file d =>
        simp [hf, hl] at hh
        exact ⟨hh.symm, rfl, d, rfl⟩
      | dir k => simp [hf, hl] at hh

/-- A successful `openExistingOrNew`: either a new, empty active file was
opened, or the existing file was adopted with its size on disk. -/
theorem openExistingOrNew_ok (env : Env) (l : FLogger) (w : World) (n : Int)
    (hok : (l.openExistingOrNew env w n).1 = none) :
    ((l.openExistingOrNew env w n).2.1 = { l with file := some (l.active env), size := 0 } ∧
      List.lookup (l.active env) (l.openExistingOrNew env w n).2.2.files = some (Entry.file []) ∧
      Ev.create (l.active env) ∈ newEvents w (l.openExistingOrNew env w n).2.2) ∨
    (∃ d, List.lookup (l.active env) w.files = some (Entry.file d) ∧
      (d.length : Int) + n < l.max env ∧
      (l.openExistingOrNew env w n).2.1 =
        { l with file := some (l.active env), size := (d.length : Int) } ∧
      (l.openExistingOrNew env w n).2.2 =
        ((w.sys (Ev.stat (l.active env))).2.sys (Ev.openAppend (l.active env))).2) := by
  have e0 : Extends w (w.sys (Ev.stat (Base (l.filename env)))).2
      [Ev.stat (Base (l.filename env))] := ⟨rfl, by simp [backupName]⟩
  unfold FLogger.openExistingOrNew at hok ⊢
  cases hs : (osStat w (Base (l.filename env))).1 with
  | notExist =>
    simp only [hs, osStat_snd] at hok ⊢
    left
    refine ⟨(openNew_ok env _ _ hok).1, openNew_ok_lookup env _ _ hok, ?_⟩
    have h1 := openNew_ok_create env _ _ hok
    obtain ⟨evs, e2, _⟩ := openNew_extends env l (w.sys (Ev.stat (Base (l.filename env)))).2
    rw [e2.newEvents] at h1
    rw [(e0.trans e2).newEvents]
    exact List.mem_append.2 (Or.inr h1)
  | failed => simp [hs] at hok
  | info sz =>
    simp only [hs, osStat_snd] at hok ⊢
    obtain ⟨_, e, he, hsz⟩ := osStat_info _ _ _ hs
    by_cases hge : sz + n ≥ l.max env
    · simp only [hge, if_true] at hok ⊢
      left
      obtain ⟨h1, h2, h3⟩ := rotate_ok env _ _ hok
      refine ⟨h1, h2, ?_⟩
      obtain ⟨evs, e2⟩ := rotate_extends env l (w.sys (Ev.stat (Base (l.filename env)))).2
      rw [e2.newEvents] at h3
      rw [(e0.trans e2).newEvents]
      exact List.mem_append.2 (Or.inr h3)
    · simp only [hge, if_false] at hok ⊢
      have e1 : Extends (w.sys (Ev.stat (Base (l.filename env)))).2
          ((w.sys (Ev.stat (Base (l.filename env)))).2.sys (Ev.openAppend (Base (l.filename env)))).2
          [Ev.openAppend (Base (l.filename env))] := ⟨rfl, by simp [backupName]⟩
      cases ho : (osOpenFileAppend (w.sys (Ev.stat (Base (l.filename env)))).2
          (Base (l.filename env))).1 with
      | none =>
        simp only [ho, osOpenFileAppend_snd] at hok ⊢
        left
        refine ⟨(openNew_ok env _ _ hok).1, openNew_ok_lookup env _ _ hok, ?_⟩
        have h1 := openNew_ok_create env _ _ hok
        obtain ⟨evs, e2, _⟩ := openNew_extends env l
          ((w.sys (Ev.stat (Base (l.filename env)))).2.sys
            (Ev.openAppend (Base (l.filename env)))).2
        rw [e2.newEvents] at h1
        rw [((e0.trans e1).trans e2).newEvents]
        exact List.mem_append.2 (Or.inr h1)
      | some h =>
        simp only [ho, osOpenFileAppend_snd]
        right
        obtain ⟨hh, _, d, hd⟩ := osOpenFileAppend_some _ _ _ ho
        simp only [sys_files] at hd
        have hed : e = Entry.file d := by
          have : some e = some (Entry.file d) := by rw [← he, ← hd]
          exact Option.some.inj this
        subst hed
        subst hh
        refine ⟨d, hd, ?_, ?_, rfl⟩
        · rw [hsz] at hge
          simpa [Entry.size] using hge
        · rw [hsz]; rfl

/-- A failing `openExistingOrNew` started without a handle ends without one. -/
theorem openExistingOrNew_err (env : Env) (l : FLogger) (w : World) (n : Int)
    (hf : l.file = none) (herr : (l.openExistingOrNew env w n).1 ≠ none) :
    (l.openExistingOrNew env w n).2.1.file = none := by
  unfold FLogger.openExistingOrNew at herr ⊢
  cases hs : (osStat w (Base (l.filename env))).1 with
  | notExist =>
    simp only [hs] at herr ⊢
    rw [openNew_err env _ _ herr]; exact hf
  | failed => simpa [hs] using hf
  | info sz =>
    simp only [hs] at herr ⊢
    by_cases hge : sz + n ≥ l.max env
    · simp only [hge, if_true] at herr ⊢
      rw [rotate_err env _ _ herr]
    · simp only [hge, if_false] at herr ⊢
      cases ho : (osOpenFileAppend (osStat w (Base (l.filename env))).2
          (Base (l.filename env))).1 with
      | none =>
        simp only [ho] at herr ⊢
        rw [openNew_err env _ _ herr]; exact hf
      | some h => simp [ho] at herr

/-- Whatever its outcome, `openExistingOrNew` only appends to the trace. -/
theorem openExistingOrNew_extends (env : Env) (l : FLogger) (w : World) (n : Int) :
    ∃ evs, Extends w (l.openExistingOrNew env w n).2.2 evs := by
  have e0 : Extends w (w.sys (Ev.stat (Base (l.filename env)))).2
      [Ev.stat (Base (l.filename env))] := ⟨rfl, by simp [backupName]⟩
  unfold FLogger.openExistingOrNew
  cases hs : (osStat w (Base (l.filename env))).1 with
  | notExist =>
    simp only [hs, osStat_snd]
    obtain ⟨evs, e2, _⟩ := openNew_extends env l (w.sys (Ev.stat (Base (l.filename env)))).2
    exact ⟨_, e0.trans e2⟩
  | failed =>
    simp only [hs, osStat_snd]
    exact ⟨_, e0⟩
  | info sz =>
    simp only [hs, osStat_snd]
    have e1 : Extends (w.sys (Ev.stat (Base (l.filename env)))).2
        ((w.sys (Ev.stat (Base (l.filename env)))).2.sys (Ev.openAppend (Base (l.filename env)))).2
        [Ev.openAppend (Base (l.filename env))] := ⟨rfl, by simp [backupName]⟩
    split
    · obtain ⟨evs, e2⟩ := rotate_extends env l (w.sys (Ev.stat (Base (l.filename env)))).2
      exact ⟨_, e0.trans e2⟩
    · split
      · simp only [osOpenFileAppend_snd]
        obtain ⟨evs, e2, _⟩ := openNew_extends env l
          ((w.sys (Ev.stat (Base (l.filename env)))).2.sys
            (Ev.openAppend (Base (l.filename env)))).2
        exact ⟨_, (e0.trans e1).trans e2⟩
      · simp only [osOpenFileAppend_snd]
        exact ⟨_, e0.trans e1⟩

/-! ## `Write` -/

/-- A write through a handle on a regular file appends an initial segment
of the data, all of it when the call succeeds, and returns its length. -/
theorem fileWrite_file (w : World) (h : String) (p d : List UInt8)
    (hl : List.lookup h w.files = some (Entry.file d)) :
    ∃ q, (fileWrite w h p).1 = q.length ∧
      (fileWrite w h p).2.2 =
        { (w.sys (Ev.write h)).2 with files := put h (Entry.file (d ++ q)) w.files } ∧
      ((fileWrite w h p).2.1 = true → q = p) ∧
      (w.nextFault = none → (fileWrite w h p).2.1 = true) := by
  unfold fileWrite
  cases hf : w.nextFault with
  | none => exact ⟨p, by simp [hl, hf]⟩
  | some k => exact ⟨p.take (min k (p.length - 1)), by simp [hl, hf]⟩

/-- A write through a handle whose entry is not a regular file fails and
writes nothing. -/
theorem fileWrite_bad (w : World) (h : String) (p : List UInt8)
    (hl : ∀ d, List.lookup h w.files ≠ some (Entry.file d)) :
    (fileWrite w h p).1 = 0 ∧ (fileWrite w h p).2.1 = false ∧
      (fileWrite w h p).2.2 = (w.sys (Ev.write h)).2 := by
  unfold fileWrite
  cases hl' : List.lookup h w.files with
  | none => simp [hl']
  | some e =>
    cases e with
    | dir k => simp [hl']
    | file d => exact absurd hl' (hl d)

theorem fileWrite_extends (w : World) (h : String) (p : List UInt8) :
    Extends w (fileWrite w h p).2.2 [Ev.write h] := by
  by_cases hl : ∃ d, List.lookup h w.files = some (Entry.file d)
  · obtain ⟨d, hd⟩ := hl
    obtain ⟨q, _, hw, _⟩ := fileWrite_file w h p d hd
    rw [hw]; exact ⟨rfl, le_refl _⟩
  · rw [(fileWrite_bad w h p (fun d hd => hl ⟨d, hd⟩)).2.2]
    exact Extends.sys _ _

/-- The method `Write` is the size check, the open-or-create path when no
handle is held, and then the step `writeHeld`. -/
theorem Write_eq (env : Env) (l : FLogger) (w : World) (p : List UInt8)
    (hlen : ¬ ((p.length : Int) > l.max env)) :
    l.Write env w p =
      match (if l.file = none then l.openExistingOrNew env w p.length else (none, l, w)).1 with
      | some e => (0, some e,
          (if l.file = none then l.openExistingOrNew env w p.length else (none, l, w)).2.1,
          (if l.file = none then l.openExistingOrNew env w p.length else (none, l, w)).2.2)
      | none => FLogger.writeHeld env
          (if l.file = none then l.openExistingOrNew env w p.length else (none, l, w)).2.1
          (if l.file = none then l.openExistingOrNew env w p.length else (none, l, w)).2.2 p := by
  unfold FLogger.Write FLogger.writeHeld
  simp only [hlen, if_false]

theorem Write_held (env : Env) (l : FLogger) (w : World) (p : List UInt8) (h : String)
    (hfile : l.file = some h) (hlen : ¬ ((p.length : Int) > l.max env)) :
    l.Write env w p = l.writeHeld env w p := by
  rw [Write_eq env l w p hlen]
  simp [hfile]

/-- Without overflow the step `writeHeld` is the single write. -/
theorem writeHeld_plain (env : Env) (l : FLogger) (w : World) (p : List UInt8) (h : String)
    (hfile : l.file = some h) (hfit : ¬ (l.size + (p.length : Int) > l.max env)) :
    l.writeHeld env w p =
      ((fileWrite w h p).1, (if (fileWrite w h p).2.1 then none else some Error.write),
        { l with size := l.size + (fileWrite w h p).1 }, (fileWrite w h p).2.2) := by
  unfold FLogger.writeHeld
  simp [hfit, hfile]

/-- With overflow the step `writeHeld` rotates first; when the rotation
fails nothing is written, otherwise the write goes to the new active file. -/
theorem writeHeld_rotate (env : Env) (l : FLogger) (w : World) (p : List UInt8)
    (hover : l.size + (p.length : Int) > l.max env) :
    ((l.rotate env w).1 ≠ none ∧
      l.writeHeld env w p = (0, (l.rotate env w).1, (l.rotate env w).2.1, (l.rotate env w).2.2)) ∨
    ((l.rotate env w).1 = none ∧
      l.writeHeld env w p =
        ((fileWrite (l.rotate env w).2.2 (l.active env) p).1,
          (if (fileWrite (l.rotate env w).2.2 (l.active env) p).2.1 then none
            else some Error.write),
          { l with file := some (l.active env),
                   size := 0 + (fileWrite (l.rotate env w).2.2 (l.active env) p).1 },
          (fileWrite (l.rotate env w).2.2 (l.active env) p).2.2)) := by
  unfold FLogger.writeHeld
  simp only [hover, if_true]
  cases hr : (l.rotate env w).1 with
  | some e => left; simp
  | none =>
    right
    have h1 := (rotate_ok env l w hr).1
    simp [h1]

theorem fileWrite_ok (w : World) (h : String) (p : List UInt8)
    (hok : (fileWrite w h p).2.1 = true) :
    (fileWrite w h p).1 = p.length ∧
    ∃ d, List.lookup h w.files = some (Entry.file d) ∧
      (fileWrite w h p).2.2 =
        { (w.sys (Ev.write h)).2 with files := put h (Entry.file (d ++ p)) w.files } := by
  by_cases hl : ∃ d, List.lookup h w.files = some (Entry.file d)
  · obtain ⟨d, hd⟩ := hl
    obtain ⟨q, h1, h2, h3, _⟩ := fileWrite_file w h p d hd
    have := h3 hok
    subst this
    exact ⟨h1, d, hd, h2⟩
  · have := (fileWrite_bad w h p (fun d hd => hl ⟨d, hd⟩)).2.1
    rw [this] at hok
    exact absurd hok (by simp)

/-- Whatever its outcome, the step `writeHeld` only appends to the trace. -/
theorem writeHeld_extends (env : Env) (l : FLogger) (w : World) (p : List UInt8) :
    ∃ evs, Extends w (l.writeHeld env w p).2.2.2 evs := by
  by_cases hover : l.size + (p.length : Int) > l.max env
  · obtain ⟨evs, e1⟩ := rotate_extends env l w
    rcases writeHeld_rotate env l w p hover with ⟨_, heq⟩ | ⟨_, heq⟩
    · rw [heq]; exact ⟨_, e1⟩
    · rw [heq]; exact ⟨_, e1.trans (fileWrite_extends _ _ _)⟩
  · cases hf : l.file with
    | none =>
      refine ⟨[], ?_⟩
      unfold FLogger.writeHeld
      simp [hover, hf, Extends]
    | some h =>
      rw [writeHeld_plain env l w p h hf hover]
      exact ⟨_, fileWrite_extends _ _ _⟩

/-- Whatever its outcome, `Write` only appends to the trace. -/
theorem Write_extends (env : Env) (l : FLogger) (w : World) (p : List UInt8) :
    ∃ evs, Extends w (l.Write env w p).2.2.2 evs := by
  by_cases hlen : (p.length : Int) > l.max env
  · refine ⟨[], ?_⟩
    unfold FLogger.Write
    simp [hlen, Extends]
  · rw [Write_eq env l w p hlen]
    cases hf : l.file with
    | some h =>
      simp only [reduceCtorEq, if_false]
      exact writeHeld_extends env l w p
    | none =>
      simp only [if_true]
      obtain ⟨evs, e1⟩ := openExistingOrNew_extends env l w p.length
      cases ho : (l.openExistingOrNew env w p.length).1 with
      | some e => exact ⟨_, e1⟩
      | none =>
        simp only
        obtain ⟨evs2, e2⟩ := writeHeld_extends env (l.openExistingOrNew env w p.length).2.1
          (l.openExistingOrNew env w p.length).2.2 p
        exact ⟨_, e1.trans e2⟩

/-- The step `writeHeld` preserves the size invariant. -/
theorem writeHeld_inv (env : Env) (l : FLogger) (w : World) (p : List UInt8)
    (hinv : Inv env (l, w)) :
    Inv env ((l.writeHeld env w p).2.2.1, (l.writeHeld env w p).2.2.2) := by
  by_cases hover : l.size + (p.length : Int) > l.max env
  · rcases writeHeld_rotate env l w p hover with ⟨herr, heq⟩ | ⟨hok, heq⟩
    · rw [heq]
      intro h hh
      simp only [rotate_err env l w herr] at hh
      exact absurd hh (by simp)
    · rw [heq]
      obtain ⟨_, hl, _⟩ := rotate_ok env l w hok
      obtain ⟨q, h1, h2, _⟩ := fileWrite_file _ _ p _ hl
      intro h hh
      simp only [Option.some.injEq] at hh
      refine ⟨hh.symm, q, ?_, ?_⟩
      · rw [h2]
        exact lookup_put_self _ _ _
      · simp [h1]
  · cases hf : l.file with
    | none =>
      unfold FLogger.writeHeld
      simp only [hover, if_false, hf]
      exact hinv
    | some h =>
      rw [writeHeld_plain env l w p h hf hover]
      obtain ⟨hh, d, hd, hsz⟩ := hinv h hf
      subst hh
      obtain ⟨q, h1, h2, _⟩ := fileWrite_file w _ p d hd
      intro h' hh'
      simp only [hf, Option.some.injEq] at hh'
      refine ⟨hh'.symm, d ++ q, ?_, ?_⟩
      · rw [h2]
        exact lookup_put_self _ _ _
      · show l.size + ((fileWrite w (l.active env) p).1 : Int) = _
        rw [h1, hsz]; simp

/-- A successful `openExistingOrNew` establishes the size invariant. -/
theorem openExistingOrNew_inv (env : Env) (l : FLogger) (w : World) (n : Int)
    (hok : (l.openExistingOrNew env w n).1 = none) :
    Inv env ((l.openExistingOrNew env w n).2.1, (l.openExistingOrNew env w n).2.2) := by
  rcases openExistingOrNew_ok env l w n hok with ⟨h1, h2, _⟩ | ⟨d, hd, _, h1, h2⟩
  · intro h hh
    rw [h1] at hh
    simp only [Option.some.injEq] at hh
    refine ⟨?_, [], ?_, ?_⟩
    · rw [h1]; exact hh.symm
    · rw [h1]; exact h2
    · rw [h1]; rfl
  · intro h hh
    rw [h1] at hh
    simp only [Option.some.injEq] at hh
    refine ⟨?_, d, ?_, ?_⟩
    · rw [h1]; exact hh.symm
    · rw [h1, h2]; exact hd
    · rw [h1]

/-- The method `Write` preserves the size invariant, whatever its outcome. -/
theorem Write_inv (env : Env) (l : FLogger) (w : World) (p : List UInt8)
    (hinv : Inv env (l, w)) :
    Inv env ((l.Write env w p).2.2.1, (l.Write env w p).2.2.2) := by
  by_cases hlen : (p.length : Int) > l.max env
  · unfold FLogger.Write
    simp only [hlen, if_true]
    exact hinv
  · rw [Write_eq env l w p hlen]
    cases hf : l.file with
    | some h =>
      simp only [reduceCtorEq, if_false]
      exact writeHeld_inv env l w p hinv
    | none =>
      simp only [if_true]
      cases ho : (l.openExistingOrNew env w p.length).1 with
      | some e =>
        simp only
        intro h hh
        have := openExistingOrNew_err env l w p.length hf (by rw [ho]; simp)
        simp only at hh
        rw [this] at hh
        exact absurd hh (by simp)
      | none =>
        simp only
        exact writeHeld_inv env _ _ p (openExistingOrNew_inv env l w _ ho)

/-- A successful step `writeHeld`: either there was no overflow and the
single write extended the file, or the rotation opened a new file that now
holds exactly the data. -/
theorem writeHeld_ok_cases (env : Env) (l : FLogger) (w : World) (p : List UInt8)
    (hok : (l.writeHeld env w p).2.1 = none) :
    (∃ h, l.file = some h ∧ ¬ (l.size + (p.length : Int) > l.max env) ∧
      newEvents w (l.writeHeld env w p).2.2.2 = [Ev.write h] ∧
      (l.writeHeld env w p).2.2.1.size = l.size + (p.length : Int)) ∨
    (l.size + (p.length : Int) > l.max env ∧
      Ev.rotate ∈ newEvents w (l.writeHeld env w p).2.2.2 ∧
      Ev.create (l.active env) ∈ newEvents w (l.writeHeld env w p).2.2.2 ∧
      (l.writeHeld env w p).2.2.1.size = (p.length : Int)) := by
  by_cases hover : l.size + (p.length : Int) > l.max env
  · right
    obtain ⟨evs, e1⟩ := rotate_extends env l w
    rcases writeHeld_rotate env l w p hover with ⟨herr, heq⟩ | ⟨hrot, heq⟩
    · rw [heq] at hok
      exact absurd hok herr
    · rw [heq] at hok ⊢
      have hcr := (rotate_ok env l w hrot).2.2
      rw [e1.newEvents] at hcr
      have e2 := fileWrite_extends (l.rotate env w).2.2 (l.active env) p
      rw [(e1.trans e2).newEvents]
      have hw : (fileWrite (l.rotate env w).2.2 (l.active env) p).2.1 = true := by
        by_contra hne
        simp [hne] at hok
      refine ⟨hover, by simp, ?_, ?_⟩
      · exact List.mem_append.2 (Or.inl hcr)
      · simp [(fileWrite_ok _ _ _ hw).1]
  · left
    cases hf : l.file with
    | none =>
      unfold FLogger.writeHeld at hok
      simp [hover, hf] at hok
    | some h =>
      rw [writeHeld_plain env l w p h hf hover] at hok ⊢
      have hw : (fileWrite w h p).2.1 = true := by
        by_contra hne
        simp [hne] at hok
      refine ⟨h, rfl, hover, (fileWrite_extends w h p).newEvents, ?_⟩
      simp [(fileWrite_ok _ _ _ hw).1]

/-- A successful `Write` of data that fits in `max`, by cases on how the
file was obtained. -/
theorem Write_ok_cases (env : Env) (l : FLogger) (w : World) (p : List UInt8)
    (hlen : (p.length : Int) ≤ l.max env) (hok : (l.Write env w p).2.1 = none) :
    (∃ h, l.file = some h ∧ ¬ (l.size + (p.length : Int) > l.max env) ∧
      newEvents w (l.Write env w p).2.2.2 = [Ev.write h] ∧
      (l.Write env w p).2.2.1.size = l.size + (p.length : Int)) ∨
    (l.file ≠ none ∧ Ev.rotate ∈ newEvents w (l.Write env w p).2.2.2 ∧
      Ev.create (l.active env) ∈ newEvents w (l.Write env w p).2.2.2 ∧
      (l.Write env w p).2.2.1.size = (p.length : Int)) ∨
    (l.file = none ∧ Ev.create (l.active env) ∈ newEvents w (l.Write env w p).2.2.2 ∧
      (l.Write env w p).2.2.1.size = (p.length : Int)) ∨
    (l.file = none ∧ ∃ d, List.lookup (l.active env) w.files = some (Entry.file d) ∧
      newEvents w (l.Write env w p).2.2.2 =
        [Ev.stat (l.active env), Ev.openAppend (l.active env), Ev.write (l.active env)] ∧
      (l.Write env w p).2.2.1.size = (d.length : Int) + (p.length : Int)) := by
  have hlen' : ¬ ((p.length : Int) > l.max env) := by omega
  rw [Write_eq env l w p hlen'] at hok ⊢
  cases hf : l.file with
  | some h =>
    simp only [hf, reduceCtorEq, if_false] at hok ⊢
    rcases writeHeld_ok_cases env l w p hok with ⟨h', hh, h1, h2, h3⟩ | ⟨_, h1, h2, h3⟩
    · left
      rw [hf] at hh
      exact ⟨h', hh, h1, h2, h3⟩
    · right; left
      exact ⟨by simp, h1, h2, h3⟩
  | none =>
    simp only [hf, if_true] at hok ⊢
    right; right
    cases ho : (l.openExistingOrNew env w p.length).1 with
    | some e => simp [ho] at hok
    | none =>
      simp only [ho] at hok ⊢
      obtain ⟨evs1, e1⟩ := openExistingOrNew_extends env l w p.length
      obtain ⟨evs2, e2⟩ := writeHeld_extends env (l.openExistingOrNew env w p.length).2.1
        (l.openExistingOrNew env w p.length).2.2 p
      rcases openExistingOrNew_ok env l w p.length ho with ⟨g1, g2, g3⟩ | ⟨d, hd, hlt, g1, g2⟩
      · left
        refine ⟨trivial, ?_, ?_⟩
        · rw [(e1.trans e2).newEvents]
          rw [e1.newEvents] at g3
          exact List.mem_append.2 (Or.inl g3)
        · rcases writeHeld_ok_cases env _ _ p hok with ⟨_, _, _, _, h3⟩ | ⟨_, _, _, h3⟩
          · rw [h3, g1]; simp
          · exact h3
      · right
        refine ⟨trivial, d, hd, ?_⟩
        rcases writeHeld_ok_cases env _ _ p hok with ⟨h', hh, _, h2, h3⟩ | ⟨hover, _⟩
        · rw [g1] at hh
          simp only [Option.some.injEq] at hh
          subst hh
          constructor
          · rw [(e1.trans e2).newEvents]
            rw [e2.newEvents] at h2
            have h4 := e1.newEvents
            rw [g2] at h4
            simp only [newEvents, sys_trace, List.append_assoc, List.drop_left] at h4
            rw [← h4, h2]
            rfl
          · rw [h3, g1]
        · rw [g1] at hover
          have : (FLogger.max env { l with file := some (l.active env), size := (d.length : Int) })
              = l.max env := rfl
          rw [this] at hover
          simp only at hover
          omega

/-! ## The archive step of `Rotate` -/

theorem osOpen_snd (w : World) (n : String) : (osOpen w n).2 = (w.sys (Ev.openSrc n)).2 := by
  unfold osOpen
  cases hf : w.nextFault with
  | some k => simp [hf]
  | none =>
    cases hl : List.lookup n w.files with
    | none => simp [hf, hl]
    | some e => cases e <;> simp [hf, hl]

theorem osOpen_some (w : World) (n : String) (d : List UInt8) (h : (osOpen w n).1 = some d) :
    List.lookup n w.files = some (Entry.file d) := by
  unfold osOpen at h
  cases hf : w.nextFault with
  | some k => simp [hf] at h
  | none =>
    cases hl : List.lookup n w.files with
    | none => simp [hf, hl] at h
    | some e =>
      cases e with
      | file d' => simp [hf, hl] at h; rw [h]
      | dir k => simp [hf, hl] at h

theorem zipCreate_err (w : World) (c n : String) (h : (zipCreate w c n).1 = false) :
    (zipCreate w c n).2 = (w.sys (Ev.zipEntry c n)).2 := by
  unfold zipCreate at h ⊢
  cases hf : w.nextFault with
  | some k => simp [hf]
  | none =>
    cases hl : List.lookup c w.zips with
    | none => simp [hf, hl]
    | some es => simp [hf, hl] at h

theorem zipCreate_ok (w : World) (c n : String) (es : List (String × List UInt8))
    (hc : List.lookup c w.zips = some es) (h : (zipCreate w c n).1 = true) :
    (zipCreate w c n).2 =
      { (w.sys (Ev.zipEntry c n)).2 with zips := put c (es ++ [(n, [])]) w.zips } := by
  unfold zipCreate at h ⊢
  cases hf : w.nextFault with
  | some k => simp [hf] at h
  | none => simp [hf, hc]

theorem ioCopy_spec (w : World) (c n : String) (data : List UInt8)
    (es : List (String × List UInt8)) (hc : List.lookup c w.zips = some es) :
    ((ioCopy w c n data).1 = true ∧
      (ioCopy w c n data).2 =
        { (w.sys (Ev.copy c n)).2 with zips := put c (es.dropLast ++ [(n, data)]) w.zips }) ∨
    ((ioCopy w c n data).1 = false ∧ ∃ k,
      (ioCopy w c n data).2 =
        { (w.sys (Ev.copy c n)).2 with
          zips := put c (es.dropLast ++ [(n, data.take k)]) w.zips }) := by
  unfold ioCopy
  cases hf : w.nextFault with
  | some k => right; exact ⟨by simp [hf, hc], k, by simp [hf, hc]⟩
  | none => left; simp [hf, hc]

theorem osRemove_err (w : World) (n : String) (h : (osRemove w n).1 = false) :
    (osRemove w n).2 = (w.sys (Ev.remove n)).2 := by
  unfold osRemove at h ⊢
  cases hf : w.nextFault with
  | some k => simp [hf]
  | none =>
    cases hl : List.lookup n w.files with
    | none => simp [hf, hl]
    | some e => simp [hf, hl] at h

theorem osRemove_ok (w : World) (n : String) (h : (osRemove w n).1 = true) :
    (osRemove w n).2 = { (w.sys (Ev.remove n)).2 with files := del n w.files } := by
  unfold osRemove at h ⊢
  cases hf : w.nextFault with
  | some k => simp [hf] at h
  | none =>
    cases hl : List.lookup n w.files with
    | none => simp [hf, hl] at h
    | some e => simp [hf, hl]

theorem lookup_delAll (a : String) {β : Type} : ∀ (ns : List String) (m : List (String × β)),
    List.lookup a (delAll ns m) = if a ∈ ns then none else List.lookup a m := by
  intro ns
  induction ns with
  | nil => intro m; simp [delAll]
  | cons n ns ih =>
    intro m
    have : delAll (n :: ns) m = delAll ns (del n m) := rfl
    rw [this, ih]
    by_cases h1 : a ∈ ns
    · simp [h1]
    · by_cases h2 : a = n
      · subst h2; simp [h1]
      · simp [h1, h2, lookup_del_ne a n m h2]

theorem fileData_del_ne (w w4 : World) (a n : String) (h : a ≠ n)
    (hw : w4.files = del n w.files) : fileData w4 a = fileData w a := by
  unfold fileData
  rw [hw, lookup_del_ne a n _ h]

theorem fileData_of_lookup (w : World) (n : String) (d : List UInt8)
    (h : List.lookup n w.files = some (Entry.file d)) : fileData w n = d := by
  simp [fileData, h]

/-- One iteration of the compression loop: either it fails at this file,
leaving the directory as it was and the container with at most one more
entry, or the file is archived completely, deleted, and the loop goes on. -/
theorem compressLoop_cons (c : String) (w : World) (fi : DirEntry) (rest : List DirEntry)
    (es0 : List (String × List UInt8)) (hc : List.lookup c w.zips = some es0) :
    (∃ e tail, (compressLoop c w (fi :: rest)).1 = some e ∧
      (compressLoop c w (fi :: rest)).2.files = w.files ∧
      (compressLoop c w (fi :: rest)).2.counter = w.counter ∧
      List.lookup c (compressLoop c w (fi :: rest)).2.zips = some (es0 ++ tail) ∧
      (∀ z, z ≠ c → List.lookup z (compressLoop c w (fi :: rest)).2.zips = List.lookup z w.zips) ∧
      tailSpec w fi e tail) ∨
    (∃ w4 d, List.lookup fi.name w.files = some (Entry.file d) ∧
      w4.files = del fi.name w.files ∧ w4.counter = w.counter ∧
      List.lookup c w4.zips = some (es0 ++ [(fi.name, d)]) ∧
      (∀ z, z ≠ c → List.lookup z w4.zips = List.lookup z w.zips) ∧
      compressLoop c w (fi :: rest) = compressLoop c w4 rest) := by
  rw [compressLoop]
  cases ho : (osOpen w fi.name).1 with
  | none =>
    left
    refine ⟨Error.openLog, [], ?_⟩
    simp only [ho, osOpen_snd]
    simp [hc, tailSpec]
  | some d =>
    have hd := osOpen_some w fi.name d ho
    have hfd : fileData w fi.name = d := by simp [fileData, hd]
    simp only [ho, osOpen_snd]
    cases hz : (zipCreate (w.sys (Ev.openSrc fi.name)).2 c fi.name).1 with
    | false =>
      left
      refine ⟨Error.zipCreate, [], ?_⟩
      simp only [if_true]
      rw [zipCreate_err _ _ _ hz]
      simp [hc, tailSpec]
    | true =>
      simp only [Bool.true_eq_false, if_false]
      have hw2 := zipCreate_ok (w.sys (Ev.openSrc fi.name)).2 c fi.name es0 hc hz
      have hc2 : List.lookup c (zipCreate (w.sys (Ev.openSrc fi.name)).2 c fi.name).2.zips =
          some (es0 ++ [(fi.name, [])]) := by
        rw [hw2]; simp
      rcases ioCopy_spec (zipCreate (w.sys (Ev.openSrc fi.name)).2 c fi.name).2 c fi.name d _ hc2
        with ⟨hcp, hw3⟩ | ⟨hcp, k, hw3⟩
      · simp only [hcp, Bool.true_eq_false, if_false]
        cases hr : (osRemove (ioCopy (zipCreate (w.sys (Ev.openSrc fi.name)).2 c fi.name).2 c
            fi.name d).2 fi.name).1 with
        | false =>
          left
          refine ⟨Error.remove, [(fi.name, d)], ?_⟩
          simp only [if_true]
          rw [osRemove_err _ _ hr, hw3, hw2]
          refine ⟨trivial, rfl, rfl, ?_, ?_, ?_⟩
          · simp
          · intro z hz'
            simp [lookup_put_ne z c _ _ hz']
          · simp [tailSpec, hfd]
        | true =>
          right
          simp only [Bool.true_eq_false, if_false]
          refine ⟨_, d, hd, ?_, ?_, ?_, ?_, rfl⟩
          · rw [osRemove_ok _ _ hr, hw3, hw2]; rfl
          · rw [osRemove_ok _ _ hr, hw3, hw2]; rfl
          · rw [osRemove_ok _ _ hr, hw3, hw2]; simp
          · intro z hz'
            rw [osRemove_ok _ _ hr, hw3, hw2]
            simp [lookup_put_ne z c _ _ hz']
      · left
        refine ⟨Error.copy, [(fi.name, d.take k)], ?_⟩
        simp only [hcp, if_true]
        rw [hw3, hw2]
        refine ⟨trivial, rfl, rfl, ?_, ?_, ?_⟩
        · simp
        · intro z hz'
          simp [lookup_put_ne z c _ _ hz']
        · simp only [tailSpec, hfd]
          right; right; left
          exact ⟨trivial, k, rfl⟩

/-- The compression loop over files with distinct names, started on a
container holding `es0`: either every file is archived completely and
deleted, or the loop stops at one file; the files before it are archived
completely and deleted, the files after it are untouched, and the file
itself is still in the directory, with the container holding what
`tailSpec` says. -/
theorem compressLoop_spec (c : String) : ∀ (sel : List DirEntry) (w : World)
    (es0 : List (String × List UInt8)), List.lookup c w.zips = some es0 →
    (sel.map (fun f => f.name)).Nodup →
    ((compressLoop c w sel).1 = none ∧
      (compressLoop c w sel).2.files = delAll (sel.map (fun f => f.name)) w.files ∧
      (compressLoop c w sel).2.counter = w.counter ∧
      List.lookup c (compressLoop c w sel).2.zips = some (es0 ++ sel.map (entryOf w)) ∧
      (∀ z, z ≠ c → List.lookup z (compressLoop c w sel).2.zips = List.lookup z w.zips) ∧
      (∀ f ∈ sel, ∃ d, List.lookup f.name w.files = some (Entry.file d))) ∨
    (∃ pre fi post e tail, sel = pre ++ fi :: post ∧
      (compressLoop c w sel).1 = some e ∧
      (compressLoop c w sel).2.files = delAll (pre.map (fun f => f.name)) w.files ∧
      (compressLoop c w sel).2.counter = w.counter ∧
      List.lookup c (compressLoop c w sel).2.zips = some (es0 ++ pre.map (entryOf w) ++ tail) ∧
      (∀ z, z ≠ c → List.lookup z (compressLoop c w sel).2.zips = List.lookup z w.zips) ∧
      tailSpec w fi e tail ∧
      (∀ f ∈ pre, ∃ d, List.lookup f.name w.files = some (Entry.file d))) := by
  intro sel
  induction sel with
  | nil =>
    intro w es0 hc _
    left
    simp [compressLoop, delAll, hc]
  | cons fi rest ih =>
    intro w es0 hc hnd
    have hnd' : (rest.map (fun f => f.name)).Nodup := (List.nodup_cons.1 hnd).2
    have hnotin : ∀ f ∈ rest, f.name ≠ fi.name := by
      intro f hf heq
      apply (List.nodup_cons.1 hnd).1
      exact List.mem_map.2 ⟨f, hf, heq⟩
    rcases compressLoop_cons c w fi rest es0 hc with
      ⟨e, tail, h1, h2, h3, h4, h5, h6⟩ | ⟨w4, d, hd, hf4, hc4, hz4, hfr4, heq⟩
    · right
      refine ⟨[], fi, rest, e, tail, rfl, h1, ?_, h3, ?_, h5, h6, ?_⟩
      · simpa [delAll] using h2
      · simpa using h4
      · intro f hf; simp at hf
    · have hent : ∀ f ∈ rest, entryOf w4 f = entryOf w f := by
        intro f hf
        simp only [entryOf, fileData_del_ne w w4 f.name fi.name (hnotin f hf) hf4]
      have hlk : ∀ f ∈ rest, ∀ d', List.lookup f.name w4.files = some (Entry.file d') →
          List.lookup f.name w.files = some (Entry.file d') := by
        intro f hf d' h
        rw [hf4, lookup_del_ne _ _ _ (hnotin f hf)] at h
        exact h
      have hfi : entryOf w fi = (fi.name, d) := by
        simp [entryOf, fileData_of_lookup w fi.name d hd]
      rw [heq]
      rcases ih w4 (es0 ++ [(fi.name, d)]) hz4 hnd' with
        ⟨g1, g2, g3, g4, g5, g6⟩ | ⟨pre, fj, post, e, tail, g0, g1, g2, g3, g4, g5, g6, g7⟩
      · left
        refine ⟨g1, ?_, by rw [g3, hc4], ?_, ?_, ?_⟩
        · rw [g2, hf4]; rfl
        · rw [g4, List.map_cons, hfi, List.map_congr_left hent]
          simp
        · intro z hz; rw [g5 z hz, hfr4 z hz]
        · intro f hf
          rcases List.mem_cons.1 hf with rfl | hf
          · exact ⟨d, hd⟩
          · obtain ⟨d', hd'⟩ := g6 f hf
            exact ⟨d', hlk f hf d' hd'⟩
      · right
        have hpre : ∀ f ∈ pre, f ∈ rest := by
          intro f hf; rw [g0]; exact List.mem_append_left _ hf
        have hfj : fj ∈ rest := by rw [g0]; simp
        refine ⟨fi :: pre, fj, post, e, tail, by rw [g0]; rfl, g1, ?_, by rw [g3, hc4], ?_, ?_,
          ?_, ?_⟩
        · rw [g2, hf4]; rfl
        · rw [g4, List.map_cons, hfi, List.map_congr_left (fun f hf => hent f (hpre f hf))]
          simp
        · intro z hz; rw [g5 z hz, hfr4 z hz]
        · unfold tailSpec at g6 ⊢
          rw [fileData_del_ne w w4 fj.name fi.name (hnotin fj hfj) hf4] at g6
          exact g6
        · intro f hf
          rcases List.mem_cons.1 hf with rfl | hf
          · exact ⟨d, hd⟩
          · obtain ⟨d', hd'⟩ := g7 f hf
            exact ⟨d', hlk f (hpre f hf) d' hd'⟩

theorem noFault_tail {fs : List (Option Nat)} (h : ∀ f ∈ fs, f = none) :
    ∀ f ∈ fs.tail, f = none := fun f hf => h f (List.mem_of_mem_tail hf)

theorem nextFault_of_noFault (w : World) (h : NoFault w) : w.nextFault = none := by
  unfold World.nextFault
  cases hf : w.faults with
  | nil => rfl
  | cons f fs =>
    simp only
    exact h f (by rw [hf]; exact List.mem_cons_self _ _)

theorem keeps_refl (w : World) : Keeps w w := ⟨rfl, fun h => h⟩

theorem keeps_trans {w1 w2 w3 : World} (h1 : Keeps w1 w2) (h2 : Keeps w2 w3) : Keeps w1 w3 :=
  ⟨h2.1.trans h1.1, fun h => h2.2 (h1.2 h)⟩

theorem keeps_sys (w : World) (e : Ev) : Keeps w (w.sys e).2 :=
  ⟨rfl, fun h => noFault_tail h⟩

theorem osOpen_keeps (w : World) (n : String) : Keeps w (osOpen w n).2 := by
  rw [osOpen_snd]; exact keeps_sys w _

theorem zipCreate_keeps (w : World) (c n : String) : Keeps w (zipCreate w c n).2 := by
  unfold zipCreate
  cases hf : w.nextFault with
  | some k => simp only [sys_fst, hf]; exact keeps_sys w _
  | none =>
    cases hl : List.lookup c w.zips with
    | none => simp only [sys_fst, sys_zips, hf, hl]; exact keeps_sys w _
    | some es => simp only [sys_fst, sys_zips, hf, hl]; exact ⟨rfl, fun h => noFault_tail h⟩

theorem ioCopy_keeps (w : World) (c n : String) (d : List UInt8) : Keeps w (ioCopy w c n d).2 := by
  unfold ioCopy
  cases hl : List.lookup c w.zips with
  | none => simp only [sys_zips, hl]; exact keeps_sys w _
  | some es =>
    cases hf : w.nextFault with
    | some k => simp only [sys_fst, sys_zips, hf, hl]; exact ⟨rfl, fun h => noFault_tail h⟩
    | none => simp only [sys_fst, sys_zips, hf, hl]; exact ⟨rfl, fun h => noFault_tail h⟩

theorem osRemove_keeps (w : World) (n : String) : Keeps w (osRemove w n).2 := by
  cases h : (osRemove w n).1 with
  | false => rw [osRemove_err w n h]; exact keeps_sys w _
  | true => rw [osRemove_ok w n h]; exact ⟨rfl, fun h => noFault_tail h⟩

/-- The compression loop finalises no container and consumes the fault
schedule in order. -/
theorem compressLoop_keeps (c : String) : ∀ (sel : List DirEntry) (w : World),
    Keeps w (compressLoop c w sel).2 := by
  intro sel
  induction sel with
  | nil => intro w; exact keeps_refl w
  | cons fi rest ih =>
    intro w
    have k1 := osOpen_keeps w fi.name
    rw [compressLoop]
    cases ho : (osOpen w fi.name).1 with
    | none => simp only; exact k1
    | some d =>
      simp only
      have k2 := keeps_trans k1 (zipCreate_keeps (osOpen w fi.name).2 c fi.name)
      by_cases hz : (zipCreate (osOpen w fi.name).2 c fi.name).1 = false
      · simp only [hz, if_true]; exact k2
      · simp only [hz, if_false]
        have k3 := keeps_trans k2 (ioCopy_keeps (zipCreate (osOpen w fi.name).2 c fi.name).2 c fi.name d)
        by_cases hcp : (ioCopy (zipCreate (osOpen w fi.name).2 c fi.name).2 c fi.name d).1 = false
        · simp only [hcp, if_true]; exact k3
        · simp only [hcp, if_false]
          have k4 := keeps_trans k3 (osRemove_keeps
            (ioCopy (zipCreate (osOpen w fi.name).2 c fi.name).2 c fi.name d).2 fi.name)
          by_cases hr : (osRemove (ioCopy (zipCreate (osOpen w fi.name).2 c fi.name).2 c
              fi.name d).2 fi.name).1 = false
          · simp only [hr, if_true]; exact k4
          · simp only [hr, if_false]
            exact keeps_trans k4 (ih _)

/-- Processing a list of files that does not fail, followed by more files,
is the loop over the rest from the world the first part left. -/
theorem compressLoop_append (c : String) : ∀ (pre : List DirEntry) (w : World)
    (rest : List DirEntry), (compressLoop c w pre).1 = none →
    compressLoop c w (pre ++ rest) = compressLoop c (compressLoop c w pre).2 rest := by
  intro pre
  induction pre with
  | nil => intro w rest _; simp [compressLoop]
  | cons fi pre ih =>
    intro w rest h
    rw [List.cons_append]
    rw [compressLoop] at h ⊢
    conv => rhs; rw [compressLoop]
    cases ho : (osOpen w fi.name).1 with
    | none => simp [ho] at h
    | some d =>
      simp only [ho] at h ⊢
      by_cases hz : (zipCreate (osOpen w fi.name).2 c fi.name).1 = false
      · simp [hz] at h
      · simp only [hz, if_false] at h ⊢
        by_cases hcp : (ioCopy (zipCreate (osOpen w fi.name).2 c fi.name).2 c fi.name d).1 = false
        · simp [hcp] at h
        · simp only [hcp, if_false] at h ⊢
          by_cases hr : (osRemove (ioCopy (zipCreate (osOpen w fi.name).2 c fi.name).2 c
              fi.name d).2 fi.name).1 = false
          · simp [hr] at h
          · simp only [hr, if_false] at h ⊢
            exact ih _ rest h

/-- When processing one file fails, the loop stops there: the files after
it are never looked at. -/
theorem compressLoop_stop (c : String) (w : World) (fi : DirEntry) (post : List DirEntry)
    (e : Error) (h : (compressLoop c w [fi]).1 = some e) :
    compressLoop c w (fi :: post) = compressLoop c w [fi] := by
  rw [compressLoop] at h ⊢
  conv => rhs; rw [compressLoop]
  cases ho : (osOpen w fi.name).1 with
  | none => simp only
  | some d =>
    simp only [ho] at h ⊢
    by_cases hz : (zipCreate (osOpen w fi.name).2 c fi.name).1 = false
    · simp only [hz, if_true]
    · simp only [hz, if_false] at h ⊢
      by_cases hcp : (ioCopy (zipCreate (osOpen w fi.name).2 c fi.name).2 c fi.name d).1 = false
      · simp only [hcp, if_true]
      · simp only [hcp, if_false] at h ⊢
        by_cases hr : (osRemove (ioCopy (zipCreate (osOpen w fi.name).2 c fi.name).2 c
            fi.name d).2 fi.name).1 = false
        · simp only [hr, if_true]
        · simp only [hr, if_false] at h
          simp [compressLoop] at h

theorem osReadDir_snd (w : World) : (osReadDir w).2 = (w.sys Ev.readDir).2 := by
  unfold osReadDir
  cases hf : w.nextFault <;> simp [hf]

theorem osReadDir_some (w : World) (fs : List DirEntry) (h : (osReadDir w).1 = some fs) :
    fs = sortByName (w.files.map (fun x => DirEntry.mk x.1 x.2.isDir)) := by
  unfold osReadDir at h
  cases hf : w.nextFault with
  | some k => simp [hf] at h
  | none => simp [hf] at h; exact h.symm

theorem osStatZip_snd (w : World) (c : String) : (osStatZip w c).2 = (w.sys (Ev.statZip c)).2 := by
  unfold osStatZip
  cases hf : w.nextFault <;> simp [hf]

theorem osMkdirAllBackup_frame (w : World) :
    FilesPre w (osMkdirAllBackup w).2 ∧ (osMkdirAllBackup w).2.zips = w.zips ∧
      (osMkdirAllBackup w).2.counter = w.counter := by
  unfold osMkdirAllBackup FilesPre
  cases hf : w.nextFault with
  | some k => simp [hf]
  | none =>
    cases hl : List.lookup compressDir w.files with
    | none => simp [hf, hl]
    | some e => cases e <;> simp [hf, hl]

theorem osMkdirAllBackup_keeps (w : World) : Keeps w (osMkdirAllBackup w).2 := by
  unfold osMkdirAllBackup
  cases hf : w.nextFault with
  | some k => simp only [sys_fst, hf]; exact keeps_sys w _
  | none =>
    cases hl : List.lookup compressDir w.files with
    | none =>
      simp only [sys_fst, sys_files, hf, hl]
      exact ⟨rfl, fun h => noFault_tail h⟩
    | some e =>
      cases e <;> simp only [sys_fst, sys_files, hf, hl] <;> exact keeps_sys w _

theorem osMkdirAllBackup_spec (w : World) :
    FilesPre w (osMkdirAllBackup w).2 ∧ (osMkdirAllBackup w).2.zips = w.zips ∧
      (osMkdirAllBackup w).2.counter = w.counter ∧ Keeps w (osMkdirAllBackup w).2 :=
  ⟨(osMkdirAllBackup_frame w).1, (osMkdirAllBackup_frame w).2.1, (osMkdirAllBackup_frame w).2.2,
    osMkdirAllBackup_keeps w⟩

theorem osCreate_err (w : World) (c : String) (h : (osCreate w c).1 = false) :
    (osCreate w c).2 = (w.sys (Ev.createZip c)).2 := by
  unfold osCreate at h ⊢
  cases hf : w.nextFault with
  | some k => simp [hf]
  | none =>
    cases hl : List.lookup compressDir w.files with
    | none => simp [hf, hl]
    | some e => cases e <;> simp [hf, hl] at h ⊢

theorem osCreate_ok (w : World) (c : String) (h : (osCreate w c).1 = true) :
    (osCreate w c).2 =
      { (w.sys (Ev.createZip c)).2 with
        zips := put c [] w.zips, finalised := w.finalised.filter (fun z => z != c) } := by
  unfold osCreate at h ⊢
  cases hf : w.nextFault with
  | some k => simp [hf] at h
  | none =>
    cases hl : List.lookup compressDir w.files with
    | none => simp [hf, hl] at h
    | some e =>
      cases e with
      | file d => simp [hf, hl] at h
      | dir k => simp only [sys_fst, sys_files, sys_zips, sys_finalised, hf, hl]

/-- The name of the container does not depend on the fault schedule or the
trace. -/
theorem compressFileName_sys (l : FLogger) (w : World) (e : Ev) :
    (l.compressFileName (w.sys e).2).1 = (l.compressFileName w).1 := rfl

/-- Lines 141-168 of `Rotate`, by outcome: either listing the directory or
creating the container failed and no container was touched, or the selected
files and a new, empty, not yet finalised container are handed to the
loop. -/
theorem openContainer_cases (env : Env) (l : FLogger) (w : World) :
    ∃ w1, (l.openContainer env w).2.2.2 = w1 ∧ FilesPre w w1 ∧ w1.counter = w.counter ∧
      (∀ z, z ≠ (l.compressFileName w).1 → List.lookup z w1.zips = List.lookup z w.zips) ∧
      (NoFault w → NoFault w1) ∧
      (((l.openContainer env w).1 = some Error.readDir ∧ w1.finalised = w.finalised) ∨
       ((l.openContainer env w).1 = some Error.createZip ∧ w1.finalised = w.finalised) ∨
       ((l.openContainer env w).1 = none ∧
        (l.openContainer env w).2.1 = selected env l w ∧
        (l.openContainer env w).2.2.1 = (l.compressFileName w).1 ∧
        List.lookup (l.compressFileName w).1 w1.zips = some [] ∧
        w1.finalised = w.finalised.filter (fun z => z != (l.compressFileName w).1))) := by
  unfold FLogger.openContainer
  cases hd : (osReadDir w).1 with
  | none =>
    simp only [hd, osReadDir_snd]
    exact ⟨_, rfl, Or.inl rfl, rfl, fun _ _ => rfl, (keeps_sys w _).2, Or.inl ⟨trivial, rfl⟩⟩
  | some fs =>
    have hfs := osReadDir_some w fs hd
    simp only [hd, osReadDir_snd, osStatZip_snd]
    have hsel : selectCompress env l fs = selected env l w := by rw [hfs]; rfl
    rw [hsel]
    have hpre : ∀ (b : Bool),
        FilesPre w (if b = false then
            (osMkdirAllBackup ((l.compressFileName (w.sys Ev.readDir).2).2.sys
              (Ev.statZip (l.compressFileName (w.sys Ev.readDir).2).1)).2).2
          else ((l.compressFileName (w.sys Ev.readDir).2).2.sys
              (Ev.statZip (l.compressFileName (w.sys Ev.readDir).2).1)).2) ∧
        (if b = false then
            (osMkdirAllBackup ((l.compressFileName (w.sys Ev.readDir).2).2.sys
              (Ev.statZip (l.compressFileName (w.sys Ev.readDir).2).1)).2).2
          else ((l.compressFileName (w.sys Ev.readDir).2).2.sys
              (Ev.statZip (l.compressFileName (w.sys Ev.readDir).2).1)).2).zips = w.zips ∧
        (if b = false then
            (osMkdirAllBackup ((l.compressFileName (w.sys Ev.readDir).2).2.sys
              (Ev.statZip (l.compressFileName (w.sys Ev.readDir).2).1)).2).2
          else ((l.compressFileName (w.sys Ev.readDir).2).2.sys
              (Ev.statZip (l.compressFileName (w.sys Ev.readDir).2).1)).2).counter = w.counter ∧
        Keeps w (if b = false then
            (osMkdirAllBackup ((l.compressFileName (w.sys Ev.readDir).2).2.sys
              (Ev.statZip (l.compressFileName (w.sys Ev.readDir).2).1)).2).2
          else ((l.compressFileName (w.sys Ev.readDir).2).2.sys
              (Ev.statZip (l.compressFileName (w.sys Ev.readDir).2).1)).2) := by
      intro b
      have k0 : Keeps w ((l.compressFileName (w.sys Ev.readDir).2).2.sys
          (Ev.statZip (l.compressFileName (w.sys Ev.readDir).2).1)).2 :=
        ⟨rfl, fun h => noFault_tail (noFault_tail h)⟩
      cases b
      · simp only [if_true]
        obtain ⟨q1, q2, q3, q4⟩ := osMkdirAllBackup_spec
          ((l.compressFileName (w.sys Ev.readDir).2).2.sys
            (Ev.statZip (l.compressFileName (w.sys Ev.readDir).2).1)).2
        exact ⟨q1, q2, q3, keeps_trans k0 q4⟩
      · simp only [Bool.true_eq_false, if_false]
        exact ⟨Or.inl rfl, rfl, rfl, k0⟩
    generalize (osStatZip (l.compressFileName (w.sys Ev.readDir).2).2
      (l.compressFileName (w.sys Ev.readDir).2).1).1 = b
    obtain ⟨p1, p2, p3, p4⟩ := hpre b
    generalize (if b = false then
            (osMkdirAllBackup ((l.compressFileName (w.sys Ev.readDir).2).2.sys
              (Ev.statZip (l.compressFileName (w.sys Ev.readDir).2).1)).2).2
          else ((l.compressFileName (w.sys Ev.readDir).2).2.sys
              (Ev.statZip (l.compressFileName (w.sys Ev.readDir).2).1)).2) = w3 at p1 p2 p3 p4 ⊢
    rw [compressFileName_sys]
    cases hcz : (osCreate w3 (l.compressFileName w).1).1 with
    | false =>
      simp only [if_true]
      rw [osCreate_err _ _ hcz]
      refine ⟨_, rfl, p1, p3, ?_, ?_, Or.inr (Or.inl ⟨trivial, ?_⟩)⟩
      · intro z _; show List.lookup z w3.zips = _; rw [p2]
      · exact (keeps_trans p4 (keeps_sys w3 _)).2
      · show w3.finalised = _; exact p4.1
    | true =>
      simp only [Bool.true_eq_false, if_false]
      rw [osCreate_ok _ _ hcz]
      refine ⟨_, rfl, p1, p3, ?_, ?_, Or.inr (Or.inr ⟨trivial, trivial, trivial, ?_, ?_⟩)⟩
      · intro z hz
        show List.lookup z (put _ _ w3.zips) = _
        rw [lookup_put_ne z _ _ _ hz, p2]
      · intro h
        exact noFault_tail (p4.2 h)
      · show List.lookup _ (put _ _ w3.zips) = _
        simp
      · show w3.finalised.filter _ = _
        rw [p4.1]

/-- The deferred closes change neither the directory, nor what the zip
writers were given, nor the counter; the container is finalised exactly
when `zipWriter.Close()` is not made to fail. -/
theorem deferredClose_spec (c : String) (w : World) :
    (deferredClose c w).files = w.files ∧ (deferredClose c w).zips = w.zips ∧
    (deferredClose c w).counter = w.counter ∧
    (deferredClose c w).finalised = (if w.nextFault = none then c :: w.finalised else w.finalised) := by
  unfold deferredClose archiveClose zipWriterClose
  cases hf : w.nextFault with
  | none => simp [hf]
  | some k => simp [hf]

/-- An error before the container exists is returned at once. -/
theorem archive_open_err (env : Env) (l : FLogger) (w : World) (e : Error)
    (h : (l.openContainer env w).1 = some e) :
    l.archive env w = (some e, (l.openContainer env w).2.2.2) := by
  unfold FLogger.archive
  simp only [h]

/-- Once the container exists the archive step is the loop followed by the
deferred closes. -/
theorem archive_open_ok (env : Env) (l : FLogger) (w : World)
    (h : (l.openContainer env w).1 = none) :
    l.archive env w =
      ((compressLoop (l.compressFileName w).1 (l.openContainer env w).2.2.2
          (selected env l w)).1,
        deferredClose (l.compressFileName w).1
          (compressLoop (l.compressFileName w).1 (l.openContainer env w).2.2.2
            (selected env l w)).2) := by
  obtain ⟨w1, _, _, _, _, _, hc⟩ := openContainer_cases env l w
  rcases hc with ⟨h1, _⟩ | ⟨h1, _⟩ | ⟨_, h2, h3, _⟩
  · rw [h] at h1; simp at h1
  · rw [h] at h1; simp at h1
  · unfold FLogger.archive
    simp only [h, h2, h3]

theorem insertByName_perm (x : DirEntry) (l : List DirEntry) :
    (insertByName x l).Perm (x :: l) := by
  induction l with
  | nil => exact List.Perm.refl _
  | cons y ys ih =>
    unfold insertByName
    split
    · exact List.Perm.refl _
    · exact ((List.Perm.cons y ih).trans (List.Perm.swap x y ys))

theorem sortByName_perm (l : List DirEntry) : (sortByName l).Perm l := by
  induction l with
  | nil => exact List.Perm.refl _
  | cons x xs ih =>
    unfold sortByName
    exact (insertByName_perm x _).trans (List.Perm.cons x ih)

/-- The selected files are, up to order, the eligible entries of the
directory. -/
theorem selected_perm (env : Env) (l : FLogger) (w : World) :
    (selected env l w).Perm
      ((w.files.filter (eligible env l)).map (fun x => DirEntry.mk x.1 x.2.isDir)) := by
  unfold selected selectCompress
  refine ((sortByName_perm _).filter _).trans ?_
  rw [List.filter_map]
  exact List.Perm.refl _

theorem selected_length (env : Env) (l : FLogger) (w : World) :
    (selected env l w).length = (w.files.filter (eligible env l)).length := by
  rw [(selected_perm env l w).length_eq, List.length_map]

theorem mem_selected (env : Env) (l : FLogger) (w : World) (fi : DirEntry)
    (h : fi ∈ selected env l w) :
    fi.isDir = false ∧ hasSuffix fi.name logSuffix = true ∧ fi.name ≠ l.active env ∧
      ∃ e, (fi.name, e) ∈ w.files ∧ e.isDir = false := by
  have h' := (selected_perm env l w).mem_iff.1 h
  obtain ⟨x, hx, rfl⟩ := List.mem_map.1 h'
  obtain ⟨hx1, hx2⟩ := List.mem_filter.1 hx
  simp only [eligible, Bool.and_eq_true, Bool.not_eq_true', bne_iff_ne, ne_eq] at hx2
  exact ⟨hx2.1, hx2.2.1, hx2.2.2, x.2, hx1, hx2.1⟩

theorem selected_nodup (env : Env) (l : FLogger) (w : World) (hnd : (names w.files).Nodup) :
    ((selected env l w).map (fun f => f.name)).Nodup := by
  have hp := (selected_perm env l w).map (fun f => f.name)
  rw [hp.nodup_iff, List.map_map]
  have : ((fun f : DirEntry => f.name) ∘ fun x : String × Entry => DirEntry.mk x.1 x.2.isDir) =
      fun x => x.1 := rfl
  rw [this]
  exact List.Nodup.sublist (List.Sublist.map _ (List.filter_sublist _)) hnd

/-- The compression loop never touches an entry that is not among the
files it was given. -/
theorem compressLoop_lookup (c : String) (a : String) : ∀ (sel : List DirEntry) (w : World)
    (es0 : List (String × List UInt8)), List.lookup c w.zips = some es0 →
    (∀ f ∈ sel, f.name ≠ a) →
    List.lookup a (compressLoop c w sel).2.files = List.lookup a w.files ∧
      (compressLoop c w sel).2.counter = w.counter := by
  intro sel
  induction sel with
  | nil => intro w es0 _ _; simp [compressLoop]
  | cons fi rest ih =>
    intro w es0 hc hne
    rcases compressLoop_cons c w fi rest es0 hc with
      ⟨e, tail, _, h2, h3, _⟩ | ⟨w4, d, _, hf4, hc4, hz4, _, heq⟩
    · rw [h2, h3]; exact ⟨rfl, rfl⟩
    · rw [heq]
      obtain ⟨g1, g2⟩ := ih w4 _ hz4 (fun f hf => hne f (List.mem_cons_of_mem _ hf))
      rw [g1, g2, hf4, hc4]
      have : a ≠ fi.name := fun h => hne fi (List.mem_cons_self _ _) h.symm
      exact ⟨lookup_del_ne a fi.name _ this, rfl⟩

/-- The compression loop preserves the set of finalised containers. -/
theorem compressLoop_finalised (c : String) (sel : List DirEntry) (w : World) :
    (compressLoop c w sel).2.finalised = w.finalised := (compressLoop_keeps c sel w).1

/-- The archive step, by outcome of its first part: error, or the loop
followed by the deferred closes. -/
theorem archive_cases (env : Env) (l : FLogger) (w : World) :
    ∃ w1, FilesPre w w1 ∧ w1.counter = w.counter ∧
      (∀ z, z ≠ (l.compressFileName w).1 → List.lookup z w1.zips = List.lookup z w.zips) ∧
      (l.archive env w = (some Error.readDir, w1) ∨
       l.archive env w = (some Error.createZip, w1) ∨
       ((l.openContainer env w).1 = none ∧ (l.openContainer env w).2.2.2 = w1 ∧
        List.lookup (l.compressFileName w).1 w1.zips = some [] ∧
        w1.finalised = w.finalised.filter (fun z => z != (l.compressFileName w).1) ∧
        l.archive env w =
          ((compressLoop (l.compressFileName w).1 w1 (selected env l w)).1,
           deferredClose (l.compressFileName w).1
            (compressLoop (l.compressFileName w).1 w1 (selected env l w)).2))) := by
  obtain ⟨w1, hw1, hpre, hcnt, hfr, _, hcase⟩ := openContainer_cases env l w
  refine ⟨w1, hpre, hcnt, hfr, ?_⟩
  rcases hcase with ⟨h, _⟩ | ⟨h, _⟩ | ⟨h, _, _, hz, hfin⟩
  · left; rw [archive_open_err env l w _ h, hw1]
  · right; left; rw [archive_open_err env l w _ h, hw1]
  · right; right
    refine ⟨h, hw1, hz, hfin, ?_⟩
    rw [archive_open_ok env l w h, hw1]

/-- The archive step leaves the active file in place, whatever its
outcome, and does not change the rotation counter. -/
theorem archive_frame (env : Env) (l : FLogger) (w : World) (e : Entry)
    (ha : List.lookup (l.active env) w.files = some e) :
    List.lookup (l.active env) (l.archive env w).2.files = some e ∧
      (l.archive env w).2.counter = w.counter := by
  obtain ⟨w1, hpre, hcnt, _, hcase⟩ := archive_cases env l w
  have h1 : List.lookup (l.active env) w1.files = some e := by
    rcases hpre with h | ⟨hn, h⟩
    · rw [h]; exact ha
    · rw [h]
      have : l.active env ≠ compressDir := by
        intro heq; rw [heq] at ha; rw [ha] at hn; exact absurd hn (by simp)
      rw [lookup_put_ne _ _ _ _ this]; exact ha
  rcases hcase with h | h | ⟨_, _, hz, _, h⟩
  · rw [h]; exact ⟨h1, hcnt⟩
  · rw [h]; exact ⟨h1, hcnt⟩
  · rw [h]
    obtain ⟨g1, g2⟩ := compressLoop_lookup _ (l.active env) (selected env l w) w1 [] hz
      (fun f hf => (mem_selected env l w f hf).2.2.1)
    obtain ⟨d1, _, d3, _⟩ := deferredClose_spec (l.compressFileName w).1
      (compressLoop (l.compressFileName w).1 w1 (selected env l w)).2
    simp only
    rw [d1, d3, g1, g2]; exact ⟨h1, hcnt⟩

theorem Rotate_err_eq (env : Env) (l : FLogger) (w : World) (e : Error)
    (h : (l.rotate env w).1 = some e) :
    l.Rotate env w = (some e, (l.rotate env w).2.1, (l.rotate env w).2.2) := by
  unfold FLogger.Rotate
  simp only [h]

theorem Rotate_ok_eq (env : Env) (l : FLogger) (w : World) (h : (l.rotate env w).1 = none) :
    l.Rotate env w =
      (((l.rotate env w).2.1.archive env (l.rotate env w).2.2).1, (l.rotate env w).2.1,
        ((l.rotate env w).2.1.archive env (l.rotate env w).2.2).2) := by
  unfold FLogger.Rotate
  simp only [h]

/-- The method `Rotate` establishes the size invariant, whatever its
outcome. -/
theorem Rotate_inv (env : Env) (l : FLogger) (w : World) :
    Inv env ((l.Rotate env w).2.1, (l.Rotate env w).2.2) := by
  cases hr : (l.rotate env w).1 with
  | some e =>
    rw [Rotate_err_eq env l w e hr]
    intro h hh
    simp only [rotate_err env l w (by rw [hr]; simp)] at hh
    exact absurd hh (by simp)
  | none =>
    rw [Rotate_ok_eq env l w hr]
    obtain ⟨h1, h2, _⟩ := rotate_ok env l w hr
    intro h hh
    simp only [h1, Option.some.injEq] at hh
    refine ⟨?_, [], ?_, ?_⟩
    · simp only [h1]; exact hh.symm
    · simp only [h1]
      exact (archive_frame env { l with file := some (l.active env), size := 0 }
        (l.rotate env w).2.2 _ h2).1
    · simp only [h1]; rfl

/-- The method `Close` establishes the size invariant: no handle is held. -/
theorem Close_inv (env : Env) (l : FLogger) (w : World) :
    Inv env ((l.Close w).2.1, (l.Close w).2.2) := by
  intro h hh
  unfold FLogger.Close at hh
  simp only [(close_spec l w).1] at hh
  exact absurd hh (by simp)

/-- Every call preserves the size invariant. -/
theorem step_inv (env : Env) (s : FLogger × World) (a : Action) (hinv : Inv env s) :
    Inv env (step env s a) := by
  cases a with
  | write p => exact Write_inv env s.1 s.2 p hinv
  | rotate => exact Rotate_inv env s.1 s.2
  | close => exact Close_inv env s.1 s.2
  | clock a b => exact hinv

theorem run_inv (env : Env) (acts : List Action) : ∀ (s : FLogger × World), Inv env s →
    Inv env (run env s acts) := by
  induction acts with
  | nil => intro s h; exact h
  | cons a acts ih =>
    intro s h
    exact ih _ (step_inv env s a h)

/-- The archive step does not change the rotation counter. -/
theorem archive_counter (env : Env) (l : FLogger) (w : World) :
    (l.archive env w).2.counter = w.counter := by
  obtain ⟨w1, _, hcnt, _, hcase⟩ := archive_cases env l w
  rcases hcase with h | h | ⟨_, _, hz, _, h⟩
  · rw [h]; exact hcnt
  · rw [h]; exact hcnt
  · rw [h]
    simp only
    rw [(deferredClose_spec (l.compressFileName w).1
      (compressLoop (l.compressFileName w).1 w1 (selected env l w)).2).2.2.1]
    rw [(compressLoop_lookup _ (l.active env) (selected env l w) w1 [] hz
      (fun f hf => (mem_selected env l w f hf).2.2.1)).2]
    exact hcnt

/-- The rotation counter never decreases in `Rotate`. -/
theorem Rotate_counter (env : Env) (l : FLogger) (w : World) :
    w.counter ≤ (l.Rotate env w).2.2.counter := by
  obtain ⟨evs, e1⟩ := rotate_extends env l w
  cases hr : (l.rotate env w).1 with
  | some e => rw [Rotate_err_eq env l w e hr]; exact e1.2
  | none =>
    rw [Rotate_ok_eq env l w hr]
    show w.counter ≤ ((l.rotate env w).2.1.archive env (l.rotate env w).2.2).2.counter
    rw [archive_counter]
    exact e1.2

theorem hasSuffix_ne_compressDir (n : String) (h : hasSuffix n logSuffix = true) :
    n ≠ compressDir := by
  intro heq
  subst heq
  revert h
  decide

theorem filesPre_lookup {w w1 : World} (h : FilesPre w w1) (n : String) (hn : n ≠ compressDir) :
    List.lookup n w1.files = List.lookup n w.files := by
  rcases h with h | ⟨_, h⟩
  · rw [h]
  · rw [h, lookup_put_ne n _ _ _ hn]

theorem filesPre_entryOf {w w1 : World} (h : FilesPre w w1) (f : DirEntry)
    (hn : f.name ≠ compressDir) : entryOf w1 f = entryOf w f := by
  unfold entryOf fileData
  rw [filesPre_lookup h f.name hn]

/-- A successful rotation keeps the names of the directory distinct. -/
theorem rotate_ok_nodup (env : Env) (l : FLogger) (w : World) (hok : (l.rotate env w).1 = none)
    (hnd : (names w.files).Nodup) : (names (l.rotate env w).2.2.files).Nodup := by
  obtain ⟨_, heq⟩ := rotate_eq_of_ok env l w hok
  rw [heq] at hok ⊢
  have hfiles : (l.close (w.mark Ev.rotate)).2.2.files = w.files := (close_spec l _).2.1
  rcases (openNew_ok env _ _ hok).2 with ⟨_, h⟩ | ⟨e, _, h⟩
  · rw [h]
    show (names (put _ _ (l.close (w.mark Ev.rotate)).2.2.files)).Nodup
    rw [hfiles]
    exact nodup_put _ _ _ hnd
  · rw [h]
    show (names (put _ _ (put _ _ (del _ (l.close (w.mark Ev.rotate)).2.2.files)))).Nodup
    rw [hfiles]
    exact nodup_put _ _ _ (nodup_put _ _ _ (nodup_del _ _ hnd))

/-- The loop over `pre ++ fi :: post`, when it gets through `pre` and fails
at `fi`: it returns that error without looking at `post`; the files of
`pre` are deleted and archived completely, the directory is otherwise as it
was, and the zip writer received for `fi` what `tailSpec` says. -/
theorem compressLoop_fail_at (c : String) (pre : List DirEntry) (fi : DirEntry)
    (post : List DirEntry) (w : World) (es0 : List (String × List UInt8)) (e : Error)
    (hc : List.lookup c w.zips = some es0)
    (hnd : ((pre ++ fi :: post).map (fun f => f.name)).Nodup)
    (hpre : (compressLoop c w pre).1 = none)
    (hfail : (compressLoop c (compressLoop c w pre).2 [fi]).1 = some e) :
    compressLoop c w (pre ++ fi :: post) = compressLoop c (compressLoop c w pre).2 [fi] ∧
    (compressLoop c w (pre ++ fi :: post)).1 = some e ∧
    (compressLoop c w (pre ++ fi :: post)).2.files = delAll (pre.map (fun f => f.name)) w.files ∧
    (∀ z, z ≠ c →
      List.lookup z (compressLoop c w (pre ++ fi :: post)).2.zips = List.lookup z w.zips) ∧
    (∀ f ∈ pre, ∃ d, List.lookup f.name w.files = some (Entry.file d)) ∧
    ∃ tail, tailSpec w fi e tail ∧
      List.lookup c (compressLoop c w (pre ++ fi :: post)).2.zips =
        some (es0 ++ pre.map (entryOf w) ++ tail) := by
  have heq : compressLoop c w (pre ++ fi :: post) =
      compressLoop c (compressLoop c w pre).2 [fi] := by
    rw [compressLoop_append c pre w (fi :: post) hpre]
    exact compressLoop_stop c _ fi post e hfail
  rw [List.map_append, List.map_cons] at hnd
  have hnd2 := List.nodup_append.1 hnd
  have hfi_notin : fi.name ∉ pre.map (fun f => f.name) := by
    intro hin
    exact hnd2.2.2 hin (List.mem_cons_self _ _)
  rcases compressLoop_spec c pre w es0 hc hnd2.1 with
    ⟨_, g2, _, g4, g5, g6⟩ | ⟨_, _, _, e', _, _, g1, _⟩
  · rcases compressLoop_cons c (compressLoop c w pre).2 fi [] _ g4 with
      ⟨e', tail, h1, h2, _, h4, h5, h6⟩ | ⟨w4, _, _, _, _, _, _, h⟩
    · rw [hfail] at h1
      simp only [Option.some.injEq] at h1
      subst h1
      refine ⟨heq, by rw [heq]; exact hfail, by rw [heq, h2, g2],
        fun z hz => by rw [heq, h5 z hz, g5 z hz], g6, tail, ?_, by rw [heq, h4]⟩
      unfold tailSpec at h6 ⊢
      have hfd : fileData (compressLoop c w pre).2 fi.name = fileData w fi.name := by
        unfold fileData
        rw [g2, lookup_delAll, if_neg hfi_notin]
      rw [hfd] at h6
      exact h6
    · rw [h] at hfail
      simp [compressLoop] at hfail
  · rw [hpre] at g1
    simp at g1

theorem zipWriterClose_fst (w : World) (c : String) :
    (zipWriterClose w c).1 = true ↔ w.nextFault = none := by
  unfold zipWriterClose
  cases hf : w.nextFault <;> simp [hf]

/-- What can be read from the containers after the deferred closes, when
the container `c` was created by this run in world `w` and the loop ended
in world `wl`: `c` holds the entries its zip writer received if
`zipWriter.Close()` succeeded and cannot be read otherwise; every other
container is as it was. -/
theorem container_deferredClose (c : String) (w wl : World)
    (hfin : wl.finalised = w.finalised.filter (fun z => z != c)) :
    container (deferredClose c wl) c =
      (if (zipWriterClose wl c).1 = true then List.lookup c wl.zips else none) ∧
    ∀ z, z ≠ c → List.lookup z wl.zips = List.lookup z w.zips →
      container (deferredClose c wl) z = container w z := by
  obtain ⟨_, d2, _, d4⟩ := deferredClose_spec c wl
  unfold container
  rw [d2, d4, hfin]
  constructor
  · by_cases hf : wl.nextFault = none
    · rw [if_pos hf, if_pos ((zipWriterClose_fst wl c).2 hf), if_pos (List.mem_cons_self _ _)]
    · rw [if_neg hf, if_neg (fun h => hf ((zipWriterClose_fst wl c).1 h))]
      simp
  · intro z hz hl
    rw [hl]
    have hiff : (z ∈ (if wl.nextFault = none then c :: w.finalised.filter (fun z => z != c)
        else w.finalised.filter (fun z => z != c))) ↔ z ∈ w.finalised := by
      by_cases hf : wl.nextFault = none
      · rw [if_pos hf]; simp [hz]
      · rw [if_neg hf]; simp [hz]
    by_cases hm : z ∈ w.finalised
    · rw [if_pos hm, if_pos (hiff.2 hm)]
    · rw [if_neg hm, if_neg (fun h => hm (hiff.1 h))]

/-- What `openContainer` returns when it succeeds. -/
theorem archive_of_open (env : Env) (l : FLogger) (w w1 : World) (sel : List DirEntry)
    (c : String) (h : l.openContainer env w = (none, sel, c, w1)) :
    sel = selected env l w ∧ c = (l.compressFileName w).1 ∧ FilesPre w w1 ∧
    (∀ z, z ≠ c → List.lookup z w1.zips = List.lookup z w.zips) ∧
    List.lookup c w1.zips = some [] ∧
    w1.finalised = w.finalised.filter (fun z => z != c) ∧
    l.archive env w = ((compressLoop c w1 sel).1, deferredClose c (compressLoop c w1 sel).2) := by
  have h1 : (l.openContainer env w).1 = none := by rw [h]
  have h2 : (l.openContainer env w).2.1 = sel := by rw [h]
  have h3 : (l.openContainer env w).2.2.1 = c := by rw [h]
  have h4 : (l.openContainer env w).2.2.2 = w1 := by rw [h]
  obtain ⟨w1', hw1, hpre, _, hfr, _, hcase⟩ := openContainer_cases env l w
  rw [h4] at hw1
  subst hw1
  rcases hcase with ⟨g, _⟩ | ⟨g, _⟩ | ⟨_, g2, g3, hz, hfin⟩
  · rw [h1] at g; simp at g
  · rw [h1] at g; simp at g
  · rw [h2] at g2
    rw [h3] at g3
    subst g2
    subst g3
    refine ⟨rfl, rfl, hpre, hfr, hz, hfin, ?_⟩
    have := archive_open_ok env l w h1
    rw [h4] at this
    exact this

/-- The archive step when the container is created and the loop gets
through all selected files. -/
theorem archive_ok_spec (env : Env) (l : FLogger) (w w1 : World) (sel : List DirEntry)
    (c : String) (hnd : (names w.files).Nodup)
    (hopen : l.openContainer env w = (none, sel, c, w1))
    (hloop : (compressLoop c w1 sel).1 = none) :
    (l.archive env w).1 = none ∧ sel = selected env l w ∧
    List.lookup c (l.archive env w).2.zips = some (sel.map (entryOf w)) ∧
    container (l.archive env w).2 c =
      (if (zipWriterClose (compressLoop c w1 sel).2 c).1 = true
        then some (sel.map (entryOf w)) else none) ∧
    (∀ z, z ≠ c → container (l.archive env w).2 z = container w z) ∧
    (∀ f ∈ sel, (∃ d, List.lookup f.name w.files = some (Entry.file d)) ∧
      List.lookup f.name (l.archive env w).2.files = none) := by
  obtain ⟨hsel, _, hpre, hfr, hz, hfin, harch⟩ := archive_of_open env l w w1 sel c hopen
  have hsnd : (sel.map (fun f => f.name)).Nodup := by
    rw [hsel]; exact selected_nodup env l w hnd
  have hne : ∀ f ∈ sel, f.name ≠ compressDir := fun f hf =>
    hasSuffix_ne_compressDir _ (mem_selected env l w f (hsel ▸ hf)).2.1
  obtain ⟨d1, d2, _, _⟩ := deferredClose_spec c (compressLoop c w1 sel).2
  have hfin2 : (compressLoop c w1 sel).2.finalised = w.finalised.filter (fun z => z != c) := by
    rw [compressLoop_finalised, hfin]
  obtain ⟨k1, k2⟩ := container_deferredClose c w (compressLoop c w1 sel).2 hfin2
  rw [harch]
  rcases compressLoop_spec c sel w1 [] hz hsnd with
    ⟨_, g2, _, g4, g5, g6⟩ | ⟨_, _, _, e', _, _, g1, _⟩
  · have hent : List.lookup c (compressLoop c w1 sel).2.zips = some (sel.map (entryOf w)) := by
      rw [g4, List.nil_append]
      exact congrArg some (List.map_congr_left (fun f hf => filesPre_entryOf hpre f (hne f hf)))
    refine ⟨hloop, hsel, ?_, ?_, ?_, ?_⟩
    · show List.lookup c (deferredClose c (compressLoop c w1 sel).2).zips = _
      rw [d2, hent]
    · show container (deferredClose c (compressLoop c w1 sel).2) c = _
      rw [k1, hent]
    · intro z hzc
      exact k2 z hzc (by rw [g5 z hzc, hfr z hzc])
    · intro f hf
      obtain ⟨d, hd⟩ := g6 f hf
      refine ⟨⟨d, by rw [← filesPre_lookup hpre f.name (hne f hf)]; exact hd⟩, ?_⟩
      show List.lookup f.name (deferredClose c (compressLoop c w1 sel).2).files = none
      rw [d1, g2, lookup_delAll]
      simp only [List.mem_map]
      rw [if_pos ⟨f, hf, rfl⟩]
  · rw [hloop] at g1
    simp at g1

/-- The archive step when the container is created, the loop gets through
the files of `pre` and fails at `fi`. -/
theorem archive_fail_spec (env : Env) (l : FLogger) (w w1 : World) (pre : List DirEntry)
    (fi : DirEntry) (post : List DirEntry) (c : String) (e : Error)
    (hnd : (names w.files).Nodup)
    (hopen : l.openContainer env w = (none, pre ++ fi :: post, c, w1))
    (hpre : (compressLoop c w1 pre).1 = none)
    (hfail : (compressLoop c (compressLoop c w1 pre).2 [fi]).1 = some e) :
    (l.archive env w).1 = some e ∧
    ∃ tail, tailSpec w fi e tail ∧
      List.lookup c (l.archive env w).2.zips = some (pre.map (entryOf w) ++ tail) ∧
      container (l.archive env w).2 c =
        (if (zipWriterClose (compressLoop c (compressLoop c w1 pre).2 [fi]).2 c).1 = true
          then some (pre.map (entryOf w) ++ tail) else none) ∧
      (∀ z, z ≠ c → container (l.archive env w).2 z = container w z) ∧
      (∀ f ∈ pre, (∃ d, List.lookup f.name w.files = some (Entry.file d)) ∧
        List.lookup f.name (l.archive env w).2.files = none) ∧
      (∀ f ∈ fi :: post,
        List.lookup f.name (l.archive env w).2.files = List.lookup f.name w.files ∧
        ∃ d, List.lookup f.name w.files = some d ∧ d.isDir = false) ∧
      (∀ f ∈ post, f.name ∉ (pre.map (entryOf w) ++ tail).map (fun x => x.1)) := by
  obtain ⟨hsel, _, hfp, hfr, hz, hfin, harch⟩ :=
    archive_of_open env l w w1 (pre ++ fi :: post) c hopen
  have hsnd : ((pre ++ fi :: post).map (fun f => f.name)).Nodup := by
    rw [hsel]; exact selected_nodup env l w hnd
  have hne : ∀ f ∈ pre ++ fi :: post, f.name ≠ compressDir := fun f hf =>
    hasSuffix_ne_compressDir _ (mem_selected env l w f (hsel ▸ hf)).2.1
  have hmem_pre : ∀ f ∈ pre, f ∈ pre ++ fi :: post := fun f hf => List.mem_append_left _ hf
  have hmem_post : ∀ f ∈ fi :: post, f ∈ pre ++ fi :: post :=
    fun f hf => List.mem_append_right _ hf
  obtain ⟨heq, g1, g2, g5, g6, tail, g7, g4⟩ :=
    compressLoop_fail_at c pre fi post w1 [] e hz hsnd hpre hfail
  obtain ⟨d1, d2, _, _⟩ := deferredClose_spec c (compressLoop c w1 (pre ++ fi :: post)).2
  have hfin2 : (compressLoop c w1 (pre ++ fi :: post)).2.finalised =
      w.finalised.filter (fun z => z != c) := by
    rw [compressLoop_finalised, hfin]
  obtain ⟨k1, k2⟩ := container_deferredClose c w (compressLoop c w1 (pre ++ fi :: post)).2 hfin2
  have hent : List.lookup c (compressLoop c w1 (pre ++ fi :: post)).2.zips =
      some (pre.map (entryOf w) ++ tail) := by
    rw [g4, List.nil_append,
      List.map_congr_left (fun f hf => filesPre_entryOf hfp f (hne f (hmem_pre f hf)))]
  have htail : tailSpec w fi e tail := by
    unfold tailSpec at g7 ⊢
    have : fileData w1 fi.name = fileData w fi.name := by
      have := filesPre_entryOf hfp fi (hne fi (hmem_post fi (List.mem_cons_self _ _)))
      simpa [entryOf] using this
    rw [this] at g7
    exact g7
  rw [harch]
  refine ⟨g1, tail, htail, ?_, ?_, ?_, ?_, ?_, ?_⟩
  · show List.lookup c (deferredClose c (compressLoop c w1 (pre ++ fi :: post)).2).zips = _
    rw [d2, hent]
  · show container (deferredClose c (compressLoop c w1 (pre ++ fi :: post)).2) c = _
    rw [k1, hent, heq]
  · intro z hzc
    exact k2 z hzc (by rw [g5 z hzc, hfr z hzc])
  · intro f hf
    obtain ⟨d, hd⟩ := g6 f hf
    refine ⟨⟨d, by rw [← filesPre_lookup hfp f.name (hne f (hmem_pre f hf))]; exact hd⟩, ?_⟩
    show List.lookup f.name (deferredClose c (compressLoop c w1 (pre ++ fi :: post)).2).files =
      none
    rw [d1, g2, lookup_delAll]
    simp only [List.mem_map]
    rw [if_pos ⟨f, hf, rfl⟩]
  · intro f hf
    constructor
    · show List.lookup f.name
        (deferredClose c (compressLoop c w1 (pre ++ fi :: post)).2).files = _
      rw [d1, g2, lookup_delAll]
      have hnot : f.name ∉ pre.map (fun f => f.name) := by
        rw [List.map_append] at hsnd
        have := (List.nodup_append.1 hsnd).2.2
        intro hin
        exact this hin (List.mem_map_of_mem _ hf)
      rw [if_neg hnot]
      exact filesPre_lookup hfp f.name (hne f (hmem_post f hf))
    · obtain ⟨_, _, _, d, hd, hdir⟩ := mem_selected env l w f (hsel ▸ hmem_post f hf)
      exact ⟨d, lookup_of_mem_nodup _ _ _ hnd hd, hdir⟩
  · intro f hf hin
    rw [List.map_append, List.map_cons] at hsnd
    have hnd2 := List.nodup_append.1 hsnd
    have hfpost : f.name ∈ List.map (fun f => f.name) post := List.mem_map_of_mem _ hf
    rw [List.map_append, List.mem_append] at hin
    rcases hin with hin | hin
    · rw [List.map_map] at hin
      have : f.name ∈ List.map (fun f => f.name) pre := hin
      exact hnd2.2.2 this (List.mem_cons_of_mem _ hfpost)
    · have hfi : f.name = fi.name := by
        unfold tailSpec at htail
        rcases htail with ⟨_, rfl⟩ | ⟨_, rfl⟩ | ⟨_, k, rfl⟩ | ⟨_, rfl⟩ <;> simp at hin <;>
          exact hin
      have := (List.nodup_cons.1 hnd2.2.1).1
      exact this (hfi ▸ hfpost)

/-- The method `Rotate` once `rotate` has succeeded: the archive step run by
the writer and on the world that `rotate` left. -/
theorem Rotate_of_rotate (env : Env) (l l1 : FLogger) (w0 w : World)
    (h : l.rotate env w0 = (none, l1, w)) :
    l.Rotate env w0 = ((l1.archive env w).1, l1, (l1.archive env w).2) := by
  unfold FLogger.Rotate
  simp only [h]

/-- What a successful `rotate` leaves: a directory with distinct names in
which the active file is present and empty. -/
theorem rotate_result (env : Env) (l l1 : FLogger) (w0 w : World)
    (h : l.rotate env w0 = (none, l1, w)) (hnd : (names w0.files).Nodup) :
    (names w.files).Nodup ∧ List.lookup (l1.active env) w.files = some (Entry.file []) := by
  have hr : (l.rotate env w0).1 = none := by rw [h]
  have h1 := (rotate_ok env l w0 hr).1
  have h2 := (rotate_ok env l w0 hr).2.1
  have h3 := rotate_ok_nodup env l w0 hr hnd
  rw [h] at h1 h2 h3
  simp only at h1 h2 h3
  subst h1
  exact ⟨h3, h2⟩

/-! ## Runs without injected faults -/

theorem nextFault_of_nil (w : World) (h : w.faults = []) : w.nextFault = none := by
  simp [World.nextFault, h]

theorem sys_faults_nil (w : World) (e : Ev) (h : w.faults = []) : (w.sys e).2.faults = [] := by
  simp [h]

theorem close_world (l : FLogger) (w : World) :
    (l.close w).2.2.files = w.files ∧ (l.close w).2.2.counter = w.counter ∧
    (l.close w).2.2.todayLocal = w.todayLocal ∧ (l.close w).2.2.todayUTC = w.todayUTC ∧
    (w.faults = [] → (l.close w).2.2.faults = [] ∧ (l.close w).1 = none) := by
  unfold FLogger.close
  cases hf : l.file with
  | none => simp
  | some h =>
    refine ⟨rfl, rfl, rfl, rfl, ?_⟩
    intro hn
    simp [fileClose, nextFault_of_nil w hn, hn]

/-- Without injected faults `openNew` succeeds when the active file is
absent. -/
theorem openNew_succeeds_absent (env : Env) (l : FLogger) (w : World) (hf : w.faults = [])
    (ha : List.lookup (l.active env) w.files = none) : (l.openNew env w).1 = none := by
  have ha' : List.lookup (Base (l.filename env)) w.files = none := ha
  unfold FLogger.openNew
  simp [osMkdirAll, nextFault_of_nil w hf, osStat_fst, osStat_snd, hf, World.nextFault, ha',
    FLogger.openNewFile, osOpenFileTrunc]

theorem osRename_nofault (w : World) (a b : String) (e : Entry) (hf : w.nextFault = none)
    (ha : List.lookup a w.files = some e) (hab : a ≠ b) (hb : List.lookup b w.files = none) :
    osRename w a b =
      (true, { (w.sys (Ev.rename a b)).2 with files := put b e (del a w.files) }) := by
  unfold osRename
  simp [hf, ha, hab, hb]

theorem openNewFile_succeeds (env : Env) (l : FLogger) (w : World) (hf : w.nextFault = none)
    (hl : ∀ k, List.lookup (l.active env) w.files ≠ some (Entry.dir k)) :
    (l.openNewFile env w).1 = none := by
  have hl' : ∀ k, List.lookup (Base (l.filename env)) w.files ≠ some (Entry.dir k) := hl
  unfold FLogger.openNewFile osOpenFileTrunc
  cases hlk : List.lookup (Base (l.filename env)) w.files with
  | none => simp [hf, hlk]
  | some e =>
    cases e with
    | file d => simp [hf, hlk]
    | dir k => exact absurd hlk (hl' k)

/-- Without injected faults `openNew` succeeds when the active file is a
regular file and the generated backup name is free. -/
theorem openNew_succeeds_present (env : Env) (l : FLogger) (w : World) (hf : w.faults = [])
    (d : List UInt8) (ha : List.lookup (l.active env) w.files = some (Entry.file d))
    (hb : List.lookup (backupName (l.filename env) l.Prefix l.LocalTime w).1 w.files = none) :
    (l.openNew env w).1 = none := by
  have ha' : List.lookup (Base (l.filename env)) w.files = some (Entry.file d) := ha
  have hne := nextBackup_ne_active env l w
  have hs : (osStat (w.sys Ev.mkdirAll).2 (Base (l.filename env))).1 =
      StatResult.info (d.length : Int) := by
    rw [osStat_fst]
    simp [World.nextFault, hf, ha', Entry.size]
  have hr := osRename_nofault (backupName (l.filename env) l.Prefix l.LocalTime
      ((w.sys Ev.mkdirAll).2.sys (Ev.stat (Base (l.filename env)))).2).2
      (Base (l.filename env)) (backupName (l.filename env) l.Prefix l.LocalTime
      ((w.sys Ev.mkdirAll).2.sys (Ev.stat (Base (l.filename env)))).2).1 (Entry.file d)
      (nextFault_of_nil _ (by show w.faults.tail.tail = []; rw [hf]; rfl))
      ha' (fun h => hne h.symm) hb
  unfold FLogger.openNew
  simp only [osMkdirAll, sys_fst, nextFault_of_nil w hf, Option.isNone_none, Bool.true_eq_false,
    if_false, hs, osStat_snd, hr]
  apply openNewFile_succeeds
  · exact nextFault_of_nil _ (by show w.faults.tail.tail.tail = []; rw [hf]; rfl)
  · intro k
    show List.lookup (l.active env) (put (backupName (l.filename env) l.Prefix l.LocalTime w).1
      _ (del (l.active env) w.files)) ≠ _
    rw [lookup_put_ne _ _ _ _ (fun h => hne h.symm), lookup_del_self]
    simp

/-- Without injected faults, `openNew` on a directory without the active
file creates it. -/
theorem openNew_nofault_absent (env : Env) (l : FLogger) (w : World) (hf : w.faults = [])
    (ha : List.lookup (l.active env) w.files = none) :
    (l.openNew env w).1 = none ∧
    (l.openNew env w).2.1 = { l with file := some (l.active env), size := 0 } ∧
    (l.openNew env w).2.2.files = put (l.active env) (Entry.file []) w.files ∧
    (l.openNew env w).2.2.faults = [] ∧
    (l.openNew env w).2.2.counter = w.counter := by
  have hok := openNew_succeeds_absent env l w hf ha
  obtain ⟨h1, h2⟩ := openNew_ok env l w hok
  refine ⟨hok, h1, ?_⟩
  rcases h2 with ⟨_, h⟩ | ⟨e, he, _⟩
  · rw [h]
    exact ⟨rfl, by simp [hf], rfl⟩
  · rw [ha] at he
    exact absurd he (by simp)

/-- Without injected faults, `openNew` on a directory with the active file
and without the generated backup name renames the file and creates a new
one. -/
theorem openNew_nofault_present (env : Env) (l : FLogger) (w : World) (hf : w.faults = [])
    (d : List UInt8) (ha : List.lookup (l.active env) w.files = some (Entry.file d))
    (hb : List.lookup (backupName (l.filename env) l.Prefix l.LocalTime w).1 w.files = none) :
    (l.openNew env w).1 = none ∧
    (l.openNew env w).2.1 = { l with file := some (l.active env), size := 0 } ∧
    (l.openNew env w).2.2.files = put (l.active env) (Entry.file [])
      (put (backupName (l.filename env) l.Prefix l.LocalTime w).1 (Entry.file d)
        (del (l.active env) w.files)) ∧
    (l.openNew env w).2.2.faults = [] ∧
    (l.openNew env w).2.2.counter = w.counter + 1 := by
  have hok := openNew_succeeds_present env l w hf d ha hb
  obtain ⟨h1, h2⟩ := openNew_ok env l w hok
  refine ⟨hok, h1, ?_⟩
  rcases h2 with ⟨hn, _⟩ | ⟨e, he, h⟩
  · rw [hn hf] at ha
    exact absurd ha (by simp)
  · rw [ha] at he
    have : e = Entry.file d := (Option.some.inj he).symm
    subst this
    rw [h]
    exact ⟨rfl, by simp [hf], rfl⟩

theorem backupName_congr (path pfx : String) (loc : Bool) (w1 w2 : World)
    (h1 : w1.counter = w2.counter) (h2 : w1.todayLocal = w2.todayLocal)
    (h3 : w1.todayUTC = w2.todayUTC) :
    (backupName path pfx loc w1).1 = (backupName path pfx loc w2).1 := by
  simp [backupName, World.today, h1, h2, h3]

/-- Without injected faults, a rotation of an existing regular active file
whose backup name is free succeeds: the file becomes the backup and a new,
empty active file is opened. -/
theorem rotate_nofault_present (env : Env) (l : FLogger) (w : World) (hf : w.faults = [])
    (d : List UInt8) (ha : List.lookup (l.active env) w.files = some (Entry.file d))
    (hb : List.lookup (backupName (l.filename env) l.Prefix l.LocalTime w).1 w.files = none) :
    (l.rotate env w).1 = none ∧
    (l.rotate env w).2.1 = { l with file := some (l.active env), size := 0 } ∧
    (l.rotate env w).2.2.files = put (l.active env) (Entry.file [])
      (put (backupName (l.filename env) l.Prefix l.LocalTime w).1 (Entry.file d)
        (del (l.active env) w.files)) ∧
    (l.rotate env w).2.2.faults = [] ∧
    (l.rotate env w).2.2.counter = w.counter + 1 := by
  obtain ⟨c1, c2, c3, c4, c5⟩ := close_world l (w.mark Ev.rotate)
  obtain ⟨c6, c7⟩ := c5 hf
  have hname : (backupName (l.filename env) l.Prefix l.LocalTime
      (l.close (w.mark Ev.rotate)).2.2).1 =
      (backupName (l.filename env) l.Prefix l.LocalTime w).1 :=
    backupName_congr _ _ _ _ _ c2 c3 c4
  have heq : l.rotate env w =
      FLogger.openNew env { l with file := none } (l.close (w.mark Ev.rotate)).2.2 := by
    unfold FLogger.rotate
    simp only [c7]
    rw [(close_spec l _).1]
  rw [heq]
  have := openNew_nofault_present env { l with file := none } (l.close (w.mark Ev.rotate)).2.2
    c6 d (by rw [c1]; exact ha) (by rw [c1]; exact hname ▸ hb)
  obtain ⟨g1, g2, g3, g4, g5⟩ := this
  refine ⟨g1, g2, ?_, g4, ?_⟩
  · rw [g3, c1]
    show put (l.active env) _ (put (backupName (l.filename env) l.Prefix l.LocalTime
      (l.close (w.mark Ev.rotate)).2.2).1 _ _) = _
    rw [hname]
    rfl
  · rw [g5, c2]; rfl

/-- Without injected faults, the open-or-create path on a directory without
the active file creates it. -/
theorem openExistingOrNew_nofault_absent (env : Env) (l : FLogger) (w : World) (n : Int)
    (hf : w.faults = []) (ha : List.lookup (l.active env) w.files = none) :
    (l.openExistingOrNew env w n).1 = none ∧
    (l.openExistingOrNew env w n).2.1 = { l with file := some (l.active env), size := 0 } ∧
    (l.openExistingOrNew env w n).2.2.files = put (l.active env) (Entry.file []) w.files ∧
    (l.openExistingOrNew env w n).2.2.faults = [] ∧
    (l.openExistingOrNew env w n).2.2.counter = w.counter := by
  have ha' : List.lookup (Base (l.filename env)) w.files = none := ha
  have hs : (osStat w (Base (l.filename env))).1 = StatResult.notExist := by
    rw [osStat_fst]
    simp [nextFault_of_nil w hf, ha']
  have heq : l.openExistingOrNew env w n =
      l.openNew env (w.sys (Ev.stat (Base (l.filename env)))).2 := by
    unfold FLogger.openExistingOrNew
    simp only [hs, osStat_snd]
  rw [heq]
  exact openNew_nofault_absent env l _ (by simp [hf]) ha

/-- Without injected faults, a write through a handle on a regular file
appends all of the data. -/
theorem fileWrite_nofault (w : World) (h : String) (p d : List UInt8) (hf : w.faults = [])
    (hl : List.lookup h w.files = some (Entry.file d)) :
    (fileWrite w h p).1 = p.length ∧ (fileWrite w h p).2.1 = true ∧
    (fileWrite w h p).2.2.files = put h (Entry.file (d ++ p)) w.files ∧
    (fileWrite w h p).2.2.faults = [] ∧ (fileWrite w h p).2.2.counter = w.counter := by
  obtain ⟨q, h1, h2, h3, h4⟩ := fileWrite_file w h p d hl
  have hok := h4 (nextFault_of_nil w hf)
  have hq := h3 hok
  subst hq
  refine ⟨h1, hok, ?_, ?_, ?_⟩ <;> rw [h2]
  · simp [hf]
  · rfl

theorem names_groupFiles (groups : List (String × List (List UInt8))) :
    names (groupFiles groups) = groups.map (fun g => g.1) := by
  simp [names, groupFiles, List.map_map, Function.comp_def]

/-- The backup name generated next is not yet in the directory of a good
state. -/
theorem good_backup_fresh (env : Env) (l : FLogger) (w : World)
    (groups : List (String × List (List UInt8))) (hg : Good env (l, w) groups) :
    (backupName (l.filename env) l.Prefix l.LocalTime w).1 ∉ groups.map (fun g => g.1) := by
  intro hmem
  obtain ⟨g, hgm, hgn⟩ := List.mem_map.1 hmem
  rcases hg.2.2.2.2.2 g hgm with h | ⟨d, c, hc, h⟩
  · exact nextBackup_ne_active env l w (by rw [← hgn]; exact h)
  · rw [backupName_fst] at hgn
    simp only at hgn h
    rw [h] at hgn
    have := name_inj _ _ _ _ _ _ hgn
    simp only at hc
    omega

/-- One fault-free `Write` from a good state: a rejected write changes
nothing; an accepted write returns the length of the data and appends the
data, whole, to the group of the active file, possibly after the former
active file became a backup. -/
theorem Write_good (env : Env) (l : FLogger) (w : World)
    (groups : List (String × List (List UInt8))) (p : List UInt8)
    (hg : Good env (l, w) groups) :
    ∃ groups', Good env ((l.Write env w p).2.2.1, (l.Write env w p).2.2.2) groups' ∧
      (((l.Write env w p).2.1 = none ∧ (l.Write env w p).1 = p.length ∧
          (groups'.reverse.map (fun g => g.2)).flatten =
            (groups.reverse.map (fun g => g.2)).flatten ++ [p]) ∨
       ((l.Write env w p).2.1 ≠ none ∧ groups' = groups)) := by
  obtain ⟨hf, hfiles, hnd, hnone, hsome, hfmt⟩ := hg
  simp only at hf hfiles hnone hsome hfmt
  by_cases hlen : (p.length : Int) > l.max env
  · refine ⟨groups, ?_, Or.inr ⟨?_, rfl⟩⟩
    · unfold FLogger.Write
      simp only [hlen, if_true]
      exact ⟨hf, hfiles, hnd, hnone, hsome, hfmt⟩
    · unfold FLogger.Write
      simp [hlen]
  · rw [Write_eq env l w p hlen]
    cases hfile : l.file with
    | none =>
      have hgr := hnone hfile
      subst hgr
      have ha : List.lookup (l.active env) w.files = none := by rw [hfiles]; rfl
      obtain ⟨o1, o2, o3, o4, o5⟩ := openExistingOrNew_nofault_absent env l w p.length hf ha
      simp only [if_true, o1]
      have hfit : ¬ ((l.openExistingOrNew env w p.length).2.1.size + (p.length : Int) >
          (l.openExistingOrNew env w p.length).2.1.max env) := by
        rw [o2]
        show ¬ ((0 : Int) + (p.length : Int) > l.max env)
        omega
      have hfile1 : (l.openExistingOrNew env w p.length).2.1.file = some (l.active env) := by
        rw [o2]
      rw [writeHeld_plain env _ _ p (l.active env) hfile1 hfit]
      have hl1 : List.lookup (l.active env) (l.openExistingOrNew env w p.length).2.2.files =
          some (Entry.file []) := by rw [o3]; simp
      obtain ⟨w1, w2, w3, w4, w5⟩ := fileWrite_nofault _ (l.active env) p [] o4 hl1
      refine ⟨[(l.active env, [p])], ⟨w4, ?_, by simp, ?_, ?_, ?_⟩, Or.inl ⟨?_, w1, by simp⟩⟩
      · show (fileWrite _ _ p).2.2.files = _
        rw [w3, o3, hfiles]
        simp [groupFiles, put]
      · intro h; simp only [o2] at h; exact absurd h (by simp)
      · intro h hh
        simp only [o2, Option.some.injEq] at hh
        refine ⟨by simp only [o2]; exact hh.symm, [p], [], by simp only [o2]; rfl, ?_⟩
        simp only [o2, w1]
        simp
      · intro g hgm
        simp only [List.mem_singleton] at hgm
        left; rw [hgm]; simp only [o2]; rfl
      · simp [w2]
    | some h =>
      obtain ⟨hh, ga, gs, hgr, hsz⟩ := hsome h hfile
      subst hh
      subst hgr
      simp only [reduceCtorEq, if_false]
      have hnd' := List.nodup_cons.1 hnd
      have hnot : l.active env ∉ names (groupFiles gs) := by
        rw [names_groupFiles]; exact hnd'.1
      have hfiles' : w.files = (l.active env, Entry.file ga.flatten) :: groupFiles gs := hfiles
      have hl : List.lookup (l.active env) w.files = some (Entry.file ga.flatten) := by
        rw [hfiles']; simp [List.lookup]
      by_cases hover : l.size + (p.length : Int) > l.max env
      · have hb : List.lookup (backupName (l.filename env) l.Prefix l.LocalTime w).1 w.files =
            none := by
          rw [lookup_eq_none_iff, hfiles, names_groupFiles]
          exact good_backup_fresh env l w _ ⟨hf, hfiles, hnd, hnone, hsome, hfmt⟩
        have hbne := nextBackup_ne_active env l w
        have hbnot : (backupName (l.filename env) l.Prefix l.LocalTime w).1 ∉
            names (groupFiles gs) := by
          have := (lookup_eq_none_iff _ _).1 hb
          rw [hfiles'] at this
          intro hin
          exact this (List.mem_cons_of_mem _ hin)
        obtain ⟨r1, r2, r3, r4, r5⟩ := rotate_nofault_present env l w hf ga.flatten hl hb
        have hfiles1 : (l.rotate env w).2.2.files =
            (l.active env, Entry.file []) ::
              ((backupName (l.filename env) l.Prefix l.LocalTime w).1, Entry.file ga.flatten) ::
                groupFiles gs := by
          rw [r3, hfiles', del_cons_self _ _ _ hnot, put_fresh _ _ _ hbnot]
          apply put_fresh
          intro hin
          rcases List.mem_cons.1 hin with h1 | h1
          · exact hbne h1.symm
          · exact hnot h1
        have hl1 : List.lookup (l.active env) (l.rotate env w).2.2.files =
            some (Entry.file []) := by rw [hfiles1]; simp [List.lookup]
        obtain ⟨w1, w2, w3, w4, w5⟩ := fileWrite_nofault _ (l.active env) p [] r4 hl1
        rcases writeHeld_rotate env l w p hover with ⟨herr, _⟩ | ⟨_, heq⟩
        · exact absurd r1 herr
        · rw [heq]
          refine ⟨(l.active env, [p]) ::
            ((backupName (l.filename env) l.Prefix l.LocalTime w).1, ga) :: gs,
            ⟨w4, ?_, ?_, ?_, ?_, ?_⟩, Or.inl ⟨by simp [w2], w1, by simp⟩⟩
          · show (fileWrite _ _ p).2.2.files = _
            rw [w3, hfiles1]
            rw [put_cons_self]
            · simp [groupFiles]
            · intro hin
              rcases List.mem_cons.1 hin with h1 | h1
              · exact hbne h1.symm
              · exact hnot h1
          · simp only [List.map_cons]
            refine List.nodup_cons.2 ⟨?_, List.nodup_cons.2 ⟨?_, hnd'.2⟩⟩
            · intro hin
              rcases List.mem_cons.1 hin with h1 | h1
              · exact hbne h1.symm
              · exact hnd'.1 h1
            · rw [← names_groupFiles]; exact hbnot
          · intro h; simp at h
          · intro h' hh'
            simp only [Option.some.injEq] at hh'
            refine ⟨hh'.symm, [p], _, rfl, ?_⟩
            simp [w1]
          · intro g hgm
            rcases List.mem_cons.1 hgm with h1 | h1
            · left; rw [h1]; rfl
            · right
              rcases List.mem_cons.1 h1 with h2 | h2
              · refine ⟨w.today l.LocalTime, w.counter + 1, ?_, ?_⟩
                · show w.counter + 1 ≤ (fileWrite _ _ p).2.2.counter
                  rw [w5, r5]
                · rw [h2]
                  exact backupName_fst env l w
              · rcases hfmt g (List.mem_cons_of_mem _ h2) with h3 | ⟨d, c, hc, h3⟩
                · exact absurd (List.mem_map.2 ⟨g, h2, h3⟩) hnd'.1
                · refine ⟨d, c, ?_, h3⟩
                  show c ≤ (fileWrite _ _ p).2.2.counter
                  rw [w5, r5]
                  omega
      · rw [writeHeld_plain env l w p _ hfile hover]
        obtain ⟨w1, w2, w3, w4, w5⟩ := fileWrite_nofault w (l.active env) p ga.flatten hf hl
        refine ⟨(l.active env, ga ++ [p]) :: gs, ⟨w4, ?_, ?_, ?_, ?_, ?_⟩,
          Or.inl ⟨by simp [w2], w1, by simp⟩⟩
        · show (fileWrite _ _ p).2.2.files = _
          rw [w3, hfiles', put_cons_self _ _ _ _ hnot]
          simp [groupFiles]
        · exact hnd
        · intro h'; simp only [hfile] at h'; exact absurd h' (by simp)
        · intro h' hh'
          simp only [hfile, Option.some.injEq] at hh'
          refine ⟨hh'.symm, ga ++ [p], gs, rfl, ?_⟩
          show l.size + ((fileWrite w (l.active env) p).1 : Int) = _
          rw [w1, hsz]
          simp
        · intro g hgm
          rcases List.mem_cons.1 hgm with h1 | h1
          · left; rw [h1]; rfl
          · rcases hfmt g (List.mem_cons_of_mem _ h1) with h3 | ⟨d, c, hc, h3⟩
            · left; exact h3
            · right
              refine ⟨d, c, ?_, h3⟩
              show c ≤ (fileWrite _ _ p).2.2.counter
              rw [w5]; exact hc

/-- A fault-free run of writes from a good state: the writes that returned
no error returned the length of their data, and their data, each whole and
in call order, is what was appended to the files. -/
theorem runCalls_good (env : Env) : ∀ (calls : List Call) (s : FLogger × World)
    (groups : List (String × List (List UInt8))), Good env s groups →
    ∃ groups', Good env (runCalls env s calls).1 groups' ∧
      (groups'.reverse.map (fun g => g.2)).flatten =
        (groups.reverse.map (fun g => g.2)).flatten ++
          (okCalls (runCalls env s calls).2).map (fun r => r.1.data) ∧
      ∀ r ∈ okCalls (runCalls env s calls).2, r.2.1 = r.1.data.length := by
  intro calls
  induction calls with
  | nil =>
    intro s groups hg
    exact ⟨groups, hg, by simp [runCalls, okCalls], by simp [runCalls, okCalls]⟩
  | cons c cs ih =>
    intro s groups hg
    have hg' : Good env (s.1, { s.2 with todayLocal := c.todayLocal, todayUTC := c.todayUTC })
        groups := hg
    obtain ⟨g1, hg1, hcase⟩ := Write_good env s.1 _ groups c.data hg'
    obtain ⟨g2, hg2, hcat, hlen⟩ := ih ((writeCall env s c).2.2.1, (writeCall env s c).2.2.2) g1 hg1
    refine ⟨g2, hg2, ?_, ?_⟩
    · rw [hcat]
      rcases hcase with ⟨hok, _, hc⟩ | ⟨herr, hc⟩
      · have hok' : (writeCall env s c).2.1 = none := hok
        rw [hc]
        simp [runCalls, okCalls, List.filter, hok']
      · have herr' : (writeCall env s c).2.1 ≠ none := herr
        rw [hc]
        cases he : (writeCall env s c).2.1 with
        | none => exact absurd he herr'
        | some e => simp [runCalls, okCalls, List.filter, he]
    · intro r hr
      simp only [runCalls, okCalls, List.filter] at hr
      rcases hcase with ⟨hok, hn, _⟩ | ⟨herr, _⟩
      · have hok' : (writeCall env s c).2.1 = none := hok
        simp only [hok', Option.isNone_none] at hr
        rcases List.mem_cons.1 hr with h | h
        · rw [h]; exact hn
        · exact hlen r h
      · have herr' : (writeCall env s c).2.1 ≠ none := herr
        cases he : (writeCall env s c).2.1 with
        | none => exact absurd he herr'
        | some e =>
          simp only [he, Option.isNone_some] at hr
          exact hlen r hr

theorem totalBytes_groupFiles (groups : List (String × List (List UInt8))) :
    totalBytes (groupFiles groups) =
      (((groups.reverse.map (fun g => g.2)).flatten).map List.length).sum := by
  induction groups with
  | nil => rfl
  | cons g gs ih =>
    have : totalBytes (groupFiles (g :: gs)) = g.2.flatten.length + totalBytes (groupFiles gs) := by
      simp [totalBytes, groupFiles, Entry.size]
    rw [this, ih]
    simp [List.length_flatten, Nat.add_comm]

/-! ## The claims -/

set_option maxRecDepth 100000

/-- C1: a write whose length exceeds `max` (`MaxSize * megabyte`, or
`100 * megabyte` when `MaxSize` is 0, as an `int64`) returns
`(0, oversized)` and performs no I/O: the writer (handle and size) and the
whole world (directory, containers, counters, fault schedule, trace) are
returned unchanged. -/
theorem C1_write_oversized (env : Env) (l : FLogger) (w : World) (p : List UInt8)
    (h : (p.length : Int) > l.max env) :
    l.Write env w p = (0, some Error.oversized, l, w) ∧
    l.max env = wrap64 ((if l.MaxSize = 0 then 100 else l.MaxSize) * env.megabyte) ∧
    (-(2 : Int) ^ 63 ≤ (if l.MaxSize = 0 then 100 else l.MaxSize) * env.megabyte →
      (if l.MaxSize = 0 then 100 else l.MaxSize) * env.megabyte < (2 : Int) ^ 63 →
      l.max env = (if l.MaxSize = 0 then 100 else l.MaxSize) * env.megabyte) := by
  have hmax : l.max env = wrap64 ((if l.MaxSize = 0 then 100 else l.MaxSize) * env.megabyte) := by
    unfold FLogger.max defaultMaxSize
    split <;> rfl
  refine ⟨?_, hmax, ?_⟩
  · unfold FLogger.Write
    simp [h]
  · intro h1 h2
    rw [hmax]
    unfold wrap64
    omega

/-- Witness of C1: a 1025-byte write against `max = 1024` on an empty
directory. -/
theorem C1_write_oversized_witness :
    ((block 1025).length : Int) > testLogger.max testEnv ∧
    testLogger.Write testEnv emptyWorld (block 1025) =
      (0, some Error.oversized, testLogger, emptyWorld) :=
  ⟨by decide, (C1_write_oversized testEnv testLogger emptyWorld (block 1025) (by decide)).1⟩

/-- C2: when a handle is held and the data fits in `max`, `Write` marks a
rotation if and only if `size + len > max` (strictly); the rotation is then
the first thing it does, and otherwise the single write to the handle is all
it does. Scenario with `max = 1024` and 200-byte writes into an empty
directory: after five writes no rotation has happened and the active file
holds 1000 bytes; the sixth write rotates first and leaves one 1000-byte
backup and an active file of 200 bytes. -/
theorem C2_write_rotates_iff (env : Env) (l : FLogger) (w : World) (p : List UInt8) (h : String)
    (hfile : l.file = some h) (hlen : (p.length : Int) ≤ l.max env) :
    ((Ev.rotate ∈ newEvents w (l.Write env w p).2.2.2 ↔ l.size + (p.length : Int) > l.max env) ∧
     (l.size + (p.length : Int) > l.max env →
        ∃ evs, newEvents w (l.Write env w p).2.2.2 = Ev.rotate :: evs) ∧
     (¬ (l.size + (p.length : Int) > l.max env) →
        newEvents w (l.Write env w p).2.2.2 = [Ev.write h])) ∧
    (testLogger.max testEnv = 1024 ∧
     Ev.rotate ∉ (writeAll testEnv (testLogger, emptyWorld) (List.replicate 5 (block 200))).2.trace ∧
     listing (writeAll testEnv (testLogger, emptyWorld) (List.replicate 5 (block 200))).2 =
       [("app.log", 1000)] ∧
     newEvents (writeAll testEnv (testLogger, emptyWorld) (List.replicate 5 (block 200))).2
         (writeAll testEnv (testLogger, emptyWorld) (List.replicate 6 (block 200))).2 =
       [Ev.rotate, Ev.close "app.log", Ev.mkdirAll, Ev.stat "app.log",
        Ev.rename "app.log" "app-2024-05-01_1.log", Ev.create "app.log", Ev.write "app.log"] ∧
     listing (writeAll testEnv (testLogger, emptyWorld) (List.replicate 6 (block 200))).2 =
       [("app.log", 200), ("app-2024-05-01_1.log", 1000)] ∧
     listing (writeAll testEnv (testLogger, emptyWorld) (List.replicate 10 (block 200))).2 =
       [("app.log", 1000), ("app-2024-05-01_1.log", 1000)]) := by
  have hlen' : ¬ ((p.length : Int) > l.max env) := by omega
  have key : (l.size + (p.length : Int) > l.max env →
        ∃ evs, newEvents w (l.Write env w p).2.2.2 = Ev.rotate :: evs) ∧
     (¬ (l.size + (p.length : Int) > l.max env) →
        newEvents w (l.Write env w p).2.2.2 = [Ev.write h]) := by
    rw [Write_held env l w p h hfile hlen']
    constructor
    · intro hover
      obtain ⟨evs, e1⟩ := rotate_extends env l w
      rcases writeHeld_rotate env l w p hover with ⟨_, heq⟩ | ⟨_, heq⟩
      · rw [heq]
        exact ⟨evs, e1.newEvents⟩
      · rw [heq]
        have e2 := fileWrite_extends (l.rotate env w).2.2 (l.active env) p
        exact ⟨_, (e1.trans e2).newEvents⟩
    · intro hfit
      rw [writeHeld_plain env l w p h hfile hfit]
      exact (fileWrite_extends w h p).newEvents
  refine ⟨⟨?_, key.1, key.2⟩, ?_⟩
  · constructor
    · intro hmem
      by_contra hfit
      rw [key.2 hfit] at hmem
      simp at hmem
    · intro hover
      obtain ⟨evs, he⟩ := key.1 hover
      rw [he]; simp
  · decide

/-- Witness of C2: the sixth 200-byte write of the scenario, with a handle
held, `size = 1000` and `max = 1024`. -/
theorem C2_write_rotates_iff_witness :
    (writeAll testEnv (testLogger, emptyWorld) (List.replicate 5 (block 200))).1.file =
      some "app.log" ∧
    Ev.rotate ∈ newEvents (writeAll testEnv (testLogger, emptyWorld) (List.replicate 5 (block 200))).2
      ((writeAll testEnv (testLogger, emptyWorld) (List.replicate 5 (block 200))).1.Write testEnv
        (writeAll testEnv (testLogger, emptyWorld) (List.replicate 5 (block 200))).2
        (block 200)).2.2.2 :=
  ⟨by decide,
   ((C2_write_rotates_iff testEnv
      (writeAll testEnv (testLogger, emptyWorld) (List.replicate 5 (block 200))).1
      (writeAll testEnv (testLogger, emptyWorld) (List.replicate 5 (block 200))).2
      (block 200) "app.log" (by decide) (by decide)).1.1).2 (by decide)⟩

/-- C3 as stated fails: a fresh writer (`size = 0`, no handle) whose active
file already holds 500 bytes adopts that size, so a successful 100-byte
write without any rotation leaves `size = 600`, not `0 + 100`. -/
theorem C3_counterexample :
    ¬ (∀ (env : Env) (l : FLogger) (w : World) (p : List UInt8),
        (p.length : Int) ≤ l.max env → (l.Write env w p).2.1 = none →
        (Ev.rotate ∉ newEvents w (l.Write env w p).2.2.2 →
          (l.Write env w p).2.2.1.size = l.size + (p.length : Int)) ∧
        (Ev.rotate ∈ newEvents w (l.Write env w p).2.2.2 →
          (l.Write env w p).2.2.1.size = (p.length : Int))) := by
  intro h
  have h1 := (h testEnv testLogger (worldWith 500) (block 100) (by decide) (by decide)).1
    (by decide)
  revert h1
  decide

/-- C3 (amended): after a successful `Write` of data that fits in `max`,
`size` is `len` when a rotation occurred during the call; without a rotation
it is the old `size` plus `len` when a handle was held, and otherwise the
size of the file that was opened plus `len`: zero for a file created by
`openNew`, the size on disk for an existing file that was adopted. -/
theorem C3_size_after_write (env : Env) (l : FLogger) (w : World) (p : List UInt8)
    (hlen : (p.length : Int) ≤ l.max env) (hok : (l.Write env w p).2.1 = none) :
    (Ev.rotate ∈ newEvents w (l.Write env w p).2.2.2 →
      (l.Write env w p).2.2.1.size = (p.length : Int)) ∧
    (Ev.rotate ∉ newEvents w (l.Write env w p).2.2.2 → l.file ≠ none →
      (l.Write env w p).2.2.1.size = l.size + (p.length : Int)) ∧
    (Ev.rotate ∉ newEvents w (l.Write env w p).2.2.2 → l.file = none →
      (l.Write env w p).2.2.1.size =
        (if Ev.create (l.active env) ∈ newEvents w (l.Write env w p).2.2.2 then 0
          else diskSize w (l.active env)) + (p.length : Int)) := by
  rcases Write_ok_cases env l w p hlen hok with
    ⟨h, hf, _, hev, hsz⟩ | ⟨hf, hrot, _, hsz⟩ | ⟨hf, hcr, hsz⟩ | ⟨hf, d, hd, hev, hsz⟩
  · refine ⟨?_, fun _ _ => hsz, ?_⟩
    · intro hr; rw [hev] at hr; simp at hr
    · intro _ hn; rw [hf] at hn; exact absurd hn (by simp)
  · refine ⟨fun _ => hsz, fun hn => absurd hrot hn, fun hn => absurd hrot hn⟩
  · refine ⟨fun _ => hsz, fun _ hn => absurd hf hn, ?_⟩
    intro _ _
    simp [hcr, hsz]
  · refine ⟨?_, fun _ hn => absurd hf hn, ?_⟩
    · intro hr; rw [hev] at hr; simp at hr
    · intro _ _
      rw [hev, hsz]
      simp [diskSize, hd, Entry.size]

/-- Witness of C3: the first 200-byte write of a fresh writer into an empty
directory succeeds and leaves `size = 200`. -/
theorem C3_size_after_write_witness :
    (testLogger.Write testEnv emptyWorld (block 200)).2.1 = none ∧
    (testLogger.Write testEnv emptyWorld (block 200)).2.2.1.size = 200 :=
  ⟨by decide,
   by
    have h := (C3_size_after_write testEnv testLogger emptyWorld (block 200)
      (by decide) (by decide)).2.2 (by decide) (by decide)
    rw [h]
    decide⟩

/-- C10 as stated fails at the boundary: with an 824-byte active file,
`max = 1024` and a pending write of 200 bytes (`s + len = max` exactly) the
open-or-create path rotates: the existing file is never opened for append
and the adopted size is not 824. -/
theorem C10_counterexample :
    (824 : Int) + 200 = testLogger.max testEnv ∧
    Ev.rotate ∈ (testLogger.openExistingOrNew testEnv (worldWith 824) 200).2.2.trace ∧
    Ev.openAppend "app.log" ∉
      (testLogger.openExistingOrNew testEnv (worldWith 824) 200).2.2.trace ∧
    (testLogger.openExistingOrNew testEnv (worldWith 824) 200).2.1.size ≠ 824 ∧
    listing (testLogger.openExistingOrNew testEnv (worldWith 824) 200).2.2 =
      [("app.log", 0), ("app-2024-05-01_1.log", 824)] := by
  decide

/-- C10 (amended): on the open-or-create path, when the stat finds the
active file as a regular file of `s` bytes, the writer rotates instead of
opening if `s + len >= max` (so also when `s + len` equals `max` exactly);
only when `s + len < max` does it open the existing file in append mode,
without rotating, and adopt `s` as `size`. -/
theorem C10_open_existing_boundary (env : Env) (l : FLogger) (w : World) (n : Int)
    (d : List UInt8) (hd : List.lookup (l.active env) w.files = some (Entry.file d))
    (hstat : w.nextFault = none) :
    ((d.length : Int) + n ≥ l.max env →
      l.openExistingOrNew env w n = l.rotate env (w.sys (Ev.stat (l.active env))).2 ∧
      Ev.rotate ∈ newEvents w (l.openExistingOrNew env w n).2.2) ∧
    ((d.length : Int) + n < l.max env →
      (w.sys (Ev.stat (l.active env))).2.nextFault = none →
      l.openExistingOrNew env w n =
        (none, { l with file := some (l.active env), size := (d.length : Int) },
          ((w.sys (Ev.stat (l.active env))).2.sys (Ev.openAppend (l.active env))).2) ∧
      newEvents w (l.openExistingOrNew env w n).2.2 =
        [Ev.stat (l.active env), Ev.openAppend (l.active env)]) := by
  have hs : (osStat w (Base (l.filename env))).1 = StatResult.info (d.length : Int) := by
    rw [osStat_fst]
    have hd' : List.lookup (Base (l.filename env)) w.files = some (Entry.file d) := hd
    simp [hstat, hd', Entry.size]
  constructor
  · intro hge
    have heq : l.openExistingOrNew env w n = l.rotate env (w.sys (Ev.stat (l.active env))).2 := by
      unfold FLogger.openExistingOrNew
      simp only [hs, osStat_snd, hge, if_true]
      rfl
    refine ⟨heq, ?_⟩
    rw [heq]
    obtain ⟨evs, e1⟩ := rotate_extends env l (w.sys (Ev.stat (l.active env))).2
    rw [((Extends.sys w _).trans e1).newEvents]
    simp
  · intro hlt hopen
    have hlt' : ¬ ((d.length : Int) + n ≥ l.max env) := by omega
    have ho : (osOpenFileAppend (w.sys (Ev.stat (Base (l.filename env)))).2
        (Base (l.filename env))).1 = some (Base (l.filename env)) := by
      unfold osOpenFileAppend
      have hd' : List.lookup (Base (l.filename env)) w.files = some (Entry.file d) := hd
      have hopen' : (w.sys (Ev.stat (Base (l.filename env)))).2.nextFault = none := hopen
      simp [hopen', hd']
    have heq : l.openExistingOrNew env w n =
        (none, { l with file := some (l.active env), size := (d.length : Int) },
          ((w.sys (Ev.stat (l.active env))).2.sys (Ev.openAppend (l.active env))).2) := by
      unfold FLogger.openExistingOrNew
      simp only [hs, osStat_snd, hlt', if_false, ho, osOpenFileAppend_snd]
      rfl
    refine ⟨heq, ?_⟩
    rw [heq]
    exact ((Extends.sys w _).trans (Extends.sys _ _)).newEvents

/-- Witness of C10: with a 500-byte active file and a pending write of 200
bytes the existing file is adopted; with 824 bytes it is rotated. -/
theorem C10_open_existing_boundary_witness :
    (testLogger.openExistingOrNew testEnv (worldWith 500) 200).2.1.size = 500 ∧
    Ev.rotate ∈ newEvents (worldWith 824)
      (testLogger.openExistingOrNew testEnv (worldWith 824) 200).2.2 :=
  ⟨by
    have h := ((C10_open_existing_boundary testEnv testLogger (worldWith 500) 200 (block 500)
      (by decide) (by decide)).2 (by decide) (by decide)).1
    rw [h]
    decide,
   ((C10_open_existing_boundary testEnv testLogger (worldWith 824) 200 (block 824)
      (by decide) (by decide)).1 (by decide)).2⟩

/-- C4: in every state reached from a freshly constructed writer by any
sequence of `Write`, `Rotate` and `Close` calls (and changes of the date),
for every initial directory and every fault schedule, a held handle is a
handle on the active file, the active file is a regular file on disk, and
`size` equals its length. -/
theorem C4_size_invariant (env : Env) (pfx : String) (maxSize : Int) (localTime : Bool)
    (w0 : World) (acts : List Action) (h : String)
    (hh : (run env (FLogger.fresh pfx maxSize localTime, w0) acts).1.file = some h) :
    h = (run env (FLogger.fresh pfx maxSize localTime, w0) acts).1.active env ∧
    ∃ d, List.lookup ((run env (FLogger.fresh pfx maxSize localTime, w0) acts).1.active env)
        (run env (FLogger.fresh pfx maxSize localTime, w0) acts).2.files = some (Entry.file d) ∧
      (run env (FLogger.fresh pfx maxSize localTime, w0) acts).1.size = (d.length : Int) := by
  have h0 : Inv env (FLogger.fresh pfx maxSize localTime, w0) := by
    intro h hh
    simp [FLogger.fresh] at hh
  exact run_inv env acts _ h0 h hh

/-- Witness of C4: six 200-byte writes (one rotation), an explicit `Rotate`
and a 100-byte write leave a held handle on `app.log`. -/
theorem C4_size_invariant_witness :
    (run testEnv (FLogger.fresh "logs/app" 1 true, emptyWorld)
      ((List.replicate 6 (Action.write (block 200))) ++
        [Action.rotate, Action.write (block 100)])).1.file = some "app.log" ∧
    ∃ d, List.lookup ((run testEnv (FLogger.fresh "logs/app" 1 true, emptyWorld)
        ((List.replicate 6 (Action.write (block 200))) ++
          [Action.rotate, Action.write (block 100)])).1.active testEnv)
        (run testEnv (FLogger.fresh "logs/app" 1 true, emptyWorld)
          ((List.replicate 6 (Action.write (block 200))) ++
            [Action.rotate, Action.write (block 100)])).2.files = some (Entry.file d) ∧
      (run testEnv (FLogger.fresh "logs/app" 1 true, emptyWorld)
        ((List.replicate 6 (Action.write (block 200))) ++
          [Action.rotate, Action.write (block 100)])).1.size = (d.length : Int) :=
  ⟨by decide,
   (C4_size_invariant testEnv "logs/app" 1 true emptyWorld
      ((List.replicate 6 (Action.write (block 200))) ++
        [Action.rotate, Action.write (block 100)]) "app.log" (by decide)).2⟩

/-- C7: `backupName` advances the rotation counter by one and renders it
into the name `{prefix-basename}-{date}_{N}{ext}`; `Write`, `Rotate` and
`Close` never decrease the counter. Hence a name generated in a world `w1`
differs from the name generated in any later world `w2` of the same run
(whose counter is at least the one the first call left), whatever the two
dates are, the same day included. -/
theorem C7_backup_names_distinct (path pfx : String) (loc : Bool) (w1 w2 : World)
    (hlater : (backupName path pfx loc w1).2.counter ≤ w2.counter) :
    (backupName path pfx loc w1).1 ≠ (backupName path pfx loc w2).1 ∧
    (backupName path pfx loc w1).2.counter = w1.counter + 1 ∧
    (backupName path pfx loc w1).1 =
      Base pfx ++ "-" ++ w1.today loc ++ "_" ++ toString (w1.counter + 1) ++ Ext (Base path) ∧
    (∀ (env : Env) (l : FLogger) (w : World) (p : List UInt8),
      w.counter ≤ (l.Write env w p).2.2.2.counter) ∧
    (∀ (env : Env) (l : FLogger) (w : World), w.counter ≤ (l.Rotate env w).2.2.counter) ∧
    (∀ (l : FLogger) (w : World), (l.Close w).2.2.counter = w.counter) := by
  refine ⟨?_, rfl, rfl, ?_, Rotate_counter, ?_⟩
  · intro heq
    have hinj : w1.counter + 1 = w2.counter + 1 := name_inj _ _ _ _ _ _ heq
    have h1 : (backupName path pfx loc w1).2.counter = w1.counter + 1 := rfl
    rw [h1] at hlater
    omega
  · intro env l w p
    obtain ⟨evs, e⟩ := Write_extends env l w p
    exact e.2
  · intro l w
    unfold FLogger.Close FLogger.close
    cases l.file <;> rfl

/-- Witness of C7: two names generated on the same day, the second after
the first. -/
theorem C7_backup_names_distinct_witness :
    (backupName "logs/app.log" "logs/app" true emptyWorld).1 = "app-2024-05-01_1.log" ∧
    (backupName "logs/app.log" "logs/app" true emptyWorld).1 ≠
      (backupName "logs/app.log" "logs/app" true
        (backupName "logs/app.log" "logs/app" true emptyWorld).2).1 :=
  ⟨by decide,
   (C7_backup_names_distinct "logs/app.log" "logs/app" true emptyWorld
      (backupName "logs/app.log" "logs/app" true emptyWorld).2 (by decide)).1⟩

/-- C8: when no step of `Rotate` fails (`rotate` succeeds and leaves the
directory `w`; the directory is listed and the container `c` is created;
the loop gets through every selected file; the deferred `zipWriter.Close()`
succeeds), on a directory with distinct names: `Rotate` returns no error;
the files handed to the loop are the `k` eligible entries of `w` (not a
directory, name ending in `.log`, not the active file) in listing order; a
reader of the container `c` finds exactly `k` entries, one per selected
file, each with the name and the data of its source; every other container
reads as before; every selected source is removed from the directory; and
the active file is still in place. -/
theorem C8_archive_all (env : Env) (l l1 : FLogger) (w0 w w1 : World) (sel : List DirEntry)
    (c : String) (hnd : (names w0.files).Nodup)
    (hrot : l.rotate env w0 = (none, l1, w))
    (hopen : l1.openContainer env w = (none, sel, c, w1))
    (hloop : (compressLoop c w1 sel).1 = none)
    (hclose : (zipWriterClose (compressLoop c w1 sel).2 c).1 = true) :
    (l.Rotate env w0).1 = none ∧
    sel = selected env l1 w ∧
    (sel.map (fun f => f.name)).Perm ((w.files.filter (eligible env l1)).map (fun x => x.1)) ∧
    container (l.Rotate env w0).2.2 c = some (sel.map (entryOf w)) ∧
    (sel.map (entryOf w)).length = (w.files.filter (eligible env l1)).length ∧
    (∀ z, z ≠ c → container (l.Rotate env w0).2.2 z = container w z) ∧
    (∀ f ∈ sel, (∃ d, List.lookup f.name w.files = some (Entry.file d)) ∧
      List.lookup f.name (l.Rotate env w0).2.2.files = none) ∧
    List.lookup (l1.active env) (l.Rotate env w0).2.2.files = some (Entry.file []) := by
  obtain ⟨hnd1, hact⟩ := rotate_result env l l1 w0 w hrot hnd
  obtain ⟨a1, a2, _, a4, a5, a6⟩ := archive_ok_spec env l1 w w1 sel c hnd1 hopen hloop
  rw [if_pos hclose] at a4
  rw [Rotate_of_rotate env l l1 w0 w hrot]
  refine ⟨a1, a2, ?_, a4, ?_, a5, a6, (archive_frame env l1 w _ hact).1⟩
  · rw [a2]
    have hp := (selected_perm env l1 w).map (fun f => f.name)
    rw [List.map_map] at hp
    exact hp
  · rw [List.length_map, a2]
    exact selected_length env l1 w

/-- Witness of C8: `Rotate` on a directory holding the active file and two
other log files, with no injected fault: the three files other than the new
active file end up in one container and leave the directory. -/
theorem C8_archive_all_witness :
    (testLogger.Rotate testEnv (threeLogs [])).1 = none ∧
    container (testLogger.Rotate testEnv (threeLogs [])).2.2 "2024-05-01_1.zip" =
      some [("a.log", block 10), ("app-2024-05-01_1.log", block 300), ("b.log", block 20)] ∧
    listing (testLogger.Rotate testEnv (threeLogs [])).2.2 = [("backup", 0), ("app.log", 0)] :=
  ⟨(C8_archive_all testEnv testLogger
      (testLogger.rotate testEnv (threeLogs [])).2.1 (threeLogs [])
      (testLogger.rotate testEnv (threeLogs [])).2.2
      ((testLogger.rotate testEnv (threeLogs [])).2.1.openContainer testEnv
        (testLogger.rotate testEnv (threeLogs [])).2.2).2.2.2
      ((testLogger.rotate testEnv (threeLogs [])).2.1.openContainer testEnv
        (testLogger.rotate testEnv (threeLogs [])).2.2).2.1
      "2024-05-01_1.zip"
      (by decide) (by decide) (by decide) (by decide) (by decide)).1,
   by decide, by decide⟩

/-- C9 as stated fails, in two ways. When the delete of the only selected
file fails, `Rotate` returns the error, but that file is already in the
container with all of its data, and it is still in the directory; it is not
"neither archived nor deleted". And when the copy of the second selected
file fails and the deferred `zipWriter.Close()` fails too (a write error on
the container), `Rotate` returns the error, the first selected file is
deleted from the directory, and no archive can be read from the container;
that file is not "present in the container". -/
theorem C9_counterexample :
    ((testLogger.Rotate testEnv removeFaultWorld).1 = some Error.remove ∧
    selected testEnv testLogger (testLogger.rotate testEnv removeFaultWorld).2.2 =
      [DirEntry.mk "app-2024-05-01_1.log" false] ∧
    container (testLogger.Rotate testEnv removeFaultWorld).2.2 "2024-05-01_1.zip" =
      some [("app-2024-05-01_1.log", block 300)] ∧
    List.lookup "app-2024-05-01_1.log" (testLogger.Rotate testEnv removeFaultWorld).2.2.files =
      some (Entry.file (block 300))) ∧
    ((testLogger.Rotate testEnv stickyFaultWorld).1 = some Error.copy ∧
    selected testEnv testLogger (testLogger.rotate testEnv stickyFaultWorld).2.2 =
      [DirEntry.mk "a.log" false, DirEntry.mk "app-2024-05-01_1.log" false,
        DirEntry.mk "b.log" false] ∧
    List.lookup "a.log" (testLogger.rotate testEnv stickyFaultWorld).2.2.files =
      some (Entry.file (block 10)) ∧
    List.lookup "a.log" (testLogger.Rotate testEnv stickyFaultWorld).2.2.files = none ∧
    (testLogger.Rotate testEnv stickyFaultWorld).2.2.zips.map (fun z => z.1) =
      ["2024-05-01_1.zip"] ∧
    container (testLogger.Rotate testEnv stickyFaultWorld).2.2 "2024-05-01_1.zip" = none) := by
  decide

/-- C9 (amended): in a run of `Rotate` on a directory with distinct names
in which `rotate` succeeds and leaves the directory `w`, the container `c`
is created, the selected files are `pre ++ fi :: post`, the loop gets
through the files of `pre` and the processing of `fi` fails with error `e`
(at its open, entry creation, copy or delete): `Rotate` returns `e`; the
zip writer has received a complete entry for every file of `pre`, followed
for `fi` by nothing when the open or the entry creation failed, by an entry
with an initial segment of its data when the copy failed, and by a complete
entry when the delete failed; a reader of `c` finds these entries if the
deferred `zipWriter.Close()` succeeds and no archive if it fails; every
other container reads as before; every file of `pre` is deleted from the
directory; `fi` and every file of `post` are still in the directory; and no
file of `post` has an entry. -/
theorem C9_archive_failure (env : Env) (l l1 : FLogger) (w0 w w1 : World) (c : String)
    (pre : List DirEntry) (fi : DirEntry) (post : List DirEntry) (e : Error)
    (hnd : (names w0.files).Nodup)
    (hrot : l.rotate env w0 = (none, l1, w))
    (hopen : l1.openContainer env w = (none, pre ++ fi :: post, c, w1))
    (hpre : (compressLoop c w1 pre).1 = none)
    (hfail : (compressLoop c (compressLoop c w1 pre).2 [fi]).1 = some e) :
    (l.Rotate env w0).1 = some e ∧
    ∃ tail, tailSpec w fi e tail ∧
      List.lookup c (l.Rotate env w0).2.2.zips = some (pre.map (entryOf w) ++ tail) ∧
      container (l.Rotate env w0).2.2 c =
        (if (zipWriterClose (compressLoop c (compressLoop c w1 pre).2 [fi]).2 c).1 = true
          then some (pre.map (entryOf w) ++ tail) else none) ∧
      (∀ z, z ≠ c → container (l.Rotate env w0).2.2 z = container w z) ∧
      (∀ f ∈ pre, (∃ d, List.lookup f.name w.files = some (Entry.file d)) ∧
        List.lookup f.name (l.Rotate env w0).2.2.files = none) ∧
      (∀ f ∈ fi :: post,
        List.lookup f.name (l.Rotate env w0).2.2.files = List.lookup f.name w.files ∧
        ∃ d, List.lookup f.name w.files = some d ∧ d.isDir = false) ∧
      (∀ f ∈ post, f.name ∉ (pre.map (entryOf w) ++ tail).map (fun x => x.1)) := by
  obtain ⟨hnd1, _⟩ := rotate_result env l l1 w0 w hrot hnd
  rw [Rotate_of_rotate env l l1 w0 w hrot]
  exact archive_fail_spec env l1 w w1 pre fi post c e hnd1 hopen hpre hfail

/-- Witness of C9: `Rotate` on a directory with three selected files, where
the copy of the second one fails after 100 bytes: the first file is
archived and deleted, the second and the third are still in the
directory. -/
theorem C9_archive_failure_witness :
    (testLogger.Rotate testEnv copyFaultWorld).1 = some Error.copy ∧
    container (testLogger.Rotate testEnv copyFaultWorld).2.2 "2024-05-01_1.zip" =
      some [("a.log", block 10), ("app-2024-05-01_1.log", block 100)] ∧
    listing (testLogger.Rotate testEnv copyFaultWorld).2.2 =
      [("backup", 0), ("app.log", 0), ("app-2024-05-01_1.log", 300), ("b.log", 20)] :=
  ⟨(C9_archive_failure testEnv testLogger
      (testLogger.rotate testEnv copyFaultWorld).2.1 copyFaultWorld
      (testLogger.rotate testEnv copyFaultWorld).2.2
      ((testLogger.rotate testEnv copyFaultWorld).2.1.openContainer testEnv
        (testLogger.rotate testEnv copyFaultWorld).2.2).2.2.2
      "2024-05-01_1.zip"
      [DirEntry.mk "a.log" false] (DirEntry.mk "app-2024-05-01_1.log" false)
      [DirEntry.mk "b.log" false] Error.copy
      (by decide) (by decide) (by decide) (by decide) (by decide)).1,
   by decide, by decide⟩

/-- C6 as stated fails: a rotation of a fresh writer on an empty directory
succeeds and creates the active file, but there is no file to move aside,
so no backup exists afterwards. -/
theorem C6_counterexample :
    (testLogger.rotate testEnv emptyWorld).1 = none ∧
    listing (testLogger.rotate testEnv emptyWorld).2.2 = [("app.log", 0)] ∧
    ¬ ∃ n, n ∈ names (testLogger.rotate testEnv emptyWorld).2.2.files ∧
      n ∉ names emptyWorld.files ∧ n ≠ testLogger.active testEnv := by
  refine ⟨by decide, by decide, ?_⟩
  rintro ⟨n, h1, _, h3⟩
  have hn : names (testLogger.rotate testEnv emptyWorld).2.2.files = ["app.log"] := by decide
  rw [hn] at h1
  have ha : testLogger.active testEnv = "app.log" := by decide
  rw [ha] at h3
  simp at h1
  exact h3 h1

/-- C6 (amended): after a successful rotation the writer holds the active
file, which exists with size 0, and `size` is 0. When the rotation renamed
the active file (its stat found it), the backup holds what the active file
held, and if the generated backup name was not in the directory before,
the backup is the one and only entry that was not present before. When it
did not rename (the stat did not find the active file, which without
injected faults means the file was absent), no backup is created: the only
entry that can be new is the active file itself. -/
theorem C6_rotation_backup (env : Env) (l : FLogger) (w : World)
    (hok : (l.rotate env w).1 = none) :
    (l.rotate env w).2.1.size = 0 ∧ (l.rotate env w).2.1.file = some (l.active env) ∧
    List.lookup (l.active env) (l.rotate env w).2.2.files = some (Entry.file []) ∧
    ((Ev.rename (l.active env) (backupName (l.filename env) l.Prefix l.LocalTime w).1 ∈
        newEvents w (l.rotate env w).2.2 ∧
      ∃ e, List.lookup (l.active env) w.files = some e ∧
        List.lookup (backupName (l.filename env) l.Prefix l.LocalTime w).1
          (l.rotate env w).2.2.files = some e ∧
        ((backupName (l.filename env) l.Prefix l.LocalTime w).1 ∉ names w.files →
          ∀ n, (n ∈ names (l.rotate env w).2.2.files ∧ n ∉ names w.files) ↔
            n = (backupName (l.filename env) l.Prefix l.LocalTime w).1)) ∨
     ((∀ x y, Ev.rename x y ∉ newEvents w (l.rotate env w).2.2) ∧
      (w.faults = [] → List.lookup (l.active env) w.files = none) ∧
      ∀ n, n ∈ names (l.rotate env w).2.2.files → n ∉ names w.files → n = l.active env)) := by
  obtain ⟨r1, r2, _⟩ := rotate_ok env l w hok
  refine ⟨by rw [r1], by rw [r1], r2, ?_⟩
  obtain ⟨_, heq⟩ := rotate_eq_of_ok env l w hok
  obtain ⟨c1', c2, c3, c4, c5⟩ := close_world l (w.mark Ev.rotate)
  have c1 : (l.close (w.mark Ev.rotate)).2.2.files = w.files := c1'
  have hname : (backupName (l.filename env) l.Prefix l.LocalTime
      (l.close (w.mark Ev.rotate)).2.2).1 =
      (backupName (l.filename env) l.Prefix l.LocalTime w).1 :=
    backupName_congr _ _ _ _ _ c2 c3 c4
  have hbne := nextBackup_ne_active env l w
  have e1 := (Extends.mark w Ev.rotate).trans (close_spec l (w.mark Ev.rotate)).2.2
  have hcl : ∀ x y, Ev.rename x y ∉
      (match l.file with | none => ([] : List Ev) | some h => [Ev.close h]) := by
    intro x y
    cases l.file <;> simp
  rw [heq] at hok ⊢
  rcases (openNew_ok env _ _ hok).2 with ⟨hn, h⟩ | ⟨e, he, h⟩
  · right
    have e2 : Extends (l.close (w.mark Ev.rotate)).2.2
        (FLogger.openNew env { l with file := none } (l.close (w.mark Ev.rotate)).2.2).2.2
        [Ev.mkdirAll, Ev.stat (l.active env), Ev.create (l.active env)] := by
      rw [h]; exact ⟨rfl, le_refl _⟩
    refine ⟨?_, ?_, ?_⟩
    · intro x y
      rw [(e1.trans e2).newEvents]
      simp only [List.mem_append, List.mem_cons, List.mem_singleton, not_or]
      refine ⟨⟨by simp, hcl x y⟩, by simp⟩
    · intro hf
      have := hn (c5 hf).1
      rw [c1] at this
      exact this
    · intro n h1 h2
      rw [h] at h1
      have h1' : n ∈ names (put (l.active env) (Entry.file [])
          (l.close (w.mark Ev.rotate)).2.2.files) := h1
      rw [c1, mem_names_put] at h1'
      rcases h1' with h3 | h3
      · exact h3
      · exact absurd h3 h2
  · left
    have e2 : Extends (l.close (w.mark Ev.rotate)).2.2
        (FLogger.openNew env { l with file := none } (l.close (w.mark Ev.rotate)).2.2).2.2
        [Ev.mkdirAll, Ev.stat (l.active env),
          Ev.rename (l.active env) (backupName (l.filename env) l.Prefix l.LocalTime w).1,
          Ev.create (l.active env)] := by
      rw [h, ← hname]; exact ⟨rfl, Nat.le_succ _⟩
    have hfiles : (FLogger.openNew env { l with file := none }
        (l.close (w.mark Ev.rotate)).2.2).2.2.files =
        put (l.active env) (Entry.file [])
          (put (backupName (l.filename env) l.Prefix l.LocalTime w).1 e
            (del (l.active env) w.files)) := by
      rw [h, ← hname, ← c1]; rfl
    have he' : List.lookup (l.active env) w.files = some e := by rw [← c1]; exact he
    refine ⟨?_, e, he', ?_, ?_⟩
    · rw [(e1.trans e2).newEvents]
      simp
    · rw [hfiles, lookup_put_ne _ _ _ _ hbne, lookup_put_self]
    · intro hfresh n
      rw [hfiles, mem_names_put, mem_names_put, mem_names_del]
      have hain : l.active env ∈ names w.files := by
        rw [← lookup_isSome_iff, he']; rfl
      constructor
      · rintro ⟨h1 | h1 | ⟨_, h1⟩, h2⟩
        · rw [h1] at h2; exact absurd hain h2
        · exact h1
        · exact absurd h1 h2
      · intro h1
        rw [h1]
        exact ⟨Or.inr (Or.inl rfl), hfresh⟩

/-- Witness of C6: the rotation of a 300-byte active file on a directory
that holds nothing else. -/
theorem C6_rotation_backup_witness :
    (testLogger.rotate testEnv (worldWith 300)).1 = none ∧
    (testLogger.rotate testEnv (worldWith 300)).2.1.size = 0 ∧
    listing (testLogger.rotate testEnv (worldWith 300)).2.2 =
      [("app.log", 0), ("app-2024-05-01_1.log", 300)] :=
  ⟨by decide, (C6_rotation_backup testEnv testLogger (worldWith 300) (by decide)).1, by decide⟩


/-- C5 as stated fails when a file-system call fails, in two ways. A write
that the operating system cuts short after 3 of 10 bytes makes `Write`
return 3 together with the error: the 3 bytes are in the active file while
the successful writes sum to 0. And when the `os.Stat` of `openNew` fails
in the rotation triggered by the sixth of six 200-byte writes (`max` is
1024), the rename is skipped and the active file is truncated: all six
writes return 200 and no error, yet the directory holds 200 bytes, not
1200. -/
theorem C5_counterexample :
    ((runCalls testEnv (FLogger.fresh "logs/app" 1 true, shortWriteWorld)
        [Call.mk "2024-05-01" "2024-05-01" (block 10)]).2.map (fun r => (r.2.1, r.2.2)) =
      [(3, some Error.write)] ∧
    totalBytes (runCalls testEnv (FLogger.fresh "logs/app" 1 true, shortWriteWorld)
        [Call.mk "2024-05-01" "2024-05-01" (block 10)]).1.2.files = 3 ∧
    ((okCalls (runCalls testEnv (FLogger.fresh "logs/app" 1 true, shortWriteWorld)
        [Call.mk "2024-05-01" "2024-05-01" (block 10)]).2).map (fun r => r.2.1)).sum = 0) ∧
    ((runCalls testEnv (FLogger.fresh "logs/app" 1 true, statFaultWorld) sixWrites).2.map
        (fun r => (r.2.1, r.2.2)) = List.replicate 6 (200, none) ∧
    listing (runCalls testEnv (FLogger.fresh "logs/app" 1 true, statFaultWorld) sixWrites).1.2 =
      [("app.log", 200)] ∧
    totalBytes (runCalls testEnv (FLogger.fresh "logs/app" 1 true, statFaultWorld)
        sixWrites).1.2.files = 200 ∧
    ((okCalls (runCalls testEnv (FLogger.fresh "logs/app" 1 true, statFaultWorld)
        sixWrites).2).map (fun r => r.2.1)).sum = 1200) := by
  decide

/-- C5 (amended): for every sequence of `Write` calls on a fresh writer,
made at any dates, starting from an empty log directory, in a run in which
no file-system call fails: the total number of bytes in the directory
(active file plus backups) equals the sum of the byte counts returned by the
writes that returned no error, and the files, oldest first, hold exactly
the data of those writes in call order, each write whole inside one file
(no write lost, duplicated or split by a rotation). -/
theorem C5_writes_accounted (env : Env) (pfx : String) (maxSize : Int) (localTime : Bool)
    (w0 : World) (calls : List Call) (hdir : w0.files = []) (hfaults : w0.faults = []) :
    totalBytes (runCalls env (FLogger.fresh pfx maxSize localTime, w0) calls).1.2.files =
      ((okCalls (runCalls env (FLogger.fresh pfx maxSize localTime, w0) calls).2).map
        (fun r => r.2.1)).sum ∧
    ∃ groups : List (String × List (List UInt8)),
      (runCalls env (FLogger.fresh pfx maxSize localTime, w0) calls).1.2.files =
        groupFiles groups ∧
      (groups.map (fun g => g.1)).Nodup ∧
      (groups.reverse.map (fun g => g.2)).flatten =
        (okCalls (runCalls env (FLogger.fresh pfx maxSize localTime, w0) calls).2).map
          (fun r => r.1.data) := by
  have h0 : Good env (FLogger.fresh pfx maxSize localTime, w0) [] := by
    refine ⟨hfaults, by rw [hdir]; rfl, by simp, fun _ => rfl, ?_, by simp⟩
    intro h hh
    simp [FLogger.fresh] at hh
  obtain ⟨groups, hg, hcat, hlen⟩ := runCalls_good env calls _ [] h0
  simp only [List.reverse_nil, List.map_nil, List.flatten_nil, List.nil_append] at hcat
  refine ⟨?_, groups, hg.2.1, hg.2.2.1, hcat⟩
  rw [hg.2.1, totalBytes_groupFiles, hcat, List.map_map]
  congr 1
  apply List.map_congr_left
  intro r hr
  exact (hlen r hr).symm

/-- Witness of C5: six 200-byte writes and one oversized (1025-byte) write into an
empty directory with `max = 1024`: 1200 bytes on disk, in two files. -/
theorem C5_writes_accounted_witness :
    totalBytes (runCalls testEnv (FLogger.fresh "logs/app" 1 true, emptyWorld)
      ((List.replicate 5 (Call.mk "2024-05-01" "2024-05-01" (block 200))) ++
        [Call.mk "2024-05-02" "2024-05-02" (block 1025),
         Call.mk "2024-05-02" "2024-05-02" (block 200)])).1.2.files = 1200 ∧
    listing (runCalls testEnv (FLogger.fresh "logs/app" 1 true, emptyWorld)
      ((List.replicate 5 (Call.mk "2024-05-01" "2024-05-01" (block 200))) ++
        [Call.mk "2024-05-02" "2024-05-02" (block 1025),
         Call.mk "2024-05-02" "2024-05-02" (block 200)])).1.2 =
      [("app.log", 200), ("app-2024-05-02_1.log", 1000)] :=
  ⟨by
    rw [(C5_writes_accounted testEnv "logs/app" 1 true emptyWorld
      ((List.replicate 5 (Call.mk "2024-05-01" "2024-05-01" (block 200))) ++
        [Call.mk "2024-05-02" "2024-05-02" (block 1025),
         Call.mk "2024-05-02" "2024-05-02" (block 200)]) (by decide) (by decide)).1]
    decide,
   by decide⟩

end Zglog
